import Mathlib

/-!
# protoc-gen-grpc-httpgw: the gateway template engine (`gengateway/template.go`)

A shallow embedding of `gengateway/template.go`: the `binding` wrapper and its
methods (`GetBodyFieldPath`, `HasQueryParam`, `QueryParamFilter`,
`FieldMaskField`, ...), `queryParamFilter.String`, the handler templates and
`applyTemplate`.

Conventions of the embedding.

* Go strings are `String`; `strings.Join` and `strings.Split` are defined on the
  underlying character lists.
* A Go `map[string]bool` used as a set is the list of its keys (no duplicates);
  a Go `map[string]int` is the list of its entries in the order in which `range`
  visits them, so that the iteration order is an explicit input.
* Pointers that may be `nil` are `Option`; a Go panic and a template execution
  error are the error side of `Except`.
* The `descriptor` package, `generator2.CamelCase`, `utilities.NewDoubleArray`
  and the `fmt` verbs are not part of the source tree. What the code calls from
  them is collected in the structure `Env` and taken as a parameter.
* A template execution produces a list of `Piece`s: the text nodes of the
  template, verbatim, and the values printed by its actions. The emitted text is
  the concatenation of the pieces (`render`).
-/

namespace Gengateway

/-! ## Go library helpers -/

/-- Go `strings.Join(elems, sep)`. -/
def stringsJoin (elems : List String) (sep : String) : String :=
  String.mk (List.intercalate sep.data (elems.map String.data))

/-- Go `strings.Split(s, sep)` for a separator `sep` of one character. -/
def stringsSplit (s : String) (sep : Char) : List String :=
  (s.data.splitOn sep).map String.mk

/-- A Go `map[string]bool` whose values are all `true`: the list of its keys. -/
abbrev StringSet := List String

/-- Go `m[k] = true`. -/
def StringSet.set (m : StringSet) (k : String) : StringSet :=
  if k ∈ m then m else m ++ [k]

/-- Go `delete(m, k)`. -/
def StringSet.delete (m : StringSet) (k : String) : StringSet :=
  m.filter (fun x => x != k)

/-- Go `s[i] = v` on a slice: `none` is the index-out-of-range panic. -/
def sliceSet (s : List String) (i : Int) (v : String) : Option (List String) :=
  if 0 ≤ i ∧ i < s.length then some (s.set i.toNat v) else none

/-! ## The descriptor model (the part of package `descriptor` the templates read) -/

/-- One component of a field path (`descriptor.FieldPathComponent`). -/
structure FieldPathComponent where
  Name : String
deriving DecidableEq, Repr

/-- A field path (`descriptor.FieldPath`): the sequence of its components. -/
abbrev FieldPath := List FieldPathComponent

/-- Modelled from the spec: `descriptor.FieldPath.String` is not in the source tree;
a field path is "a dotted sequence of field names", so its string form joins the
component names with dots. -/
def FieldPath.String (p : FieldPath) : String :=
  stringsJoin (p.map (fun c => c.Name)) "."

/-- A message field (`descriptor.Field`): `GetName()` and `GetTypeName()`. -/
structure Field where
  Name : String
  TypeName : String
deriving DecidableEq, Repr

/-- A message (`descriptor.Message`). -/
structure Message where
  Name : String
  Fields : List Field
deriving DecidableEq, Repr

/-- The body of a binding (`descriptor.Body`). -/
structure Body where
  FieldPath : FieldPath
deriving DecidableEq, Repr

/-- A path parameter (`descriptor.Parameter`). -/
structure Parameter where
  FieldPath : FieldPath
  Target : Field
  /-- Value of `Target.Message.File.GoPkg.Path`. -/
  TargetGoPkgPath : String
deriving DecidableEq, Repr

/-- An enum (`descriptor.Enum`). -/
structure Enum where
  Name : String
deriving DecidableEq, Repr

/-- One HTTP binding of a method (`descriptor.Binding`), without its back pointer
to the method, which the wrapper `binding` carries. -/
structure Binding where
  Index : Nat
  HTTPMethod : String
  Body : Option Body
  PathParams : List Parameter
deriving DecidableEq, Repr

/-- Where a method's request type lives: among the messages of the file being
generated (by position, so that renaming the message is seen through the
method), or in another file. -/
inductive MessageRef where
  | inFile (i : Nat)
  | imported (m : Message)
deriving DecidableEq, Repr

/-- A method of a service (`descriptor.Method`). -/
structure Method where
  Name : String
  ClientStreaming : Bool
  ServerStreaming : Bool
  RequestType : MessageRef
  Bindings : List Binding
deriving DecidableEq, Repr

/-- A service (`descriptor.Service`). -/
structure Service where
  Name : String
  Methods : List Method
deriving DecidableEq, Repr

/-- A Go package (`descriptor.GoPackage`). -/
structure GoPackage where
  Path : String
  Name : String
  Alias : String
deriving DecidableEq, Repr

/-- A file (`descriptor.File`): `Name` is the value of `GetName()`. -/
structure File where
  Name : String
  GoPkg : GoPackage
  Messages : List Message
  Services : List Service
deriving DecidableEq, Repr

/-- The pointer `Method.RequestType` followed through the messages of the file:
`none` is a pointer to nothing. -/
def MessageRef.deref (msgs : List Message) : MessageRef → Option Message
  | .inFile i => msgs[i]?
  | .imported m => some m

/-- The registry (`descriptor.Registry`): the configuration the templates read. -/
structure Registry where
  RepeatedPathParamSeparator : Char
  AllowColonFinalSegments : Bool
  Enums : List (String × Enum)
deriving DecidableEq, Repr

/-- What a handler template reaches through `.Method.Service`. -/
structure ServiceView where
  Name : String
  GoPkgPath : String
deriving DecidableEq, Repr

/-- What a handler template reaches through `.Method`: the method with its
request type and service resolved. -/
structure MethodView where
  Name : String
  ClientStreaming : Bool
  ServerStreaming : Bool
  RequestType : Message
  Service : ServiceView
deriving DecidableEq, Repr

/-- The template argument `binding` of `template.go`. -/
structure binding where
  Binding : Binding
  Method : MethodView
  Registry : Option Registry
  AllowPatchFeature : Bool
deriving DecidableEq, Repr

/-- The wrapped double array (`utilities.DoubleArray`). `Encoding` lists the
entries of the Go map in iteration order; a `nil` slice is `none`. -/
structure DoubleArray where
  Encoding : List (String × Int)
  Base : Option (List Int)
  Check : Option (List Int)
deriving DecidableEq, Repr

/-- The wrapper `queryParamFilter` of `template.go`. -/
structure queryParamFilter where
  DoubleArray : DoubleArray
deriving DecidableEq, Repr

/-- The argument `param` of the header template. -/
structure param where
  File : File
  Imports : List GoPackage
  UseRequestContext : Bool
  RegisterFuncSuffix : String
  AllowPatchFeature : Bool
  AdditionImports : List String
deriving DecidableEq, Repr

/-- The argument `trailerParams` of the trailer template. -/
structure trailerParams where
  Services : List Service
  UseRequestContext : Bool
  RegisterFuncSuffix : String
  AssumeColonVerb : Bool
deriving DecidableEq, Repr

/-- The errors `applyTemplate` returns: the package variable `errNoTargetService`,
or the error of a failed template execution. -/
inductive Error where
  | errNoTargetService
  | exec (msg : String)
deriving DecidableEq, Repr

/-- What a run of `applyTemplate` does, in order: a template execution is logged
with its argument when it starts, a renaming with the position of the renamed
object (message `i` of the file, service `i`, method `j` of service `i`). -/
inductive Event where
  | header (p : param)
  | renameMessage (i : Nat)
  | renameService (i : Nat)
  | renameMethod (i j : Nat)
  | handler (b : binding)
  | trailer (tp : trailerParams)
deriving DecidableEq, Repr

/-- The state of a run of `applyTemplate`: the buffer `w`, the log, and the
error of the template execution that failed, if one did. -/
structure Run where
  w : String
  log : List Event
  err : Option Error
deriving DecidableEq, Repr

/-- The outcome of `applyTemplate`: the returned pair `(out, err)`, the file as
the run leaves it (names are rewritten in place), and the log of the run. -/
structure Result where
  out : String
  err : Option Error
  file : File
  log : List Event
deriving DecidableEq, Repr

/-- The functions of other packages that `template.go` calls. -/
structure Env where
  /-- Value of `generator2.CamelCase`. -/
  CamelCase : String → String
  /-- Value of `fmt.Sprintf("%q", s)` on a string. -/
  quote : String → String
  /-- Value of `fmt.Sprintf("%#v", s)` on a `[]int`. -/
  goSyntaxInts : Option (List Int) → String
  /-- Value of `utilities.NewDoubleArray`. -/
  NewDoubleArray : List (List String) → DoubleArray
  /-- Value of `Registry.LookupEnum("", name)`: `none` when it returns an error. -/
  RegistryLookupEnum : Registry → String → String → Option Enum
  /-- Value of `Message.GoType(currentPackage)`. -/
  MessageGoType : Message → String → String
  /-- Value of `Enum.GoType(currentPackage)`. -/
  EnumGoType : Enum → String → String
  /-- Value of `Body.AssignableExpr(msgExpr)`. -/
  BodyAssignableExpr : Body → String → String
  /-- Value of `Parameter.String()`. -/
  ParameterString : Parameter → String
  /-- Value of `Parameter.IsNestedProto3()`. -/
  ParameterIsNestedProto3 : Parameter → Bool
  /-- Value of `Parameter.IsRepeated()`. -/
  ParameterIsRepeated : Parameter → Bool
  /-- Value of `Parameter.IsEnum()`. -/
  ParameterIsEnum : Parameter → Bool
  /-- Value of `Parameter.ConvertFuncExpr()`: a string or an error. -/
  ParameterConvertFuncExpr : Parameter → Except String String
  /-- Value of `Parameter.AssignableExpr(msgExpr)`. -/
  ParameterAssignableExpr : Parameter → String → String
  /-- Value of `Method.GetTargetSvrName()`. -/
  MethodGetTargetSvrName : MethodView → String
  /-- Value of `Method.GetTargetSvrPackage()`. -/
  MethodGetTargetSvrPackage : MethodView → String
  /-- Value of `Service.ParseAdditionalImport()`. -/
  ServiceParseAdditionalImport : Service → List String
  /-- Value of `GoPackage.Standard()`. -/
  GoPackageStandard : GoPackage → Bool
  /-- Value of `GoPackage.String()`. -/
  GoPackageString : GoPackage → String
  /-- Outcome of `trailerTemplate.Execute` on its argument: the text written, or
  an error. The text of the trailer template is not modelled. -/
  trailerTemplate : trailerParams → Except String String

/-! ## Methods of `binding` -/

/-- GetBodyFieldPath returns the binding body's fieldpath. -/
def binding.GetBodyFieldPath (b : binding) : String :=
  match b.Binding.Body with
  | some body => if body.FieldPath.length != 0 then body.FieldPath.String else "*"
  | none => "*"

/-- HasQueryParam determines if the binding needs parameters in query string. -/
def binding.HasQueryParam (b : binding) : Bool :=
  if (match b.Binding.Body with
      | some body => body.FieldPath.length == 0
      | none => false) then
    false
  else
    let fields : StringSet := []
    let fields : StringSet :=
      b.Method.RequestType.Fields.foldl (fun m f => m.set f.Name) fields
    let fields : StringSet :=
      match b.Binding.Body with
      | some body => fields.delete body.FieldPath.String
      | none => fields
    let fields : StringSet :=
      b.Binding.PathParams.foldl (fun m p => m.delete p.FieldPath.String) fields
    decide (fields.length > 0)

/-- The local variable `seqs` of `QueryParamFilter` at the call of
`utilities.NewDoubleArray`. -/
def binding.QueryParamFilter.seqs (b : binding) : List (List String) :=
  let seqs : List (List String) := []
  let seqs :=
    match b.Binding.Body with
    | some body => seqs ++ [stringsSplit body.FieldPath.String '.']
    | none => seqs
  b.Binding.PathParams.foldl (fun seqs p => seqs ++ [stringsSplit p.FieldPath.String '.']) seqs

/-- QueryParamFilter builds the filter of the binding. -/
def binding.QueryParamFilter (env : Env) (b : binding) : queryParamFilter :=
  { DoubleArray := env.NewDoubleArray (binding.QueryParamFilter.seqs b) }

/-- The loop of `hasEnumPathParam`: the first parameter that is an enum with the
asked repetition returns true. -/
def binding.hasEnumPathParam (env : Env) (b : binding) (repeated : Bool) : Bool :=
  b.Binding.PathParams.any
    (fun p => env.ParameterIsEnum p && (env.ParameterIsRepeated p == repeated))

/-- HasEnumPathParam: some path parameter maps to an enum field that is not repeated. -/
def binding.HasEnumPathParam (env : Env) (b : binding) : Bool :=
  b.hasEnumPathParam env false

/-- HasRepeatedEnumPathParam: some path parameter maps to a repeated enum field. -/
def binding.HasRepeatedEnumPathParam (env : Env) (b : binding) : Bool :=
  b.hasEnumPathParam env true

/-- LookupEnum looks up a enum type by path parameter. The outer `Except` is the
failure of the call itself (a `nil` registry); the inner `Option` is the
returned pointer. -/
def binding.LookupEnum (env : Env) (b : binding) (p : Parameter) :
    Except String (Option Enum) :=
  match b.Registry with
  | none => .error "nil pointer dereference"
  | some reg => .ok (env.RegistryLookupEnum reg "" p.Target.TypeName)

/-- The loop of `FieldMaskField` from the state `fieldMaskField`: `none` in the
result is the early `return ""`, `some s` is the state after the last field. -/
def binding.FieldMaskField.scan :
    List Field → Option Field → Option (Option Field)
  | [], fieldMaskField => some fieldMaskField
  | f :: rest, fieldMaskField =>
    if f.TypeName = ".google.protobuf.FieldMask" then
      -- if there is more than 1 FieldMask for this request, then return none
      match fieldMaskField with
      | some _ => none
      | none => binding.FieldMaskField.scan rest (some f)
    else
      binding.FieldMaskField.scan rest fieldMaskField

/-- FieldMaskField returns the golang-style name of the variable for a FieldMask,
if there is exactly one of that type in the message. Otherwise, it returns an
empty string. -/
def binding.FieldMaskField (env : Env) (b : binding) : String :=
  match binding.FieldMaskField.scan b.Method.RequestType.Fields none with
  | none => ""
  | some (some fieldMaskField) => env.CamelCase fieldMaskField.Name
  | some none => ""

/-! ## `queryParamFilter.String` -/

/-- The loop `for str, enc := range f.Encoding` of `String`, over the entries in
iteration order: each writes `encodings[enc]`. -/
def queryParamFilter.String.fill (env : Env) :
    List (String × Int) → List String → Option (List String)
  | [], encodings => some encodings
  | (str, enc) :: rest, encodings =>
    match sliceSet encodings enc (env.quote str ++ ": " ++ toString enc) with
    | none => none
    | some encodings => queryParamFilter.String.fill env rest encodings

/-- String outputs the double array in Go syntax; `none` is a panic. -/
def queryParamFilter.String (env : Env) (f : queryParamFilter) : Option String :=
  let encodings := List.replicate f.DoubleArray.Encoding.length ""
  match queryParamFilter.String.fill env f.DoubleArray.Encoding encodings with
  | none => none
  | some encodings =>
    let e := stringsJoin encodings ", "
    some ("&utilities.DoubleArray\x7bEncoding: map[string]int\x7b" ++ e ++ "\x7d, Base: "
      ++ env.goSyntaxInts f.DoubleArray.Base ++ ", Check: "
      ++ env.goSyntaxInts f.DoubleArray.Check ++ "\x7d")

/-! ## Template output -/

/-- One piece of the output of a template execution: a text node of the
template, or the value printed by an action. -/
inductive Piece where
  | text (s : String)
  | value (s : String)
deriving DecidableEq, Repr

/-- The characters a piece writes. -/
def Piece.str : Piece → String
  | .text s => s
  | .value s => s

/-- The text written by a template execution. -/
def render (ps : List Piece) : String :=
  String.join (ps.map Piece.str)

/-! ## The handler templates -/

/-- The function name suffix shared by the generated symbols of a binding:
`{{.Method.Service.Name}}_{{.Method.GetTargetSvrName}}_{{.Method.GetName}}_{{.Index}}`
is written piece by piece in the templates below. Template "request-func-signature"
(parsed after its newlines are removed). -/
def requestFuncSignature (env : Env) (b : binding) : List Piece :=
  if b.Method.ServerStreaming then
    [ .text "func request_", .value b.Method.Service.Name,
      .text "_", .value (env.MethodGetTargetSvrName b.Method),
      .text "_", .value b.Method.Name,
      .text "_", .value (toString b.Binding.Index),
      .text "(ctx context.Context, marshaler runtime.Marshaler, client ",
      .value (env.MethodGetTargetSvrPackage b.Method),
      .value (env.MethodGetTargetSvrName b.Method),
      .text "Client, req *http.Request, pathParams map[string]string) (",
      .value (env.MethodGetTargetSvrName b.Method),
      .text "_", .value b.Method.Name,
      .text "Client, runtime.ServerMetadata, error)" ]
  else
    [ .text "func request_", .value b.Method.Service.Name,
      .text "_", .value (env.MethodGetTargetSvrName b.Method),
      .text "_", .value b.Method.Name,
      .text "_", .value (toString b.Binding.Index),
      .text "(ctx context.Context, marshaler runtime.Marshaler, client ",
      .value (env.MethodGetTargetSvrPackage b.Method),
      .value (env.MethodGetTargetSvrName b.Method),
      .text "Client, req *http.Request, pathParams map[string]string) (proto.Message, runtime.ServerMetadata, error)" ]

/-- Template "client-streaming-request-func". -/
def clientStreamingRequestFunc (env : Env) (b : binding) : List Piece :=
  [ .text "\n" ] ++ requestFuncSignature env b ++
  [ .text " \x7b\n\tvar metadata runtime.ServerMetadata\n\tstream, err := client.",
    .value b.Method.Name,
    .text "(ctx)\n\tif err != nil \x7b\n\t\tgrpclog.Infof(\"Failed to start streaming: %v\", err)\n\t\treturn nil, metadata, err\n\t\x7d\n\tdec := marshaler.NewDecoder(req.Body)\n\tfor \x7b\n\t\tvar protoReq ",
    .value (env.MessageGoType b.Method.RequestType b.Method.Service.GoPkgPath),
    .text "\n\t\terr = dec.Decode(&protoReq)\n\t\tif err == io.EOF \x7b\n\t\t\tbreak\n\t\t\x7d\n\t\tif err != nil \x7b\n\t\t\tgrpclog.Infof(\"Failed to decode request: %v\", err)\n\t\t\treturn nil, metadata, status.Errorf(codes.InvalidArgument, \"%v\", err)\n\t\t\x7d\n\t\tif err = stream.Send(&protoReq); err != nil \x7b\n\t\t\tif err == io.EOF \x7b\n\t\t\t\tbreak\n\t\t\t\x7d\n\t\t\tgrpclog.Infof(\"Failed to send request: %v\", err)\n\t\t\treturn nil, metadata, err\n\t\t\x7d\n\t\x7d\n\n\tif err := stream.CloseSend(); err != nil \x7b\n\t\tgrpclog.Infof(\"Failed to terminate client stream: %v\", err)\n\t\treturn nil, metadata, err\n\t\x7d\n\theader, err := stream.Header()\n\tif err != nil \x7b\n\t\tgrpclog.Infof(\"Failed to get header from client: %v\", err)\n\t\treturn nil, metadata, err\n\t\x7d\n\tmetadata.HeaderMD = header\n" ] ++
  (if b.Method.ServerStreaming then
    [ .text "\n\treturn stream, metadata, nil\n" ]
  else
    [ .text "\n\tmsg, err := stream.CloseAndRecv()\n\tmetadata.TrailerMD = stream.Trailer()\n\treturn msg, metadata, err\n" ]) ++
  [ .text "\n\x7d\n" ]

/-- Template "bidi-streaming-request-func". -/
def bidiStreamingRequestFunc (env : Env) (b : binding) : List Piece :=
  [ .text "\n" ] ++ requestFuncSignature env b ++
  [ .text " \x7b\n\tvar metadata runtime.ServerMetadata\n\tstream, err := client.",
    .value b.Method.Name,
    .text "(ctx)\n\tif err != nil \x7b\n\t\tgrpclog.Infof(\"Failed to start streaming: %v\", err)\n\t\treturn nil, metadata, err\n\t\x7d\n\tdec := marshaler.NewDecoder(req.Body)\n\thandleSend := func() error \x7b\n\t\tvar protoReq ",
    .value (env.MessageGoType b.Method.RequestType b.Method.Service.GoPkgPath),
    .text "\n\t\terr := dec.Decode(&protoReq)\n\t\tif err == io.EOF \x7b\n\t\t\treturn err\n\t\t\x7d\n\t\tif err != nil \x7b\n\t\t\tgrpclog.Infof(\"Failed to decode request: %v\", err)\n\t\t\treturn err\n\t\t\x7d\n\t\tif err := stream.Send(&protoReq); err != nil \x7b\n\t\t\tgrpclog.Infof(\"Failed to send request: %v\", err)\n\t\t\treturn err\n\t\t\x7d\n\t\treturn nil\n\t\x7d\n\tif err := handleSend(); err != nil \x7b\n\t\tif cerr := stream.CloseSend(); cerr != nil \x7b\n\t\t\tgrpclog.Infof(\"Failed to terminate client stream: %v\", cerr)\n\t\t\x7d\n\t\tif err == io.EOF \x7b\n\t\t\treturn stream, metadata, nil\n\t\t\x7d\n\t\treturn nil, metadata, err\n\t\x7d\n\tgo func() \x7b\n\t\tfor \x7b\n\t\t\tif err := handleSend(); err != nil \x7b\n\t\t\t\tbreak\n\t\t\t\x7d\n\t\t\x7d\n\t\tif err := stream.CloseSend(); err != nil \x7b\n\t\t\tgrpclog.Infof(\"Failed to terminate client stream: %v\", err)\n\t\t\x7d\n\t\x7d()\n\theader, err := stream.Header()\n\tif err != nil \x7b\n\t\tgrpclog.Infof(\"Failed to get header from client: %v\", err)\n\t\treturn nil, metadata, err\n\t\x7d\n\tmetadata.HeaderMD = header\n\treturn stream, metadata, nil\n\x7d\n" ]

/-- The declaration of the filter variable at the head of template
"client-rpc-request-func": `{{if .HasQueryParam}} ... {{.QueryParamFilter}} ... {{end}}`.
Printing the filter calls its `String` method; a panic there fails the execution. -/
def clientRpcFilterVar (env : Env) (b : binding) : Except String (List Piece) :=
  if b.HasQueryParam then
    match (b.QueryParamFilter env).String env with
    | none => .error "index out of range"
    | some s =>
      .ok [ .text "\nvar (\n\tfilter_", .value b.Method.Service.Name,
            .text "_", .value b.Method.Name,
            .text "_", .value (toString b.Binding.Index),
            .text " = ", .value s,
            .text "\n)\n" ]
  else
    .ok []

/-- The field-mask block of template "client-rpc-request-func":
`{{- if and $AllowPatchFeature (and (eq (.HTTPMethod) "PATCH") (.FieldMaskField))}}`
up to its `{{end}}`. A string is true in a template when it is not empty. -/
def clientRpcFieldMask (env : Env) (b : binding) : List Piece :=
  if b.AllowPatchFeature && (b.Binding.HTTPMethod == "PATCH" && b.FieldMaskField env != "") then
    [ .text "\n\tif protoReq.", .value (b.FieldMaskField env),
      .text " != nil && len(protoReq.", .value (b.FieldMaskField env),
      .text ".GetPaths()) > 0 \x7b\n\t\truntime.CamelCaseFieldMask(protoReq.",
      .value (b.FieldMaskField env),
      .text ")\n\t\x7d " ] ++
    (if !("*" == b.GetBodyFieldPath) then
      [ .text " else \x7b\n\t\t\tif fieldMask, err := runtime.FieldMaskFromRequestBody(newReader()); err != nil \x7b\n\t\t\t\treturn nil, metadata, status.Errorf(codes.InvalidArgument, \"%v\", err)\n\t\t\t\x7d else \x7b\n\t\t\t\tprotoReq.",
        .value (b.FieldMaskField env),
        .text " = fieldMask\n\t\t\t\x7d\n\t\x7d " ]
    else
      []) ++
    [ .text "\n\t" ]
  else
    []

/-- The body block of template "client-rpc-request-func": `{{if .Body}} ... {{end}}`. -/
def clientRpcBody (env : Env) (b : binding) : List Piece :=
  match b.Binding.Body with
  | some body =>
    [ .text "\n\tnewReader, berr := utilities.IOReaderFactory(req.Body)\n\tif berr != nil \x7b\n\t\treturn nil, metadata, status.Errorf(codes.InvalidArgument, \"%v\", berr)\n\t\x7d\n\tif err := marshaler.NewDecoder(newReader()).Decode(&",
      .value (env.BodyAssignableExpr body "protoReq"),
      .text "); err != nil && err != io.EOF  \x7b\n\t\treturn nil, metadata, status.Errorf(codes.InvalidArgument, \"%v\", err)\n\t\x7d" ] ++
    clientRpcFieldMask env b ++
    [ .text "\n" ]
  | none => []

/-- The action `{{$binding.Registry.GetRepeatedPathParamSeparator | printf "%c" | printf "%q"}}`. -/
def repeatedPathParamSeparator (env : Env) (b : binding) : Except String Piece :=
  match b.Registry with
  | none => .error "nil pointer dereference"
  | some reg => .ok (.value (env.quote (String.singleton reg.RepeatedPathParamSeparator)))

/-- The separator argument of a conversion call:
`{{if $param.IsRepeated}}, {{... GetRepeatedPathParamSeparator ...}}{{end}}`. -/
def clientRpcSeparatorArg (env : Env) (b : binding) (param : Parameter) :
    Except String (List Piece) :=
  if env.ParameterIsRepeated param then
    match repeatedPathParamSeparator env b with
    | .error e => .error e
    | .ok sep => .ok [ .text ", ", sep ]
  else
    .ok []

/-- The conversion of one path parameter in template "client-rpc-request-func":
`{{if $param.IsNestedProto3}} ... {{else if $enum}} ... {{else}} ... {{end}}`. -/
def clientRpcConvert (env : Env) (b : binding) (param : Parameter) (enum : Option Enum) :
    Except String (List Piece) :=
  if env.ParameterIsNestedProto3 param then
    .ok [ .text "\n\terr = runtime.PopulateFieldFromPath(&protoReq, ",
          .value (env.quote (env.ParameterString param)),
          .text ", val)\n" ]
  else
    match enum with
    | some en =>
      match env.ParameterConvertFuncExpr param with
      | .error e => .error e
      | .ok conv =>
        match clientRpcSeparatorArg env b param with
        | .error e => .error e
        | .ok sep =>
          .ok ([ .text "\n\te" ] ++
            (if env.ParameterIsRepeated param then [ .text "s" ] else []) ++
            [ .text ", err = ", .value conv, .text "(val" ] ++ sep ++
            [ .text ", ", .value (env.EnumGoType en param.TargetGoPkgPath), .text "_value)\n" ])
    | none =>
      match env.ParameterConvertFuncExpr param with
      | .error e => .error e
      | .ok conv =>
        match clientRpcSeparatorArg env b param with
        | .error e => .error e
        | .ok sep =>
          .ok ([ .text "\n\t", .value (env.ParameterAssignableExpr param "protoReq"),
                 .text ", err = ", .value conv, .text "(val" ] ++ sep ++
            [ .text ")\n" ])

/-- The assignment of a converted enum value in template "client-rpc-request-func":
`{{if and $enum $param.IsRepeated}} ... {{else if $enum}} ... {{end}}`. -/
def clientRpcEnumAssign (env : Env) (param : Parameter) (enum : Option Enum) : List Piece :=
  match enum with
  | some en =>
    if env.ParameterIsRepeated param then
      [ .text "\n\ts := make([]", .value (env.EnumGoType en param.TargetGoPkgPath),
        .text ", len(es))\n\tfor i, v := range es \x7b\n\t\ts[i] = ",
        .value (env.EnumGoType en param.TargetGoPkgPath),
        .text "(v)\n\t\x7d\n\t", .value (env.ParameterAssignableExpr param "protoReq"),
        .text " = s\n" ]
    else
      [ .text "\n\t", .value (env.ParameterAssignableExpr param "protoReq"),
        .text " = ", .value (env.EnumGoType en param.TargetGoPkgPath),
        .text "(e)\n" ]
  | none => []

/-- The body of `{{range $param := .PathParams}}` for one parameter. -/
def clientRpcPathParam (env : Env) (b : binding) (param : Parameter) :
    Except String (List Piece) :=
  match b.LookupEnum env param with
  | .error e => .error e
  | .ok enum =>
    match clientRpcConvert env b param enum with
    | .error e => .error e
    | .ok conv =>
      .ok ([ .text "\n\t", .text "\n\tval, ok = pathParams[",
             .value (env.quote (env.ParameterString param)),
             .text "]\n\tif !ok \x7b\n\t\treturn nil, metadata, status.Errorf(codes.InvalidArgument, \"missing parameter %s\", ",
             .value (env.quote (env.ParameterString param)),
             .text ")\n\t\x7d\n" ] ++ conv ++
        [ .text "\n\tif err != nil \x7b\n\t\treturn nil, metadata, status.Errorf(codes.InvalidArgument, \"type mismatch, parameter: %s, error: %v\", ",
          .value (env.quote (env.ParameterString param)),
          .text ", err)\n\t\x7d\n" ] ++
        clientRpcEnumAssign env param enum ++
        [ .text "\n\t" ])

/-- The loop `{{range $param := .PathParams}} ... {{end}}`. -/
def clientRpcPathParamLoop (env : Env) (b : binding) :
    List Parameter → Except String (List Piece)
  | [] => .ok []
  | param :: rest =>
    match clientRpcPathParam env b param with
    | .error e => .error e
    | .ok ps =>
      match clientRpcPathParamLoop env b rest with
      | .error e => .error e
      | .ok qs => .ok (ps ++ qs)

/-- The path parameter block of template "client-rpc-request-func":
`{{if .PathParams}} ... {{end}}`. -/
def clientRpcPathParams (env : Env) (b : binding) : Except String (List Piece) :=
  if b.Binding.PathParams.length != 0 then
    match clientRpcPathParamLoop env b b.Binding.PathParams with
    | .error e => .error e
    | .ok loop =>
      .ok ([ .text "\n\tvar (\n\t\tval string" ] ++
        (if b.HasEnumPathParam env then [ .text "\n\t\te int32" ] else []) ++
        (if b.HasRepeatedEnumPathParam env then [ .text "\n\t\tes []int32" ] else []) ++
        [ .text "\n\t\tok bool\n\t\terr error\n\t\t_ = err\n\t)\n\t", .text "\n\t" ] ++ loop ++
        [ .text "\n" ])
  else
    .ok []

/-- The query parameter block of template "client-rpc-request-func":
the second `{{if .HasQueryParam}} ... {{end}}`. -/
def clientRpcQueryParams (b : binding) : List Piece :=
  if b.HasQueryParam then
    [ .text "\n\tif err := req.ParseForm(); err != nil \x7b\n\t\treturn nil, metadata, status.Errorf(codes.InvalidArgument, \"%v\", err)\n\t\x7d\n\tif err := runtime.PopulateQueryParameters(&protoReq, req.Form, filter_",
      .value b.Method.Service.Name,
      .text "_", .value b.Method.Name,
      .text "_", .value (toString b.Binding.Index),
      .text "); err != nil \x7b\n\t\treturn nil, metadata, status.Errorf(codes.InvalidArgument, \"%v\", err)\n\t\x7d\n" ]
  else
    []

/-- The invocation at the end of template "client-rpc-request-func":
`{{if .Method.GetServerStreaming}} ... {{else}} ... {{end}}`. -/
def clientRpcInvoke (b : binding) : List Piece :=
  if b.Method.ServerStreaming then
    [ .text "\n\tstream, err := client.", .value b.Method.Name,
      .text "(ctx, &protoReq)\n\tif err != nil \x7b\n\t\treturn nil, metadata, err\n\t\x7d\n\theader, err := stream.Header()\n\tif err != nil \x7b\n\t\treturn nil, metadata, err\n\t\x7d\n\tmetadata.HeaderMD = header\n\treturn stream, metadata, nil\n" ]
  else
    [ .text "\n\tmsg, err := client.", .value b.Method.Name,
      .text "(ctx, &protoReq, grpc.Header(&metadata.HeaderMD), grpc.Trailer(&metadata.TrailerMD))\n\treturn msg, metadata, err\n" ]

/-- Template "client-rpc-request-func". -/
def clientRpcRequestFunc (env : Env) (b : binding) : Except String (List Piece) :=
  match clientRpcFilterVar env b with
  | .error e => .error e
  | .ok filterVar =>
    match clientRpcPathParams env b with
    | .error e => .error e
    | .ok pathParams =>
      .ok ([ .text "\n", .text "\n" ] ++ filterVar ++ [ .text "\n" ] ++
        requestFuncSignature env b ++
        [ .text " \x7b\n\tvar protoReq ",
          .value (env.MessageGoType b.Method.RequestType b.Method.Service.GoPkgPath),
          .text "\n\tvar metadata runtime.ServerMetadata\n" ] ++
        clientRpcBody env b ++ [ .text "\n" ] ++ pathParams ++ [ .text "\n" ] ++
        clientRpcQueryParams b ++ [ .text "\n" ] ++
        clientRpcInvoke b ++ [ .text "\n\x7d" ])

/-- Template "handler": the request function of one binding, chosen by the two
streaming flags of the method. -/
def handlerTemplate (env : Env) (b : binding) : Except String (List Piece) :=
  if b.Method.ClientStreaming && b.Method.ServerStreaming then
    .ok ([ .text "\n", .text "\n" ] ++ bidiStreamingRequestFunc env b ++ [ .text "\n", .text "\n" ])
  else if b.Method.ClientStreaming then
    .ok ([ .text "\n", .text "\n" ] ++ clientStreamingRequestFunc env b ++ [ .text "\n", .text "\n" ])
  else
    match clientRpcRequestFunc env b with
    | .error e => .error e
    | .ok ps => .ok ([ .text "\n", .text "\n" ] ++ ps ++ [ .text "\n", .text "\n" ])

/-! ## `applyTemplate` -/

/-- Template "header" (`headerTemplate`). -/
def headerTemplate (env : Env) (p : param) : List Piece :=
  [ .text "\n// Code generated by protoc-gen-grpc-gateway. DO NOT EDIT.\n// source: ",
    .value p.File.Name,
    .text "\n\n/*\nPackage ", .value p.File.GoPkg.Name,
    .text " is a reverse proxy.\n\nIt translates gRPC into RESTful JSON APIs.\n*/\npackage ",
    .value p.File.GoPkg.Name,
    .text "\nimport (\n\t" ] ++
  (p.Imports.filter (fun i => env.GoPackageStandard i)).map
    (fun i => .value (env.GoPackageString i ++ "\n")) ++
  [ .text "\n\n\t" ] ++
  (p.Imports.filter (fun i => !env.GoPackageStandard i)).map
    (fun i => .value (env.GoPackageString i ++ "\n")) ++
  [ .text "\n\n\t" ] ++
  (p.AdditionImports.map (fun i => [ .text "\n\t\t\"", .value i, .text "\"" ])).flatten ++
  [ .text "\n)\n\nvar _ codes.Code\nvar _ io.Reader\nvar _ status.Status\nvar _ = runtime.String\nvar _ = utilities.NewDoubleArray\n" ]

/-- The inner loop `for _, im := range svc.ParseAdditionalImport()` of `applyTemplate`. -/
def applyTemplate.imports : List String → List String → List String
  | [], addiImport => addiImport
  | im :: rest, addiImport =>
    if !(addiImport.contains im) then
      applyTemplate.imports rest (addiImport ++ [im])
    else
      applyTemplate.imports rest addiImport

/-- The first loop of `applyTemplate`: the additional imports of all services,
each once, in order of first appearance. -/
def applyTemplate.additionImports (env : Env) : List Service → List String → List String
  | [], addiImport => addiImport
  | svc :: rest, addiImport =>
    applyTemplate.additionImports env rest
      (applyTemplate.imports (env.ServiceParseAdditionalImport svc) addiImport)

/-- The loop `for _, msg := range p.Messages`: every message name is rewritten
in place to its CamelCase form. The first argument is the position of the head
of the list in `p.Messages`. -/
def applyTemplate.messages (env : Env) : Nat → List Message → Run → List Message × Run
  | _, [], run => ([], run)
  | i, msg :: rest, run =>
    let msgName := env.CamelCase msg.Name
    let msg := { msg with Name := msgName }
    let run := { run with log := run.log ++ [Event.renameMessage i] }
    let (rest, run) := applyTemplate.messages env (i + 1) rest run
    (msg :: rest, run)

/-- The template argument built in the innermost loop of `applyTemplate`:
`binding{Binding: b, Registry: reg, AllowPatchFeature: p.AllowPatchFeature}`,
with what `b.Method` points to at that moment. -/
def applyTemplate.arg (p : param) (reg : Option Registry) (svcName : String) (meth : Method)
    (req : Message) (b : Binding) : binding :=
  { Binding := b,
    Method :=
      { Name := meth.Name,
        ClientStreaming := meth.ClientStreaming,
        ServerStreaming := meth.ServerStreaming,
        RequestType := req,
        Service := { Name := svcName, GoPkgPath := p.File.GoPkg.Path } },
    Registry := reg,
    AllowPatchFeature := p.AllowPatchFeature }

/-- The loop `for _, b := range meth.Bindings`. The state is the run so far and
the variable `methodWithBindingsSeen`; the loop stops at the first failing
template execution. `msgs` are the messages of the file after renaming. -/
def applyTemplate.bindings (env : Env) (p : param) (reg : Option Registry)
    (msgs : List Message) (svcName : String) (meth : Method) :
    List Binding → Run → Bool → Run × Bool
  | [], run, methodWithBindingsSeen => (run, methodWithBindingsSeen)
  | b :: rest, run, _ =>
    let methodWithBindingsSeen := true
    match meth.RequestType.deref msgs with
    | none =>
      ({ run with err := some (Error.exec "nil pointer evaluating RequestType") },
        methodWithBindingsSeen)
    | some req =>
      let arg := applyTemplate.arg p reg svcName meth req b
      let run := { run with log := run.log ++ [Event.handler arg] }
      match handlerTemplate env arg with
      | .error e => ({ run with err := some (Error.exec e) }, methodWithBindingsSeen)
      | .ok ps =>
        applyTemplate.bindings env p reg msgs svcName meth rest
          { run with w := run.w ++ render ps } methodWithBindingsSeen

/-- The loop `for _, meth := range svc.Methods`: the method name is rewritten in
place, then the handler of each of its bindings is written. The result lists
the methods as the loop leaves them. -/
def applyTemplate.methods (env : Env) (p : param) (reg : Option Registry)
    (msgs : List Message) (svcName : String) (si : Nat) :
    Nat → List Method → Run → Bool → List Method × Run × Bool
  | _, [], run, methodWithBindingsSeen => ([], run, methodWithBindingsSeen)
  | mi, meth :: rest, run, methodWithBindingsSeen =>
    let methName := env.CamelCase meth.Name
    let meth := { meth with Name := methName }
    let run := { run with log := run.log ++ [Event.renameMethod si mi] }
    let (run, methodWithBindingsSeen) :=
      applyTemplate.bindings env p reg msgs svcName meth meth.Bindings run methodWithBindingsSeen
    match run.err with
    | some _ => (meth :: rest, run, methodWithBindingsSeen)
    | none =>
      let (rest, run, methodWithBindingsSeen) :=
        applyTemplate.methods env p reg msgs svcName si (mi + 1) rest run methodWithBindingsSeen
      (meth :: rest, run, methodWithBindingsSeen)

/-- The loop `for _, svc := range p.Services`: the service name is rewritten in
place, its methods are processed, and the service is appended to
`targetServices` when `methodWithBindingsSeen`. The result lists the services
as the loop leaves them, the run, and `targetServices`. -/
def applyTemplate.services (env : Env) (p : param) (reg : Option Registry)
    (msgs : List Message) :
    Nat → List Service → Run → List Service → List Service × Run × List Service
  | _, [], run, targetServices => ([], run, targetServices)
  | si, svc :: rest, run, targetServices =>
    let methodWithBindingsSeen := false
    let svcName := env.CamelCase svc.Name
    let run := { run with log := run.log ++ [Event.renameService si] }
    let (meths, run, methodWithBindingsSeen) :=
      applyTemplate.methods env p reg msgs svcName si 0 svc.Methods run methodWithBindingsSeen
    let svc : Service := { Name := svcName, Methods := meths }
    match run.err with
    | some _ => (svc :: rest, run, targetServices)
    | none =>
      let targetServices :=
        if methodWithBindingsSeen then targetServices ++ [svc] else targetServices
      let (rest, run, targetServices) :=
        applyTemplate.services env p reg msgs (si + 1) rest run targetServices
      (svc :: rest, run, targetServices)

/-- The function `applyTemplate`. The result holds the returned pair
`(string, error)`, the file as the run leaves it, and the log of the run. -/
def applyTemplate (env : Env) (p : param) (reg : Option Registry) : Result :=
  let w := ""
  let addiImport := applyTemplate.additionImports env p.File.Services []
  let p := { p with AdditionImports := addiImport }
  let run : Run := { w := w ++ render (headerTemplate env p), log := [Event.header p], err := none }
  let (msgs, run) := applyTemplate.messages env 0 p.File.Messages run
  let (svcs, run, targetServices) := applyTemplate.services env p reg msgs 0 p.File.Services run []
  let file : File := { p.File with Messages := msgs, Services := svcs }
  match run.err with
  | some err => { out := "", err := some err, file := file, log := run.log }
  | none =>
    if targetServices.length == 0 then
      { out := "", err := some Error.errNoTargetService, file := file, log := run.log }
    else
      let assumeColonVerb :=
        match reg with
        | some reg => !reg.AllowColonFinalSegments
        | none => true
      let tp : trailerParams :=
        { Services := targetServices,
          UseRequestContext := p.UseRequestContext,
          RegisterFuncSuffix := p.RegisterFuncSuffix,
          AssumeColonVerb := assumeColonVerb }
      let log := run.log ++ [Event.trailer tp]
      match env.trailerTemplate tp with
      | .error e => { out := "", err := some (Error.exec e), file := file, log := log }
      | .ok text => { out := run.w ++ text, err := none, file := file, log := log }


/-! ## What a template execution emits -/

/-- The text nodes among the pieces, in order. -/
def texts : List Piece → List String
  | [] => []
  | .text s :: ps => s :: texts ps
  | .value _ :: ps => texts ps

/-- A text occurs in a text node: it is a contiguous part of it. -/
def occursIn (needle s : String) : Prop :=
  needle.data <:+: s.data

instance occursIn.decidable (needle s : String) : Decidable (occursIn needle s) :=
  inferInstanceAs (Decidable (needle.data <:+: s.data))

/-- The execution emits template text that contains `needle`: one of the text
nodes it writes contains it. Values printed by actions (names taken from the
descriptor) do not count. -/
def emitsText (ps : List Piece) (needle : String) : Prop :=
  ∃ t ∈ texts ps, occursIn needle t

instance emitsText.decidable (ps : List Piece) (needle : String) :
    Decidable (emitsText ps needle) :=
  inferInstanceAs (Decidable (∃ t ∈ texts ps, occursIn needle t))

/-! ## The text nodes of the handler templates -/

/-- The text nodes of the server-streaming branch of template "request-func-signature". -/
def signatureStreamTexts : List String :=
  [ "func request_",
    "_",
    "(ctx context.Context, marshaler runtime.Marshaler, client ",
    "Client, req *http.Request, pathParams map[string]string) (",
    "Client, runtime.ServerMetadata, error)" ]

/-- The text nodes of the other branch of template "request-func-signature". -/
def signatureUnaryTexts : List String :=
  [ "func request_",
    "_",
    "(ctx context.Context, marshaler runtime.Marshaler, client ",
    "Client, req *http.Request, pathParams map[string]string) (proto.Message, runtime.ServerMetadata, error)" ]

/-- The text nodes of template "bidi-streaming-request-func". -/
def bidiStreamingTexts : List String :=
  [ "\n",
    " \x7b\n\tvar metadata runtime.ServerMetadata\n\tstream, err := client.",
    "(ctx)\n\tif err != nil \x7b\n\t\tgrpclog.Infof(\"Failed to start streaming: %v\", err)\n\t\treturn nil, metadata, err\n\t\x7d\n\tdec := marshaler.NewDecoder(req.Body)\n\thandleSend := func() error \x7b\n\t\tvar protoReq ",
    "\n\t\terr := dec.Decode(&protoReq)\n\t\tif err == io.EOF \x7b\n\t\t\treturn err\n\t\t\x7d\n\t\tif err != nil \x7b\n\t\t\tgrpclog.Infof(\"Failed to decode request: %v\", err)\n\t\t\treturn err\n\t\t\x7d\n\t\tif err := stream.Send(&protoReq); err != nil \x7b\n\t\t\tgrpclog.Infof(\"Failed to send request: %v\", err)\n\t\t\treturn err\n\t\t\x7d\n\t\treturn nil\n\t\x7d\n\tif err := handleSend(); err != nil \x7b\n\t\tif cerr := stream.CloseSend(); cerr != nil \x7b\n\t\t\tgrpclog.Infof(\"Failed to terminate client stream: %v\", cerr)\n\t\t\x7d\n\t\tif err == io.EOF \x7b\n\t\t\treturn stream, metadata, nil\n\t\t\x7d\n\t\treturn nil, metadata, err\n\t\x7d\n\tgo func() \x7b\n\t\tfor \x7b\n\t\t\tif err := handleSend(); err != nil \x7b\n\t\t\t\tbreak\n\t\t\t\x7d\n\t\t\x7d\n\t\tif err := stream.CloseSend(); err != nil \x7b\n\t\t\tgrpclog.Infof(\"Failed to terminate client stream: %v\", err)\n\t\t\x7d\n\t\x7d()\n\theader, err := stream.Header()\n\tif err != nil \x7b\n\t\tgrpclog.Infof(\"Failed to get header from client: %v\", err)\n\t\treturn nil, metadata, err\n\t\x7d\n\tmetadata.HeaderMD = header\n\treturn stream, metadata, nil\n\x7d\n" ]

/-- The text nodes of template "client-streaming-request-func" outside its final `if`. -/
def clientStreamingTexts : List String :=
  [ "\n",
    " \x7b\n\tvar metadata runtime.ServerMetadata\n\tstream, err := client.",
    "(ctx)\n\tif err != nil \x7b\n\t\tgrpclog.Infof(\"Failed to start streaming: %v\", err)\n\t\treturn nil, metadata, err\n\t\x7d\n\tdec := marshaler.NewDecoder(req.Body)\n\tfor \x7b\n\t\tvar protoReq ",
    "\n\t\terr = dec.Decode(&protoReq)\n\t\tif err == io.EOF \x7b\n\t\t\tbreak\n\t\t\x7d\n\t\tif err != nil \x7b\n\t\t\tgrpclog.Infof(\"Failed to decode request: %v\", err)\n\t\t\treturn nil, metadata, status.Errorf(codes.InvalidArgument, \"%v\", err)\n\t\t\x7d\n\t\tif err = stream.Send(&protoReq); err != nil \x7b\n\t\t\tif err == io.EOF \x7b\n\t\t\t\tbreak\n\t\t\t\x7d\n\t\t\tgrpclog.Infof(\"Failed to send request: %v\", err)\n\t\t\treturn nil, metadata, err\n\t\t\x7d\n\t\x7d\n\n\tif err := stream.CloseSend(); err != nil \x7b\n\t\tgrpclog.Infof(\"Failed to terminate client stream: %v\", err)\n\t\treturn nil, metadata, err\n\t\x7d\n\theader, err := stream.Header()\n\tif err != nil \x7b\n\t\tgrpclog.Infof(\"Failed to get header from client: %v\", err)\n\t\treturn nil, metadata, err\n\t\x7d\n\tmetadata.HeaderMD = header\n",
    "\n\x7d\n" ]

/-- The text nodes of template "client-rpc-request-func" outside its blocks. -/
def clientRpcFrameTexts : List String :=
  [ "\n",
    " \x7b\n\tvar protoReq ",
    "\n\tvar metadata runtime.ServerMetadata\n",
    "\n\x7d" ]

/-- The text nodes of the filter variable block of template "client-rpc-request-func". -/
def clientRpcFilterVarTexts : List String :=
  [ "\nvar (\n\tfilter_",
    "_",
    " = ",
    "\n)\n" ]

/-- The text nodes of the body block of template "client-rpc-request-func" outside the field-mask block. -/
def clientRpcBodyTexts : List String :=
  [ "\n\tnewReader, berr := utilities.IOReaderFactory(req.Body)\n\tif berr != nil \x7b\n\t\treturn nil, metadata, status.Errorf(codes.InvalidArgument, \"%v\", berr)\n\t\x7d\n\tif err := marshaler.NewDecoder(newReader()).Decode(&",
    "); err != nil && err != io.EOF  \x7b\n\t\treturn nil, metadata, status.Errorf(codes.InvalidArgument, \"%v\", err)\n\t\x7d",
    "\n" ]

/-- The text nodes of the field-mask block of template "client-rpc-request-func" outside its inner `if`. -/
def clientRpcFieldMaskTexts : List String :=
  [ "\n\tif protoReq.",
    " != nil && len(protoReq.",
    ".GetPaths()) > 0 \x7b\n\t\truntime.CamelCaseFieldMask(protoReq.",
    ")\n\t\x7d ",
    "\n\t" ]

/-- The text nodes of the inner `if` of the field-mask block: the `else` branch that reads the mask from the request body. -/
def clientRpcFieldMaskElseTexts : List String :=
  [ " else \x7b\n\t\t\tif fieldMask, err := runtime.FieldMaskFromRequestBody(newReader()); err != nil \x7b\n\t\t\t\treturn nil, metadata, status.Errorf(codes.InvalidArgument, \"%v\", err)\n\t\t\t\x7d else \x7b\n\t\t\t\tprotoReq.",
    " = fieldMask\n\t\t\t\x7d\n\t\x7d " ]

/-- The text nodes of the body of the path parameter loop of template "client-rpc-request-func". -/
def clientRpcPathParamTexts : List String :=
  [ "\n\t",
    "\n\tval, ok = pathParams[",
    "]\n\tif !ok \x7b\n\t\treturn nil, metadata, status.Errorf(codes.InvalidArgument, \"missing parameter %s\", ",
    ")\n\t\x7d\n",
    "\n\terr = runtime.PopulateFieldFromPath(&protoReq, ",
    ", val)\n",
    "\n\te",
    "s",
    ", err = ",
    "(val",
    ", ",
    "_value)\n",
    ")\n",
    "\n\tif err != nil \x7b\n\t\treturn nil, metadata, status.Errorf(codes.InvalidArgument, \"type mismatch, parameter: %s, error: %v\", ",
    ", err)\n\t\x7d\n",
    "\n\ts := make([]",
    ", len(es))\n\tfor i, v := range es \x7b\n\t\ts[i] = ",
    "(v)\n\t\x7d\n\t",
    " = s\n",
    " = ",
    "(e)\n" ]

/-- The text nodes of the path parameter block of template "client-rpc-request-func" outside the loop body. -/
def clientRpcPathParamsTexts : List String :=
  [ "\n\tvar (\n\t\tval string",
    "\n\t\te int32",
    "\n\t\tes []int32",
    "\n\t\tok bool\n\t\terr error\n\t\t_ = err\n\t)\n\t",
    "\n\t",
    "\n" ]

/-- The text nodes of the query parameter block of template "client-rpc-request-func". -/
def clientRpcQueryParamsTexts : List String :=
  [ "\n\tif err := req.ParseForm(); err != nil \x7b\n\t\treturn nil, metadata, status.Errorf(codes.InvalidArgument, \"%v\", err)\n\t\x7d\n\tif err := runtime.PopulateQueryParameters(&protoReq, req.Form, filter_",
    "_",
    "); err != nil \x7b\n\t\treturn nil, metadata, status.Errorf(codes.InvalidArgument, \"%v\", err)\n\t\x7d\n" ]

/-- The text nodes of the server-streaming invocation of template "client-rpc-request-func". -/
def clientRpcStreamTexts : List String :=
  [ "\n\tstream, err := client.",
    "(ctx, &protoReq)\n\tif err != nil \x7b\n\t\treturn nil, metadata, err\n\t\x7d\n\theader, err := stream.Header()\n\tif err != nil \x7b\n\t\treturn nil, metadata, err\n\t\x7d\n\tmetadata.HeaderMD = header\n\treturn stream, metadata, nil\n" ]

/-- The text nodes of the unary invocation of template "client-rpc-request-func". -/
def clientRpcUnaryTexts : List String :=
  [ "\n\tmsg, err := client.",
    "(ctx, &protoReq, grpc.Header(&metadata.HeaderMD), grpc.Trailer(&metadata.TrailerMD))\n\treturn msg, metadata, err\n" ]

/-- The text nodes a handler execution can write, by the two streaming flags of
the method, whether the binding has a body, whether the field-mask condition of
the template holds, and whether the body path differs from the wildcard. -/
def handlerTexts (cs ss body mask notWildcard : Bool) : List String :=
  [ "\n" ] ++
  (if ss then signatureStreamTexts else signatureUnaryTexts) ++
  (if cs && ss then
    bidiStreamingTexts
  else if cs then
    clientStreamingTexts ++
    (if ss then [ "\n\treturn stream, metadata, nil\n" ]
     else [ "\n\tmsg, err := stream.CloseAndRecv()\n\tmetadata.TrailerMD = stream.Trailer()\n\treturn msg, metadata, err\n" ])
  else
    clientRpcFrameTexts ++ clientRpcFilterVarTexts ++
    (if body then
      clientRpcBodyTexts ++
      (if mask then
        clientRpcFieldMaskTexts ++ (if notWildcard then clientRpcFieldMaskElseTexts else [])
      else [])
    else []) ++
    clientRpcPathParamsTexts ++ clientRpcPathParamTexts ++ clientRpcQueryParamsTexts ++
    (if ss then clientRpcStreamTexts else clientRpcUnaryTexts))

/-- The pieces a handler execution writes; none when it fails. -/
def handlerPieces (env : Env) (b : binding) : List Piece :=
  match handlerTemplate env b with
  | .ok ps => ps
  | .error _ => []

/-! ## Notions used to state the claims -/

/-- A service has at least one method with at least one binding. -/
def Service.hasBoundMethod (svc : Service) : Bool :=
  svc.Methods.any (fun meth => meth.Bindings.length != 0)

/-- A method after the in-place rewriting of its name: only the name changes. -/
def Method.renamed (env : Env) (meth : Method) : Method :=
  { meth with Name := env.CamelCase meth.Name }

/-- A service after the in-place rewriting of its name and of the names of its
methods: it keeps all its methods, with their bindings, in order. -/
def Service.renamed (env : Env) (svc : Service) : Service :=
  { Name := env.CamelCase svc.Name, Methods := svc.Methods.map (Method.renamed env) }


/-- The top-level (first-segment) name of a field path, if it has one. -/
def topLevelName (p : FieldPath) : Option String :=
  p.head?.map (fun c => c.Name)

/-- The verdict `HasQueryParams` as the specification words it (section 4.1):
start from the top-level field names of the request message, remove the
top-level name of the body field path (if a body is set) and the top-level name
of every path parameter; the verdict is whether a name remains. -/
def specHasQueryParams (b : binding) : Bool :=
  let removed : List String :=
    (match b.Binding.Body with
     | some body => (topLevelName body.FieldPath).toList
     | none => []) ++
    b.Binding.PathParams.filterMap (fun p => topLevelName p.FieldPath)
  (b.Method.RequestType.Fields.map (fun f => f.Name)).any (fun n => !(removed.contains n))

/-- The pieces the path parameter loop writes for one parameter; none when the
execution fails there. -/
def pathParamPieces (env : Env) (b : binding) (param : Parameter) : List Piece :=
  match clientRpcPathParam env b param with
  | .ok ps => ps
  | .error _ => []

/-- A message after the in-place rewriting of its name: only the name changes. -/
def Message.renamed (env : Env) (msg : Message) : Message :=
  { msg with Name := env.CamelCase msg.Name }

/-- The template argument the handler of binding `b` of method `meth` of service
`svc` is expected to receive: the names of the method and of the service in
CamelCase, the request type `req` as the method's pointer finds it. -/
def expectedArg (env : Env) (p : param) (reg : Option Registry) (svc : Service)
    (meth : Method) (req : Message) (b : Binding) : binding :=
  { Binding := b,
    Method :=
      { Name := env.CamelCase meth.Name,
        ClientStreaming := meth.ClientStreaming,
        ServerStreaming := meth.ServerStreaming,
        RequestType := req,
        Service := { Name := env.CamelCase svc.Name, GoPkgPath := p.File.GoPkg.Path } },
    Registry := reg,
    AllowPatchFeature := p.AllowPatchFeature }

/-- The template arguments of the handlers of one method of the file, one per
binding in order: the request type is looked up among the messages of the file
after their renaming. -/
def handlerArgs (env : Env) (p : param) (reg : Option Registry) (svc : Service)
    (meth : Method) : List binding :=
  meth.Bindings.filterMap (fun b =>
    (meth.RequestType.deref (p.File.Messages.map (Message.renamed env))).map
      (fun req => expectedArg env p reg svc meth req b))

/-- The template arguments of all handlers of the file, in the order of its
services, methods and bindings. -/
def allHandlerArgs (env : Env) (p : param) (reg : Option Registry) : List binding :=
  p.File.Services.flatMap (fun svc =>
    svc.Methods.flatMap (fun meth => handlerArgs env p reg svc meth))

/-- Every handler execution of a run on the file succeeds: the request type of
every bound method is found and the handler template does not fail on the
argument of any binding. -/
def handlersSucceed (env : Env) (p : param) (reg : Option Registry) : Bool :=
  p.File.Services.all (fun svc =>
    svc.Methods.all (fun meth =>
      meth.Bindings.all (fun b =>
        match meth.RequestType.deref (p.File.Messages.map (Message.renamed env)) with
        | some req => (handlerTemplate env (expectedArg env p reg svc meth req b)).toBool
        | none => false)))

/-- The argument of the header template in a run: `p` with its additional
imports set. -/
def headerArg (env : Env) (p : param) : param :=
  { p with AdditionImports := applyTemplate.additionImports env p.File.Services [] }

/-- The text in the buffer before the trailer is written: the header text, then
the handler text of every binding in the order of the file. -/
def bodyText (env : Env) (p : param) (reg : Option Registry) : String :=
  (allHandlerArgs env p reg).foldl (fun w arg => w ++ render (handlerPieces env arg))
    (render (headerTemplate env (headerArg env p)))

/-- The argument the trailer template is expected to receive: the services of
the file that have a bound method, in order, each after its renaming, with the
options of the run. -/
def expectedTrailerParams (env : Env) (p : param) (reg : Option Registry) : trailerParams :=
  { Services := (p.File.Services.filter Service.hasBoundMethod).map (Service.renamed env),
    UseRequestContext := p.UseRequestContext,
    RegisterFuncSuffix := p.RegisterFuncSuffix,
    AssumeColonVerb :=
      match reg with
      | some reg => !reg.AllowColonFinalSegments
      | none => true }

/-- The events of one method with their arguments: its name is rewritten, then
the handler of each of its bindings is written. -/
def methodLog (env : Env) (p : param) (reg : Option Registry) (i j : Nat) (svc : Service)
    (meth : Method) : List Event :=
  Event.renameMethod i j :: (handlerArgs env p reg svc meth).map Event.handler

/-- The events of one service with their arguments. -/
def serviceLog (env : Env) (p : param) (reg : Option Registry) (i : Nat) (svc : Service) :
    List Event :=
  Event.renameService i ::
    svc.Methods.enum.flatMap (fun jm => methodLog env p reg i jm.1 svc jm.2)

/-- The events of a run up to the trailer, with their arguments. -/
def fileLog (env : Env) (p : param) (reg : Option Registry) : List Event :=
  [Event.header (headerArg env p)] ++
  (List.range p.File.Messages.length).map Event.renameMessage ++
  p.File.Services.enum.flatMap (fun isvc => serviceLog env p reg isvc.1 isvc.2)

/-- The template arguments the loop over the bindings of `meth` builds, for the
messages, service name and method the loop is given. -/
def applyTemplate.argsOf (p : param) (reg : Option Registry) (msgs : List Message)
    (svcName : String) (meth : Method) : List binding :=
  meth.Bindings.filterMap (fun b =>
    (meth.RequestType.deref msgs).map (fun req => applyTemplate.arg p reg svcName meth req b))

/-- The handler template does not fail on the argument of any binding of `meth`,
for the messages, service name and method the loop is given. -/
def applyTemplate.argsSucceed (env : Env) (p : param) (reg : Option Registry)
    (msgs : List Message) (svcName : String) (meth : Method) : Bool :=
  meth.Bindings.all (fun b =>
    match meth.RequestType.deref msgs with
    | some req => (handlerTemplate env (applyTemplate.arg p reg svcName meth req b)).toBool
    | none => false)

/-- An event of a run without its argument. -/
inductive EventKind where
  | header
  | renameMessage (i : Nat)
  | renameService (i : Nat)
  | renameMethod (i j : Nat)
  | handler
  | trailer
deriving DecidableEq, Repr

/-- The kind of an event. -/
def Event.kind : Event → EventKind
  | .header _ => .header
  | .renameMessage i => .renameMessage i
  | .renameService i => .renameService i
  | .renameMethod i j => .renameMethod i j
  | .handler _ => .handler
  | .trailer _ => .trailer

/-- The event rewrites a name in place. -/
def EventKind.isRename : EventKind → Bool
  | .renameMessage _ => true
  | .renameService _ => true
  | .renameMethod _ _ => true
  | _ => false

/-- The event executes a template, which writes generated code text. -/
def EventKind.isEmission : EventKind → Bool
  | .header => true
  | .handler => true
  | .trailer => true
  | _ => false

/-- All rewriting is complete before any generated code text is emitted: no
rename follows a template execution. -/
def renamesPrecedeEmission : List EventKind → Bool
  | [] => true
  | e :: rest =>
    (!e.isEmission || rest.all (fun later => !later.isRename)) && renamesPrecedeEmission rest

/-- The events of one method, number `j` of service number `i`: its name is
rewritten, then the handler of each of its bindings is written. -/
def methodEvents (i j : Nat) (meth : Method) : List EventKind :=
  EventKind.renameMethod i j :: meth.Bindings.map (fun _ => EventKind.handler)

/-- The events of one service, number `i` of the file: its name is rewritten,
then its methods follow in order. -/
def serviceEvents (i : Nat) (svc : Service) : List EventKind :=
  EventKind.renameService i ::
    svc.Methods.enum.flatMap (fun jm => methodEvents i jm.1 jm.2)

/-- The events of a run on a file up to the trailer: the header is written, every
message name is rewritten, then the services follow in order. -/
def fileEvents (file : File) : List EventKind :=
  [EventKind.header] ++
  (List.range file.Messages.length).map EventKind.renameMessage ++
  file.Services.enum.flatMap (fun isvc => serviceEvents isvc.1 isvc.2)

/-! ## Sample inputs -/

/-- The loop of `CamelCase` of package `generator` of golang/protobuf, on ASCII
names: `inWord` says that the lower-case letters that follow belong to the word
whose first letter was just written. -/
def goCamelCase.loop : List Char → Bool → List Char
  | [], _ => []
  | c :: rest, inWord =>
    if inWord && c.isLower then
      c :: goCamelCase.loop rest true
    else if c == '_' && (match rest with
        | d :: _ => d.isLower
        | [] => false) then
      goCamelCase.loop rest false
    else if c.isDigit then
      c :: goCamelCase.loop rest false
    else
      c.toUpper :: goCamelCase.loop rest true

/-- The function `CamelCase` of package `generator` of golang/protobuf, on ASCII
names: a leading underscore becomes `X`, an underscore before a lower-case
letter is dropped and that letter capitalised, the first letter is capitalised. -/
def goCamelCase (s : String) : String :=
  match s.data with
  | [] => ""
  | '_' :: rest => String.mk ('X' :: goCamelCase.loop rest false)
  | cs => String.mk (goCamelCase.loop cs false)

/-- The verb `%q` of package `fmt` on a string of printable ASCII characters,
tabs and line ends: double quotes around the string, with `"`, `\` and the
control characters escaped. -/
def goQuote (s : String) : String :=
  String.mk ('"' :: (s.data.flatMap (fun c =>
    if c == '"' then ['\\', '"']
    else if c == '\\' then ['\\', '\\']
    else if c == '\n' then ['\\', 'n']
    else if c == '\r' then ['\\', 'r']
    else if c == '\t' then ['\\', 't']
    else [c])) ++ ['"'])

/-- The verb `%#v` of package `fmt` on a `[]int`. -/
def goSyntaxInts (s : Option (List Int)) : String :=
  match s with
  | none => "[]int(nil)"
  | some l => "[]int\x7b" ++ stringsJoin (l.map toString) ", " ++ "\x7d"

/-- The Go expression of a field path below `msgExpr` in a proto3 message, as
`FieldPath.AssignableExpr` of the descriptor package of grpc-gateway builds it
for fields outside a oneof: the CamelCase names of the components after
`msgExpr`, joined by dots. -/
def goAssignableExpr (path : FieldPath) (msgExpr : String) : String :=
  stringsJoin (msgExpr :: path.map (fun c => goCamelCase c.Name)) "."

/-- A concrete environment for a proto3 file whose messages and enums live in the
package being generated. `CamelCase`, `%q`, `%#v`, the assignable expressions
and the package functions follow golang/protobuf, `fmt` and the descriptor
package of grpc-gateway. Stand-ins: the double array numbers the distinct
segments in order of appearance and has no `Base` and `Check`; the target
service of a method is its own service; no parameter is an enum or repeated; the
trailer template writes, for each service it receives, the first comment line
of its registration function. -/
def sampleEnv : Env :=
  { CamelCase := goCamelCase,
    quote := goQuote,
    goSyntaxInts := goSyntaxInts,
    NewDoubleArray := fun seqs =>
      { Encoding := (seqs.flatten.eraseDups.enum).map (fun e => (e.2, (e.1 : Int))),
        Base := none, Check := none },
    RegistryLookupEnum := fun reg _ name => reg.Enums.lookup name,
    MessageGoType := fun m _ => m.Name,
    EnumGoType := fun e _ => e.Name,
    BodyAssignableExpr := fun body e => goAssignableExpr body.FieldPath e,
    ParameterString := fun p => p.FieldPath.String,
    ParameterIsNestedProto3 := fun p => decide (p.FieldPath.length > 1),
    ParameterIsRepeated := fun _ => false,
    ParameterIsEnum := fun _ => false,
    ParameterConvertFuncExpr := fun _ => .ok "runtime.String",
    ParameterAssignableExpr := fun p e => goAssignableExpr p.FieldPath e,
    MethodGetTargetSvrName := fun m => m.Service.Name,
    MethodGetTargetSvrPackage := fun _ => "",
    ServiceParseAdditionalImport := fun _ => [],
    GoPackageStandard := fun g => !(g.Path.data.contains '.'),
    GoPackageString := fun g =>
      if g.Alias = "" then goQuote g.Path else g.Alias ++ " " ++ goQuote g.Path,
    trailerTemplate := fun tp =>
      .ok (String.join (tp.Services.map (fun svc =>
        "\n\n// Register" ++ svc.Name ++ tp.RegisterFuncSuffix ++
          "Client registers the http handlers for service " ++ svc.Name ++ "\n"))) }

/-- A request message with the fields `id`, `name` and one field mask `update_mask`. -/
def sampleRequest : Message :=
  { Name := "UpdateItemRequest",
    Fields := [⟨"id", ""⟩, ⟨"name", ""⟩, ⟨"update_mask", ".google.protobuf.FieldMask"⟩] }

/-- A unary method `UpdateItem` of service `Items` with request `sampleRequest`. -/
def sampleMethod : MethodView :=
  { Name := "UpdateItem", ClientStreaming := false, ServerStreaming := false,
    RequestType := sampleRequest,
    Service := { Name := "Items", GoPkgPath := "example/items" } }

/-- The path parameter `id`. -/
def sampleParamId : Parameter :=
  { FieldPath := [⟨"id"⟩], Target := ⟨"id", ""⟩, TargetGoPkgPath := "example/items" }

/-- The binding `PATCH /v1/items/{id}` with `body: "*"`. -/
def sampleWildcard : binding :=
  { Binding := { Index := 0, HTTPMethod := "PATCH", Body := some ⟨[]⟩, PathParams := [sampleParamId] },
    Method := sampleMethod,
    Registry := some ⟨',', false, []⟩,
    AllowPatchFeature := true }

/-- The path parameter `name`. -/
def sampleParamName : Parameter :=
  { FieldPath := [⟨"name"⟩], Target := ⟨"name", ""⟩, TargetGoPkgPath := "example/items" }

/-- The nested path parameter `item.id`. -/
def sampleParamItemId : Parameter :=
  { FieldPath := [⟨"item"⟩, ⟨"id"⟩], Target := ⟨"id", ""⟩, TargetGoPkgPath := "example/items" }

/-- A unary method `GetItem` whose request message has the fields `id` and `name`. -/
def sampleGetMethod : MethodView :=
  { Name := "GetItem", ClientStreaming := false, ServerStreaming := false,
    RequestType := { Name := "GetItemRequest", Fields := [⟨"id", ""⟩, ⟨"name", ""⟩] },
    Service := { Name := "Items", GoPkgPath := "example/items" } }

/-- The binding `GET /v1/items/{id}/{name}` without body: the path parameters
cover both fields of the request message. -/
def sampleCovered : binding :=
  { Binding := { Index := 0, HTTPMethod := "GET", Body := none,
                 PathParams := [sampleParamId, sampleParamName] },
    Method := sampleGetMethod,
    Registry := some ⟨',', false, []⟩,
    AllowPatchFeature := true }

/-- A unary method `GetItem` whose request message has the single field `item`. -/
def sampleNestedMethod : MethodView :=
  { Name := "GetItem", ClientStreaming := false, ServerStreaming := false,
    RequestType := { Name := "GetItemRequest", Fields := [⟨"item", ".example.Item"⟩] },
    Service := { Name := "Items", GoPkgPath := "example/items" } }

/-- The binding `GET /v1/items/{item.id}` without body: its only path parameter
is the nested path `item.id`. -/
def sampleNested : binding :=
  { Binding := { Index := 0, HTTPMethod := "GET", Body := none, PathParams := [sampleParamItemId] },
    Method := sampleNestedMethod,
    Registry := some ⟨',', false, []⟩,
    AllowPatchFeature := true }

/-- The binding `PATCH /v1/items/{id}` with no body. -/
def sampleNoBody : binding :=
  { Binding := { Index := 0, HTTPMethod := "PATCH", Body := none, PathParams := [sampleParamId] },
    Method := sampleMethod,
    Registry := some ⟨',', false, []⟩,
    AllowPatchFeature := true }

/-- The binding `PATCH /v1/items/{id}` with `body: "name"`. -/
def sampleNamedBody : binding :=
  { Binding := { Index := 0, HTTPMethod := "PATCH", Body := some ⟨[⟨"name"⟩]⟩,
                 PathParams := [sampleParamId] },
    Method := sampleMethod,
    Registry := some ⟨',', false, []⟩,
    AllowPatchFeature := true }

/-- A filter whose map is visited in the order `name`, `id`. -/
def sampleFilter : queryParamFilter :=
  { DoubleArray := { Encoding := [("name", 1), ("id", 0)], Base := some [1, 1, 0], Check := none } }

/-- The filter `sampleFilter` with its map visited in the order `id`, `name`. -/
def sampleFilterReordered : queryParamFilter :=
  { DoubleArray := { Encoding := [("id", 0), ("name", 1)], Base := some [1, 1, 0], Check := none } }

/-- A file with three services: `Admin` has no method, `Items` has the bound
method `update_item` and the unbound method `ping`, `Audit` has only an unbound
method. -/
def sampleFile : File :=
  { Name := "items.proto",
    GoPkg := { Path := "example/items", Name := "items", Alias := "" },
    Messages := [sampleRequest],
    Services :=
      [ { Name := "admin", Methods := [] },
        { Name := "items",
          Methods :=
            [ { Name := "update_item", ClientStreaming := false, ServerStreaming := false,
                RequestType := .inFile 0,
                Bindings := [ { Index := 0, HTTPMethod := "PATCH", Body := some ⟨[]⟩,
                                PathParams := [sampleParamId] } ] },
              { Name := "ping", ClientStreaming := false, ServerStreaming := false,
                RequestType := .inFile 0, Bindings := [] } ] },
        { Name := "audit",
          Methods :=
            [ { Name := "list", ClientStreaming := false, ServerStreaming := false,
                RequestType := .inFile 0, Bindings := [] } ] } ] }

/-- The argument of `applyTemplate` for `sampleFile`. -/
def sampleParam : param :=
  { File := sampleFile, Imports := [], UseRequestContext := true,
    RegisterFuncSuffix := "Handler", AllowPatchFeature := true, AdditionImports := [] }

/-- A file whose only service has no bound method. -/
def sampleUnboundFile : File :=
  { Name := "audit.proto",
    GoPkg := { Path := "example/audit", Name := "audit", Alias := "" },
    Messages := [sampleRequest],
    Services :=
      [ { Name := "audit",
          Methods :=
            [ { Name := "list", ClientStreaming := false, ServerStreaming := false,
                RequestType := .inFile 0, Bindings := [] } ] } ] }

/-- The argument of `applyTemplate` for `sampleUnboundFile`. -/
def sampleUnboundParam : param :=
  { File := sampleUnboundFile, Imports := [], UseRequestContext := true,
    RegisterFuncSuffix := "Handler", AllowPatchFeature := true, AdditionImports := [] }

/-- A registry with the comma as separator and no enum. -/
def sampleRegistry : Registry :=
  { RepeatedPathParamSeparator := ',', AllowColonFinalSegments := false, Enums := [] }

/-- A client-streaming method `Upload` of service `Items`. -/
def sampleUploadMethod : MethodView :=
  { Name := "Upload", ClientStreaming := true, ServerStreaming := false,
    RequestType := sampleRequest,
    Service := { Name := "Items", GoPkgPath := "example/items" } }

/-- The binding `POST /v1/items:upload` with `body: "*"` of `Upload`, patch
feature disabled. -/
def sampleUploadPost : binding :=
  { Binding := { Index := 0, HTTPMethod := "POST", Body := some ⟨[]⟩, PathParams := [] },
    Method := sampleUploadMethod,
    Registry := some sampleRegistry,
    AllowPatchFeature := false }

/-- The binding `PATCH /v1/items/{id}:upload` with `body: "name"` of `Upload`, with
the same index, patch feature enabled and no registry. -/
def sampleUploadPatch : binding :=
  { Binding := { Index := 0, HTTPMethod := "PATCH", Body := some ⟨[⟨"name"⟩]⟩,
                 PathParams := [sampleParamId] },
    Method := sampleUploadMethod,
    Registry := none,
    AllowPatchFeature := true }

/-- The enum `Kind`. -/
def sampleKind : Enum :=
  { Name := "Kind" }

/-- A registry that knows the enum `.example.Kind`, with the comma as separator. -/
def sampleEnumRegistry : Registry :=
  { RepeatedPathParamSeparator := ',', AllowColonFinalSegments := false,
    Enums := [(".example.Kind", sampleKind)] }

/-- The environment `sampleEnv` for a message with enum fields: a field of type
`.example.Kind` is an enum, the field `kinds` is repeated. -/
def sampleEnumEnv : Env :=
  { sampleEnv with
    ParameterIsEnum := fun p => p.Target.TypeName == ".example.Kind",
    ParameterIsRepeated := fun p => p.Target.Name == "kinds",
    ParameterConvertFuncExpr := fun p =>
      .ok (if p.Target.TypeName == ".example.Kind" then
             (if p.Target.Name == "kinds" then "runtime.EnumSlice" else "runtime.Enum")
           else "runtime.String") }

/-- The nested path parameter `item.kind`, whose target field has the enum type
`.example.Kind`. -/
def sampleParamItemKind : Parameter :=
  { FieldPath := [⟨"item"⟩, ⟨"kind"⟩], Target := ⟨"kind", ".example.Kind"⟩,
    TargetGoPkgPath := "example/items" }

/-- The path parameter `kinds`, a repeated field of the enum type `.example.Kind`. -/
def sampleParamKinds : Parameter :=
  { FieldPath := [⟨"kinds"⟩], Target := ⟨"kinds", ".example.Kind"⟩,
    TargetGoPkgPath := "example/items" }

/-- A unary method `ListItems` whose request message has the fields `item` and
`kinds`. -/
def sampleListMethod : MethodView :=
  { Name := "ListItems", ClientStreaming := false, ServerStreaming := false,
    RequestType :=
      { Name := "ListItemsRequest",
        Fields := [⟨"item", ".example.Item"⟩, ⟨"kinds", ".example.Kind"⟩] },
    Service := { Name := "Items", GoPkgPath := "example/items" } }

/-- The binding `GET /v1/items/{item.kind}/{kinds}` without body. -/
def sampleEnumBinding : binding :=
  { Binding := { Index := 0, HTTPMethod := "GET", Body := none,
                 PathParams := [sampleParamItemKind, sampleParamKinds] },
    Method := sampleListMethod,
    Registry := some sampleEnumRegistry,
    AllowPatchFeature := true }

/-! ## Facts about the Go helpers -/

theorem StringSet.mem_set (m : StringSet) (k x : String) :
    x ∈ StringSet.set m k ↔ x ∈ m ∨ x = k := by
  unfold StringSet.set
  split
  · constructor
    · intro h; exact Or.inl h
    · rintro (h | h)
      · exact h
      · subst h; assumption
  · simp

theorem StringSet.mem_delete (m : StringSet) (k x : String) :
    x ∈ StringSet.delete m k ↔ x ∈ m ∧ x ≠ k := by
  simp [StringSet.delete]

theorem StringSet.mem_foldl_set {α : Type} (g : α → String) (l : List α) (m : StringSet)
    (x : String) :
    x ∈ l.foldl (fun m a => StringSet.set m (g a)) m ↔ x ∈ m ∨ ∃ a ∈ l, x = g a := by
  induction l generalizing m with
  | nil => simp
  | cons a l ih =>
    simp only [List.foldl_cons, ih, StringSet.mem_set, List.mem_cons]
    constructor
    · rintro ((h | h) | ⟨a', ha', h⟩)
      · exact Or.inl h
      · exact Or.inr ⟨a, Or.inl rfl, h⟩
      · exact Or.inr ⟨a', Or.inr ha', h⟩
    · rintro (h | ⟨a', ha' | ha', h⟩)
      · exact Or.inl (Or.inl h)
      · subst ha'; exact Or.inl (Or.inr h)
      · exact Or.inr ⟨a', ha', h⟩

theorem StringSet.mem_foldl_delete {α : Type} (g : α → String) (l : List α) (m : StringSet)
    (x : String) :
    x ∈ l.foldl (fun m a => StringSet.delete m (g a)) m ↔ x ∈ m ∧ ∀ a ∈ l, x ≠ g a := by
  induction l generalizing m with
  | nil => simp
  | cons a l ih =>
    simp only [List.foldl_cons, ih, StringSet.mem_delete, List.mem_cons]
    constructor
    · rintro ⟨⟨h1, h2⟩, h3⟩
      refine ⟨h1, ?_⟩
      rintro a' (rfl | ha')
      · exact h2
      · exact h3 a' ha'
    · rintro ⟨h1, h2⟩
      exact ⟨⟨h1, h2 a (Or.inl rfl)⟩, fun a' ha' => h2 a' (Or.inr ha')⟩

theorem length_pos_iff_exists (l : List String) : l.length > 0 ↔ ∃ x, x ∈ l := by
  cases l with
  | nil => simp
  | cons a l => simp

/-- The verdict of `HasQueryParam` when the body is not a wildcard: some field
name survives the deletions. -/
theorem HasQueryParam_eq_true_iff (b : binding)
    (hw : ∀ body, b.Binding.Body = some body → body.FieldPath ≠ []) :
    b.HasQueryParam = true ↔
      ∃ f ∈ b.Method.RequestType.Fields,
        (∀ body, b.Binding.Body = some body → f.Name ≠ body.FieldPath.String) ∧
        ∀ p ∈ b.Binding.PathParams, f.Name ≠ p.FieldPath.String := by
  unfold binding.HasQueryParam
  cases hb : b.Binding.Body with
  | none =>
    simp only [Bool.false_eq_true, if_false, decide_eq_true_eq, length_pos_iff_exists,
      StringSet.mem_foldl_delete, StringSet.mem_foldl_set]
    constructor
    · rintro ⟨x, (h | ⟨f, hf, rfl⟩), h2⟩
      · simp at h
      · exact ⟨f, hf, by simp, h2⟩
    · rintro ⟨f, hf, -, h2⟩
      exact ⟨f.Name, Or.inr ⟨f, hf, rfl⟩, h2⟩
  | some body =>
    have hne : body.FieldPath ≠ [] := hw body hb
    have hlen : (body.FieldPath.length == 0) = false := by
      cases hfp : body.FieldPath with
      | nil => exact absurd hfp hne
      | cons c cs => simp
    simp only [hlen, Bool.false_eq_true, if_false, decide_eq_true_eq, length_pos_iff_exists,
      StringSet.mem_foldl_delete, StringSet.mem_foldl_set, StringSet.mem_delete]
    constructor
    · rintro ⟨x, ⟨(h | ⟨f, hf, rfl⟩), h1⟩, h2⟩
      · simp at h
      · refine ⟨f, hf, ?_, h2⟩
        intro body' hb'
        cases hb'
        exact h1
    · rintro ⟨f, hf, h1, h2⟩
      exact ⟨f.Name, ⟨Or.inr ⟨f, hf, rfl⟩, h1 body rfl⟩, h2⟩

/-! ## C1 -/

/-- C1: for every binding whose body is set with an empty field path (the
wildcard body), `HasQueryParam` returns false, whatever the fields of the
request message and the path parameters are. -/
theorem HasQueryParam_wildcard_body (b : binding) (body : Body)
    (hbody : b.Binding.Body = some body) (hpath : body.FieldPath = []) :
    b.HasQueryParam = false := by
  simp [binding.HasQueryParam, hbody, hpath]

/-- C1 at the binding `PATCH /v1/items/{id}` with `body: "*"`. -/
theorem HasQueryParam_wildcard_body_witness :
    sampleWildcard.Binding.Body = some ⟨[]⟩ ∧ sampleWildcard.HasQueryParam = false :=
  ⟨rfl, HasQueryParam_wildcard_body sampleWildcard ⟨[]⟩ rfl rfl⟩

/-! ## C2 -/

theorem FieldMaskField.scan_some (l : List Field) (g : Field) :
    binding.FieldMaskField.scan l (some g) =
      if l.filter (fun f => decide (f.TypeName = ".google.protobuf.FieldMask")) = [] then
        some (some g)
      else none := by
  induction l with
  | nil => simp [binding.FieldMaskField.scan]
  | cons f l ih =>
    by_cases hf : f.TypeName = ".google.protobuf.FieldMask"
    · simp [binding.FieldMaskField.scan, hf]
    · simp [binding.FieldMaskField.scan, hf, ih]

theorem FieldMaskField.scan_none (l : List Field) :
    binding.FieldMaskField.scan l none =
      match l.filter (fun f => decide (f.TypeName = ".google.protobuf.FieldMask")) with
      | [] => some none
      | [f] => some (some f)
      | _ :: _ :: _ => none := by
  induction l with
  | nil => simp [binding.FieldMaskField.scan]
  | cons f l ih =>
    by_cases hf : f.TypeName = ".google.protobuf.FieldMask"
    · simp only [binding.FieldMaskField.scan, hf, if_true, FieldMaskField.scan_some,
        List.filter_cons, decide_True]
      cases hl : l.filter (fun f => decide (f.TypeName = ".google.protobuf.FieldMask")) with
      | nil => simp
      | cons a as => simp
    · simp [binding.FieldMaskField.scan, hf, ih]

/-- The value of `FieldMaskField` by the list of the FieldMask-typed fields. -/
theorem FieldMaskField_eq (env : Env) (b : binding) :
    b.FieldMaskField env =
      match b.Method.RequestType.Fields.filter
          (fun f => decide (f.TypeName = ".google.protobuf.FieldMask")) with
      | [f] => env.CamelCase f.Name
      | _ => "" := by
  unfold binding.FieldMaskField
  rw [FieldMaskField.scan_none]
  cases hl : b.Method.RequestType.Fields.filter
      (fun f => decide (f.TypeName = ".google.protobuf.FieldMask")) with
  | nil => rfl
  | cons a as =>
    cases as with
    | nil => rfl
    | cons a2 as2 => rfl

/-- C2: `FieldMaskField` returns the CamelCase form of the field's name when
exactly one field of the request message has type name
".google.protobuf.FieldMask" (the list of such fields is `[f]`), and the empty
string when the message has no such field or more than one, wherever they sit in
the field list. -/
theorem FieldMaskField_exactly_one (env : Env) (b : binding) :
    b.FieldMaskField env =
      match b.Method.RequestType.Fields.filter
          (fun f => decide (f.TypeName = ".google.protobuf.FieldMask")) with
      | [f] => env.CamelCase f.Name
      | _ => "" :=
  FieldMaskField_eq env b

/-! ## C7 -/

/-- C7 (as stated) fails: the binding `GET /v1/items/{id}/{name}` has no body, its
path parameters `id` and `name` cover both fields of the request message, and
`HasQueryParam` returns false. -/
theorem HasQueryParam_covered_counterexample :
    sampleCovered.Binding.Body = none ∧
    (∀ f ∈ sampleCovered.Method.RequestType.Fields,
      ∃ p ∈ sampleCovered.Binding.PathParams, p.FieldPath.String = f.Name) ∧
    sampleCovered.HasQueryParam = false := by
  decide

/-- C7 (amended): for a binding with no body set whose path parameters cover every
field of the request message (each field name is the dotted field path of some
path parameter), `HasQueryParam` returns false. -/
theorem HasQueryParam_covered (b : binding) (hbody : b.Binding.Body = none)
    (hcover : ∀ f ∈ b.Method.RequestType.Fields,
      ∃ p ∈ b.Binding.PathParams, p.FieldPath.String = f.Name) :
    b.HasQueryParam = false := by
  have hiff := HasQueryParam_eq_true_iff b (by intro body h; rw [hbody] at h; cases h)
  cases hq : b.HasQueryParam with
  | false => rfl
  | true =>
    obtain ⟨f, hf, -, h2⟩ := hiff.mp hq
    obtain ⟨p, hp, hpf⟩ := hcover f hf
    exact absurd hpf.symm (h2 p hp)

/-- C7 (amended) at the binding `GET /v1/items/{id}/{name}`. -/
theorem HasQueryParam_covered_witness :
    sampleCovered.Binding.Body = none ∧ sampleCovered.HasQueryParam = false :=
  ⟨rfl, HasQueryParam_covered sampleCovered rfl (by decide)⟩

/-! ## C9 -/

theorem stringsSplit_stringsJoin (names : List String) (hne : names ≠ [])
    (hdot : ∀ n ∈ names, '.' ∉ n.data) :
    stringsSplit (stringsJoin names ".") '.' = names := by
  unfold stringsSplit stringsJoin
  have hsep : (".").data = ['.'] := rfl
  rw [hsep, List.splitOn_intercalate]
  · rw [List.map_map]
    have : (String.mk ∘ String.data) = id := by
      funext s
      rfl
    rw [this, List.map_id]
  · intro l hl
    obtain ⟨n, hn, rfl⟩ := List.mem_map.mp hl
    exact hdot n hn
  · intro h
    exact hne (List.map_eq_nil_iff.mp h)

theorem QueryParamFilter.seqs_foldl (ps : List Parameter) (acc : List (List String)) :
    ps.foldl (fun seqs p => seqs ++ [stringsSplit p.FieldPath.String '.']) acc =
      acc ++ ps.map (fun p => stringsSplit p.FieldPath.String '.') := by
  induction ps generalizing acc with
  | nil => simp
  | cons p ps ih => simp [ih]

/-- C9: the sequences `QueryParamFilter` passes to `utilities.NewDoubleArray` are the
body's field path split at the dots (present iff the binding has a body, and
first), followed by each path parameter's field path split at the dots, one
sequence per path parameter in the binding's parameter order; and the split of a
non-empty field path whose component names hold no dot is the full list of its
component names, not only the first. -/
theorem QueryParamFilter_sequences (env : Env) (b : binding) :
    b.QueryParamFilter env =
      { DoubleArray := env.NewDoubleArray
          ((match b.Binding.Body with
            | some body => [stringsSplit body.FieldPath.String '.']
            | none => []) ++
           b.Binding.PathParams.map (fun p => stringsSplit p.FieldPath.String '.')) } ∧
    ∀ fp : FieldPath, fp ≠ [] → (∀ c ∈ fp, '.' ∉ c.Name.data) →
      stringsSplit fp.String '.' = fp.map (fun c => c.Name) := by
  constructor
  · unfold binding.QueryParamFilter binding.QueryParamFilter.seqs
    rw [QueryParamFilter.seqs_foldl]
    cases b.Binding.Body <;> rfl
  · intro fp hne hdot
    unfold FieldPath.String
    apply stringsSplit_stringsJoin
    · intro h
      exact hne (List.map_eq_nil_iff.mp h)
    · intro n hn
      obtain ⟨c, hc, rfl⟩ := List.mem_map.mp hn
      exact hdot c hc

/-- C9 at the binding `GET /v1/items/{item.id}`: the one sequence handed over is
`["item", "id"]`. -/
theorem QueryParamFilter_sequences_witness :
    sampleNested.QueryParamFilter sampleEnv =
      { DoubleArray := sampleEnv.NewDoubleArray [["item", "id"]] } ∧
    stringsSplit sampleParamItemId.FieldPath.String '.' = ["item", "id"] :=
  ⟨(QueryParamFilter_sequences sampleEnv sampleNested).1.trans (by decide),
   (QueryParamFilter_sequences sampleEnv sampleNested).2 sampleParamItemId.FieldPath
     (by decide) (by decide)⟩

/-! ## C10 -/

/-- C10 (as stated) fails: the binding `GET /v1/items/{item.id}` has no body (so its
body is not the wildcard of an empty body path); removing the top-level name
`item` of its path parameter leaves no field name, yet `HasQueryParam` returns
true. -/
theorem HasQueryParam_nested_counterexample :
    sampleNested.Binding.Body = none ∧
    specHasQueryParams sampleNested = false ∧
    sampleNested.HasQueryParam = true := by
  decide

/-- C10 (amended): for every binding whose body is not the wildcard, `HasQueryParam`
returns true exactly when some field name of the request message differs from
the full dotted field-path string of the body, if a body is set, and from the
full dotted field-path string of every path parameter. -/
theorem HasQueryParam_residual (b : binding)
    (hw : ∀ body, b.Binding.Body = some body → body.FieldPath ≠ []) :
    b.HasQueryParam = true ↔
      ∃ f ∈ b.Method.RequestType.Fields,
        (∀ body, b.Binding.Body = some body → f.Name ≠ body.FieldPath.String) ∧
        ∀ p ∈ b.Binding.PathParams, f.Name ≠ p.FieldPath.String :=
  HasQueryParam_eq_true_iff b hw

/-- C10 (amended) at the binding `GET /v1/items/{item.id}`: the field `item` is
not the dotted path `item.id`, so the verdict is true. -/
theorem HasQueryParam_residual_witness :
    (∀ body, sampleNested.Binding.Body = some body → body.FieldPath ≠ []) ∧
    sampleNested.HasQueryParam = true :=
  ⟨(by intro body h; cases h),
   (HasQueryParam_residual sampleNested (by intro body h; cases h)).mpr
     ⟨⟨"item", ".example.Item"⟩, (by decide), (by intro body h; cases h), (by decide)⟩⟩

/-! ## C5 -/

/-- The loop of `String` on entries whose indices are in range: it does not
panic, keeps the length, leaves the positions no entry names untouched and, when
the indices are distinct, leaves at each entry's index the text of that entry. -/
theorem String_fill_spec (env : Env) (l : List (String × Int)) :
    ∀ arr : List String, (∀ p ∈ l, 0 ≤ p.2 ∧ p.2 < arr.length) →
      ∃ out, queryParamFilter.String.fill env l arr = some out ∧
        out.length = arr.length ∧
        (∀ i : Nat, (∀ p ∈ l, p.2.toNat ≠ i) → out[i]? = arr[i]?) ∧
        ((l.map Prod.snd).Nodup → ∀ p ∈ l,
          out[p.2.toNat]? = some (env.quote p.1 ++ ": " ++ toString p.2)) := by
  induction l with
  | nil =>
    intro arr _
    exact ⟨arr, rfl, rfl, fun _ _ => rfl, fun _ p hp => by cases hp⟩
  | cons hd tl ih =>
    intro arr hr
    obtain ⟨str, enc⟩ := hd
    have hhd := hr (str, enc) (List.mem_cons_self _ _)
    have hlt : enc.toNat < arr.length := by
      have := hhd.1
      have := hhd.2
      omega
    have hset : sliceSet arr enc (env.quote str ++ ": " ++ toString enc) =
        some (arr.set enc.toNat (env.quote str ++ ": " ++ toString enc)) := by
      unfold sliceSet
      rw [if_pos hhd]
    obtain ⟨out, hout, hlen, hkeep, hat⟩ :=
      ih (arr.set enc.toNat (env.quote str ++ ": " ++ toString enc))
        (by
          intro p hp
          have := hr p (List.mem_cons_of_mem _ hp)
          simpa using this)
    refine ⟨out, ?_, ?_, ?_, ?_⟩
    · simp only [queryParamFilter.String.fill, hset]
      exact hout
    · rw [hlen, List.length_set]
    · intro i hi
      rw [hkeep i (fun p hp => hi p (List.mem_cons_of_mem _ hp))]
      have hne : enc.toNat ≠ i := hi (str, enc) (List.mem_cons_self _ _)
      rw [List.getElem?_set_ne hne]
    · intro hnd p hp
      rw [List.map_cons, List.nodup_cons] at hnd
      rcases List.mem_cons.mp hp with rfl | hp'
      · have hfresh : ∀ q ∈ tl, q.2.toNat ≠ enc.toNat := by
          intro q hq heq
          have hq0 := (hr q (List.mem_cons_of_mem _ hq)).1
          have : q.2 = enc := by
            have := hhd.1
            omega
          have hmem : q.2 ∈ tl.map Prod.snd := List.mem_map_of_mem Prod.snd hq
          rw [this] at hmem
          exact hnd.1 hmem
        rw [hkeep enc.toNat hfresh, List.getElem?_set_self hlt]
      · exact hat hnd.2 p hp'

/-- The slice `encodings` at the end of the loop of `String`, for a map whose
indices are `0..n-1`: it is determined by the entries of the map alone. -/
theorem String_fill_canonical (env : Env) (l : List (String × Int))
    (hidx : (l.map Prod.snd).Perm ((List.range l.length).map Int.ofNat)) :
    ∃ out, queryParamFilter.String.fill env l (List.replicate l.length "") = some out ∧
      out.length = l.length ∧
      ∀ p ∈ l, out[p.2.toNat]? = some (env.quote p.1 ++ ": " ++ toString p.2) := by
  have hrange : ∀ p ∈ l, 0 ≤ p.2 ∧ p.2 < (List.replicate l.length "").length := by
    intro p hp
    have hm : p.2 ∈ (List.range l.length).map Int.ofNat :=
      hidx.subset (List.mem_map_of_mem Prod.snd hp)
    obtain ⟨k, hk, hkp⟩ := List.mem_map.mp hm
    have hk2 := List.mem_range.mp hk
    rw [List.length_replicate]
    constructor
    · rw [← hkp]; exact Int.ofNat_nonneg k
    · rw [← hkp]; exact Int.ofNat_lt.mpr hk2
  have hnd : (l.map Prod.snd).Nodup := by
    rw [hidx.nodup_iff]
    exact (List.nodup_range _).map (fun a b h => Int.ofNat.inj h)
  obtain ⟨out, hout, hlen, -, hat⟩ := String_fill_spec env l _ hrange
  exact ⟨out, hout, by rw [hlen, List.length_replicate], hat hnd⟩

/-- C5: for a filter whose `Encoding` map assigns its n keys the distinct indices
`0..n-1`, `String` does not panic and writes, at each position `enc` of the n
joined entries, the text `"key": enc` of the key whose index is `enc` (so each
entry once, in increasing index order); and a filter with the same map entries
visited in any other order (`g`, a permutation), the same `Base` and the same
`Check` gives the same string. -/
theorem String_deterministic (env : Env) (f g : queryParamFilter)
    (hidx : (f.DoubleArray.Encoding.map Prod.snd).Perm
      ((List.range f.DoubleArray.Encoding.length).map Int.ofNat))
    (hperm : g.DoubleArray.Encoding.Perm f.DoubleArray.Encoding)
    (hbase : g.DoubleArray.Base = f.DoubleArray.Base)
    (hcheck : g.DoubleArray.Check = f.DoubleArray.Check) :
    ∃ encodings : List String,
      f.String env = some ("&utilities.DoubleArray\x7bEncoding: map[string]int\x7b"
        ++ stringsJoin encodings ", " ++ "\x7d, Base: "
        ++ env.goSyntaxInts f.DoubleArray.Base ++ ", Check: "
        ++ env.goSyntaxInts f.DoubleArray.Check ++ "\x7d") ∧
      encodings.length = f.DoubleArray.Encoding.length ∧
      (∀ p ∈ f.DoubleArray.Encoding,
        encodings[p.2.toNat]? = some (env.quote p.1 ++ ": " ++ toString p.2)) ∧
      g.String env = f.String env := by
  have hlenfg : g.DoubleArray.Encoding.length = f.DoubleArray.Encoding.length := hperm.length_eq
  have hidxg : (g.DoubleArray.Encoding.map Prod.snd).Perm
      ((List.range g.DoubleArray.Encoding.length).map Int.ofNat) := by
    rw [hlenfg]
    exact (hperm.map Prod.snd).trans hidx
  obtain ⟨outf, hf, hlf, hatf⟩ := String_fill_canonical env f.DoubleArray.Encoding hidx
  obtain ⟨outg, hg, hlg, hatg⟩ := String_fill_canonical env g.DoubleArray.Encoding hidxg
  have heq : outg = outf := by
    apply List.ext_getElem?
    intro i
    by_cases hi : i < f.DoubleArray.Encoding.length
    · have hm : (Int.ofNat i) ∈ f.DoubleArray.Encoding.map Prod.snd :=
        hidx.symm.subset (List.mem_map_of_mem Int.ofNat (List.mem_range.mpr hi))
      obtain ⟨p, hp, hpi⟩ := List.mem_map.mp hm
      have h1 := hatf p hp
      have h2 := hatg p (hperm.symm.subset hp)
      have hi2 : p.2.toNat = i := by rw [hpi]; rfl
      rw [hi2] at h1 h2
      rw [h1, h2]
    · have h1 : outf[i]? = none := List.getElem?_eq_none (by omega)
      have h2 : outg[i]? = none := List.getElem?_eq_none (by omega)
      rw [h1, h2]
  refine ⟨outf, ?_, hlf, hatf, ?_⟩
  · simp only [queryParamFilter.String, hf]
  · simp only [queryParamFilter.String, hf, hg, heq, hbase, hcheck]

/-- C5 at a filter with the entries `"name": 1` and `"id": 0`, visited in both
orders. -/
theorem String_deterministic_witness :
    sampleFilterReordered.String sampleEnv = sampleFilter.String sampleEnv ∧
    sampleFilter.String sampleEnv = some
      "&utilities.DoubleArray\x7bEncoding: map[string]int\x7b\"id\": 0, \"name\": 1\x7d, Base: []int\x7b1, 1, 0\x7d, Check: []int(nil)\x7d" :=
  ⟨(String_deterministic sampleEnv sampleFilter sampleFilterReordered (by decide) (by decide)
      rfl rfl).choose_spec.2.2.2,
   by decide⟩

/-! ## The text nodes a handler execution writes -/

theorem texts_append (ps qs : List Piece) : texts (ps ++ qs) = texts ps ++ texts qs := by
  induction ps with
  | nil => rfl
  | cons p ps ih =>
    cases p with
    | text s => simp [texts, ih]
    | value v => simp [texts, ih]

theorem texts_requestFuncSignature (env : Env) (b : binding) :
    texts (requestFuncSignature env b) ⊆
      if b.Method.ServerStreaming then signatureStreamTexts else signatureUnaryTexts := by
  unfold requestFuncSignature
  split <;> simp [texts, signatureStreamTexts, signatureUnaryTexts]

theorem texts_cons_text (s : String) (ps : List Piece) :
    texts (Piece.text s :: ps) = s :: texts ps := rfl

theorem texts_cons_value (v : String) (ps : List Piece) :
    texts (Piece.value v :: ps) = texts ps := rfl

theorem texts_nil : texts [] = [] := rfl

theorem subset_append_left_of {l l1 : List String} (l2 : List String) (h : l ⊆ l1) :
    l ⊆ l1 ++ l2 :=
  fun _ ha => List.mem_append_left _ (h ha)

theorem subset_append_right_of {l l2 : List String} (l1 : List String) (h : l ⊆ l2) :
    l ⊆ l1 ++ l2 :=
  fun _ ha => List.mem_append_right _ (h ha)

theorem texts_clientStreamingRequestFunc (env : Env) (b : binding) :
    texts (clientStreamingRequestFunc env b) ⊆
      (if b.Method.ServerStreaming then signatureStreamTexts else signatureUnaryTexts) ++
      (clientStreamingTexts ++
        (if b.Method.ServerStreaming then [ "\n\treturn stream, metadata, nil\n" ]
         else [ "\n\tmsg, err := stream.CloseAndRecv()\n\tmetadata.TrailerMD = stream.Trailer()\n\treturn msg, metadata, err\n" ])) := by
  have hsig := texts_requestFuncSignature env b
  unfold clientStreamingRequestFunc
  simp only [texts_append, texts_cons_text, texts_cons_value, texts_nil]
  cases hss : b.Method.ServerStreaming <;> simp only [hss] at hsig ⊢ <;>
    simp [clientStreamingTexts, texts] <;>
    exact subset_append_left_of _ (by simpa using hsig)

theorem texts_bidiStreamingRequestFunc (env : Env) (b : binding) :
    texts (bidiStreamingRequestFunc env b) ⊆
      (if b.Method.ServerStreaming then signatureStreamTexts else signatureUnaryTexts) ++
      bidiStreamingTexts := by
  have hsig := texts_requestFuncSignature env b
  unfold bidiStreamingRequestFunc
  simp only [texts_append, texts_cons_text, texts_cons_value, texts_nil]
  simp [bidiStreamingTexts]
  exact subset_append_left_of _ hsig

theorem texts_clientRpcFilterVar (env : Env) (b : binding) (ps : List Piece)
    (h : clientRpcFilterVar env b = .ok ps) : texts ps ⊆ clientRpcFilterVarTexts := by
  unfold clientRpcFilterVar at h
  split at h
  · split at h
    · cases h
    · cases h
      simp [texts, clientRpcFilterVarTexts]
  · cases h
    simp [texts]

theorem texts_clientRpcFieldMask (env : Env) (b : binding) :
    texts (clientRpcFieldMask env b) ⊆
      if b.AllowPatchFeature && (b.Binding.HTTPMethod == "PATCH" && b.FieldMaskField env != "")
      then clientRpcFieldMaskTexts ++
        (if !("*" == b.GetBodyFieldPath) then clientRpcFieldMaskElseTexts else [])
      else [] := by
  unfold clientRpcFieldMask
  split
  · split <;>
      simp [texts, texts_append, clientRpcFieldMaskTexts, clientRpcFieldMaskElseTexts]
  · simp [texts]

theorem texts_clientRpcBody (env : Env) (b : binding) :
    texts (clientRpcBody env b) ⊆
      if b.Binding.Body.isSome then
        clientRpcBodyTexts ++
        (if b.AllowPatchFeature && (b.Binding.HTTPMethod == "PATCH" && b.FieldMaskField env != "")
         then clientRpcFieldMaskTexts ++
           (if !("*" == b.GetBodyFieldPath) then clientRpcFieldMaskElseTexts else [])
         else [])
      else [] := by
  have hmask := texts_clientRpcFieldMask env b
  unfold clientRpcBody
  cases hb : b.Binding.Body with
  | none => simp [texts]
  | some body =>
    simp only [texts_append, texts_cons_text, texts_cons_value, texts_nil, Option.isSome_some,
      if_true]
    refine List.append_subset.mpr ⟨List.append_subset.mpr ⟨?_, ?_⟩, ?_⟩
    · exact subset_append_left_of _ (by simp [clientRpcBodyTexts])
    · exact subset_append_right_of _ hmask
    · exact subset_append_left_of _ (by simp [clientRpcBodyTexts])

theorem texts_clientRpcSeparatorArg (env : Env) (b : binding) (param : Parameter)
    (ps : List Piece) (h : clientRpcSeparatorArg env b param = .ok ps) :
    texts ps ⊆ clientRpcPathParamTexts := by
  unfold clientRpcSeparatorArg at h
  split at h
  · unfold repeatedPathParamSeparator at h
    split at h
    · cases h
    · rename_i heq
      split at heq
      · cases heq
      · cases heq
        cases h
        simp [texts, clientRpcPathParamTexts]
  · cases h
    simp [texts]

theorem texts_clientRpcConvert (env : Env) (b : binding) (param : Parameter)
    (enum : Option Enum) (ps : List Piece) (h : clientRpcConvert env b param enum = .ok ps) :
    texts ps ⊆ clientRpcPathParamTexts := by
  unfold clientRpcConvert at h
  split at h
  · cases h
    simp [texts, clientRpcPathParamTexts]
  · split at h
    · split at h
      · cases h
      · split at h
        · cases h
        · rename_i sep hsep
          have hs := texts_clientRpcSeparatorArg env b param sep hsep
          cases h
          simp only [texts_append, texts_cons_text, texts_cons_value, texts_nil]
          split <;> simp [texts, clientRpcPathParamTexts] <;> exact hs
    · split at h
      · cases h
      · split at h
        · cases h
        · rename_i sep hsep
          have hs := texts_clientRpcSeparatorArg env b param sep hsep
          cases h
          simp only [texts_append, texts_cons_text, texts_cons_value, texts_nil]
          simp [texts, clientRpcPathParamTexts]
          exact hs

theorem texts_clientRpcEnumAssign (env : Env) (param : Parameter) (enum : Option Enum) :
    texts (clientRpcEnumAssign env param enum) ⊆ clientRpcPathParamTexts := by
  unfold clientRpcEnumAssign
  split
  · split <;> simp [texts, clientRpcPathParamTexts]
  · simp [texts]

theorem texts_clientRpcPathParam (env : Env) (b : binding) (param : Parameter)
    (ps : List Piece) (h : clientRpcPathParam env b param = .ok ps) :
    texts ps ⊆ clientRpcPathParamTexts := by
  unfold clientRpcPathParam at h
  split at h
  · cases h
  · rename_i enum _
    split at h
    · cases h
    · rename_i conv hconv
      have hc := texts_clientRpcConvert env b param enum conv hconv
      have he := texts_clientRpcEnumAssign env param enum
      cases h
      simp only [texts_append, texts_cons_text, texts_cons_value, texts_nil]
      simp [clientRpcPathParamTexts]
      exact ⟨hc, he⟩

theorem texts_clientRpcPathParamLoop (env : Env) (b : binding) (params : List Parameter) :
    ∀ ps, clientRpcPathParamLoop env b params = .ok ps →
      texts ps ⊆ clientRpcPathParamTexts := by
  induction params with
  | nil =>
    intro ps h
    cases h
    simp [texts]
  | cons param rest ih =>
    intro ps h
    unfold clientRpcPathParamLoop at h
    split at h
    · cases h
    · rename_i one hone
      split at h
      · cases h
      · rename_i more hmore
        cases h
        rw [texts_append]
        exact List.append_subset.mpr
          ⟨texts_clientRpcPathParam env b param one hone, ih more hmore⟩

theorem texts_clientRpcPathParams (env : Env) (b : binding) (ps : List Piece)
    (h : clientRpcPathParams env b = .ok ps) :
    texts ps ⊆ clientRpcPathParamsTexts ++ clientRpcPathParamTexts := by
  unfold clientRpcPathParams at h
  split at h
  · split at h
    · cases h
    · rename_i loop hloop
      have hl := texts_clientRpcPathParamLoop env b _ loop hloop
      cases h
      simp only [texts_append, texts_cons_text, texts_cons_value, texts_nil]
      split <;> split <;> simp [texts, clientRpcPathParamsTexts] <;>
        exact fun a ha => by simp [hl ha]
  · cases h
    simp [texts]

theorem texts_clientRpcQueryParams (b : binding) :
    texts (clientRpcQueryParams b) ⊆ clientRpcQueryParamsTexts := by
  unfold clientRpcQueryParams
  split <;> simp [texts, clientRpcQueryParamsTexts]

theorem texts_clientRpcInvoke (b : binding) :
    texts (clientRpcInvoke b) ⊆
      if b.Method.ServerStreaming then clientRpcStreamTexts else clientRpcUnaryTexts := by
  unfold clientRpcInvoke
  split <;> simp [texts, clientRpcStreamTexts, clientRpcUnaryTexts]

/-- A successful execution of template "client-rpc-request-func" is the
concatenation of its blocks. -/
theorem clientRpcRequestFunc_ok (env : Env) (b : binding) (ps : List Piece)
    (h : clientRpcRequestFunc env b = .ok ps) :
    ∃ filterVar pathParams,
      clientRpcFilterVar env b = .ok filterVar ∧
      clientRpcPathParams env b = .ok pathParams ∧
      ps = [ Piece.text "\n", Piece.text "\n" ] ++ filterVar ++ [ Piece.text "\n" ] ++
        requestFuncSignature env b ++
        [ Piece.text " \x7b\n\tvar protoReq ",
          Piece.value (env.MessageGoType b.Method.RequestType b.Method.Service.GoPkgPath),
          Piece.text "\n\tvar metadata runtime.ServerMetadata\n" ] ++
        clientRpcBody env b ++ [ Piece.text "\n" ] ++ pathParams ++ [ Piece.text "\n" ] ++
        clientRpcQueryParams b ++ [ Piece.text "\n" ] ++
        clientRpcInvoke b ++ [ Piece.text "\n\x7d" ] := by
  unfold clientRpcRequestFunc at h
  split at h
  · cases h
  · rename_i filterVar hf
    split at h
    · cases h
    · rename_i pathParams hp
      cases h
      exact ⟨filterVar, pathParams, hf, hp, rfl⟩

/-- A successful execution of template "handler" on a method that is not
client-streaming wraps the execution of template "client-rpc-request-func". -/
theorem handlerTemplate_ok_rpc (env : Env) (b : binding) (ps : List Piece)
    (hcs : b.Method.ClientStreaming = false) (h : handlerTemplate env b = .ok ps) :
    ∃ rpc, clientRpcRequestFunc env b = .ok rpc ∧
      ps = [ Piece.text "\n", Piece.text "\n" ] ++ rpc ++ [ Piece.text "\n", Piece.text "\n" ] := by
  unfold handlerTemplate at h
  simp only [hcs, Bool.false_and, Bool.false_eq_true, if_false] at h
  split at h
  · cases h
  · rename_i rpc hr
    cases h
    exact ⟨rpc, hr, rfl⟩

theorem texts_clientRpcRequestFunc (env : Env) (b : binding) (ps : List Piece)
    (h : clientRpcRequestFunc env b = .ok ps) :
    texts ps ⊆ handlerTexts false b.Method.ServerStreaming b.Binding.Body.isSome
      (b.AllowPatchFeature && (b.Binding.HTTPMethod == "PATCH" && b.FieldMaskField env != ""))
      (!("*" == b.GetBodyFieldPath)) := by
  obtain ⟨filterVar, pathParams, hf, hp, rfl⟩ := clientRpcRequestFunc_ok env b ps h
  have h1 := texts_clientRpcFilterVar env b filterVar hf
  have h2 := texts_requestFuncSignature env b
  have h3 := texts_clientRpcBody env b
  have h4 := texts_clientRpcPathParams env b pathParams hp
  have h5 := texts_clientRpcQueryParams b
  have h6 := texts_clientRpcInvoke b
  have g1 : texts filterVar ⊆ handlerTexts false b.Method.ServerStreaming b.Binding.Body.isSome
      (b.AllowPatchFeature && (b.Binding.HTTPMethod == "PATCH" && b.FieldMaskField env != ""))
      (!("*" == b.GetBodyFieldPath)) := fun a ha => by
    have := h1 ha
    simp [handlerTexts, this]
  have g2 : texts (requestFuncSignature env b) ⊆
      handlerTexts false b.Method.ServerStreaming b.Binding.Body.isSome
      (b.AllowPatchFeature && (b.Binding.HTTPMethod == "PATCH" && b.FieldMaskField env != ""))
      (!("*" == b.GetBodyFieldPath)) := fun a ha => by
    have := h2 ha
    simp only [handlerTexts, List.mem_append]
    exact Or.inl (Or.inr this)
  have g3 : texts (clientRpcBody env b) ⊆
      handlerTexts false b.Method.ServerStreaming b.Binding.Body.isSome
      (b.AllowPatchFeature && (b.Binding.HTTPMethod == "PATCH" && b.FieldMaskField env != ""))
      (!("*" == b.GetBodyFieldPath)) := fun a ha => by
    have := h3 ha
    simp only [handlerTexts, List.mem_append, Bool.false_and, Bool.false_eq_true, if_false]
    exact Or.inr (Or.inl (Or.inl (Or.inl (Or.inl (Or.inr this)))))
  have g4 : texts pathParams ⊆
      handlerTexts false b.Method.ServerStreaming b.Binding.Body.isSome
      (b.AllowPatchFeature && (b.Binding.HTTPMethod == "PATCH" && b.FieldMaskField env != ""))
      (!("*" == b.GetBodyFieldPath)) := fun a ha => by
    have := h4 ha
    simp only [handlerTexts, List.mem_append, Bool.false_and, Bool.false_eq_true, if_false]
    rcases List.mem_append.mp this with h | h
    · exact Or.inr (Or.inl (Or.inl (Or.inl (Or.inr h))))
    · exact Or.inr (Or.inl (Or.inl (Or.inr h)))
  have g5 : texts (clientRpcQueryParams b) ⊆
      handlerTexts false b.Method.ServerStreaming b.Binding.Body.isSome
      (b.AllowPatchFeature && (b.Binding.HTTPMethod == "PATCH" && b.FieldMaskField env != ""))
      (!("*" == b.GetBodyFieldPath)) := fun a ha => by
    have := h5 ha
    simp only [handlerTexts, List.mem_append, Bool.false_and, Bool.false_eq_true, if_false]
    exact Or.inr (Or.inl (Or.inr this))
  have g6 : texts (clientRpcInvoke b) ⊆
      handlerTexts false b.Method.ServerStreaming b.Binding.Body.isSome
      (b.AllowPatchFeature && (b.Binding.HTTPMethod == "PATCH" && b.FieldMaskField env != ""))
      (!("*" == b.GetBodyFieldPath)) := fun a ha => by
    have := h6 ha
    simp only [handlerTexts, List.mem_append, Bool.false_and, Bool.false_eq_true, if_false]
    exact Or.inr (Or.inr this)
  simp only [texts_append, texts_cons_text, texts_cons_value, texts_nil, List.append_subset,
    List.cons_subset, List.nil_subset, and_true]
  refine ⟨⟨⟨⟨⟨⟨⟨⟨⟨⟨⟨⟨⟨?_, ?_⟩, ?_⟩, ?_⟩, ?_⟩, ?_⟩, ?_⟩, ?_⟩, ?_⟩, ?_⟩, ?_⟩, ?_⟩, ?_⟩, ?_⟩
  all_goals first
    | exact g1
    | exact g2
    | exact g3
    | exact g4
    | exact g5
    | exact g6
    | simp [handlerTexts, clientRpcFrameTexts]

/-- Every text node a successful execution of template "handler" writes is one
of the text nodes `handlerTexts` lists for the flags of the binding. -/
theorem texts_handlerTemplate (env : Env) (b : binding) (ps : List Piece)
    (h : handlerTemplate env b = .ok ps) :
    texts ps ⊆ handlerTexts b.Method.ClientStreaming b.Method.ServerStreaming
      b.Binding.Body.isSome
      (b.AllowPatchFeature && (b.Binding.HTTPMethod == "PATCH" && b.FieldMaskField env != ""))
      (!("*" == b.GetBodyFieldPath)) := by
  cases hcs : b.Method.ClientStreaming with
  | false =>
    obtain ⟨rpc, hr, rfl⟩ := handlerTemplate_ok_rpc env b ps hcs h
    have h1 := texts_clientRpcRequestFunc env b rpc hr
    simp only [texts_append, texts_cons_text, texts_cons_value, texts_nil, List.append_subset,
      List.cons_subset, List.nil_subset, and_true]
    refine ⟨⟨⟨?_, ?_⟩, ?_⟩, ?_, ?_⟩
    all_goals first
      | exact h1
      | simp [handlerTexts]
  | true =>
    unfold handlerTemplate at h
    cases hss : b.Method.ServerStreaming with
    | true =>
      simp only [hcs, hss, Bool.and_self, if_true] at h
      cases h
      have h1 := texts_bidiStreamingRequestFunc env b
      simp only [hss, if_true] at h1
      have g1 : texts (bidiStreamingRequestFunc env b) ⊆
          handlerTexts true true b.Binding.Body.isSome
            (b.AllowPatchFeature && (b.Binding.HTTPMethod == "PATCH" && b.FieldMaskField env != ""))
            (!("*" == b.GetBodyFieldPath)) := fun a ha => by
        have := h1 ha
        simp only [handlerTexts, List.mem_append, Bool.and_self, if_true]
        rcases List.mem_append.mp this with h | h
        · exact Or.inl (Or.inr h)
        · exact Or.inr h
      simp only [texts_append, texts_cons_text, texts_cons_value, texts_nil, List.append_subset,
        List.cons_subset, List.nil_subset, and_true]
      refine ⟨⟨⟨?_, ?_⟩, ?_⟩, ?_, ?_⟩
      all_goals first
        | exact g1
        | simp [handlerTexts]
    | false =>
      simp only [hcs, hss, Bool.and_false, Bool.false_eq_true, if_false, if_true] at h
      cases h
      have h1 := texts_clientStreamingRequestFunc env b
      simp only [hss, Bool.false_eq_true, if_false] at h1
      have g1 : texts (clientStreamingRequestFunc env b) ⊆
          handlerTexts true false b.Binding.Body.isSome
            (b.AllowPatchFeature && (b.Binding.HTTPMethod == "PATCH" && b.FieldMaskField env != ""))
            (!("*" == b.GetBodyFieldPath)) := fun a ha => by
        have := h1 ha
        simp only [handlerTexts, List.mem_append, Bool.and_false, Bool.false_eq_true, if_false,
          if_true]
        rcases List.mem_append.mp this with h | h
        · exact Or.inl (Or.inr h)
        · exact Or.inr (List.mem_append.mp h)
      simp only [texts_append, texts_cons_text, texts_cons_value, texts_nil, List.append_subset,
        List.cons_subset, List.nil_subset, and_true]
      refine ⟨⟨⟨?_, ?_⟩, ?_⟩, ?_, ?_⟩
      all_goals first
        | exact g1
        | simp [handlerTexts]

/-- A handler execution that does not fail returns the pieces `handlerPieces`. -/
theorem handlerPieces_ok (env : Env) (b : binding)
    (h : (handlerTemplate env b).toBool = true) :
    handlerTemplate env b = .ok (handlerPieces env b) := by
  unfold handlerPieces
  cases hh : handlerTemplate env b with
  | error e => rw [hh] at h; cases h
  | ok ps => rfl

/-! ## C3 -/

/-- No text node of the handler templates outside the field-mask block mentions
a field mask. -/
theorem handlerTexts_no_fieldMask :
    ∀ cs ss body notWildcard : Bool, ∀ t ∈ handlerTexts cs ss body false notWildcard,
      ¬ occursIn "FieldMask" t := by
  decide!

/-- A handler execution that emits template text mentioning a field mask has the
field-mask condition of the template true. -/
theorem emits_fieldMask_cond (env : Env) (b : binding) (ps : List Piece)
    (hok : handlerTemplate env b = .ok ps) (hemit : emitsText ps "FieldMask") :
    (b.AllowPatchFeature && (b.Binding.HTTPMethod == "PATCH" && b.FieldMaskField env != ""))
      = true := by
  obtain ⟨t, ht, hocc⟩ := hemit
  have hin := texts_handlerTemplate env b ps hok ht
  cases hm : (b.AllowPatchFeature &&
      (b.Binding.HTTPMethod == "PATCH" && b.FieldMaskField env != "")) with
  | true => rfl
  | false =>
    rw [hm] at hin
    exact absurd hocc (handlerTexts_no_fieldMask _ _ _ _ t hin)

/-- C3: the handler template emits field-mask handling code (template text that
mentions a field mask: the `runtime.CamelCaseFieldMask` and
`runtime.FieldMaskFromRequestBody` calls) only if the patch-feature flag is
enabled, the HTTP verb of the binding is "PATCH" and `FieldMaskField` is not
empty; and for a request message with two or more FieldMask-typed fields no such
code is emitted, whatever the verb and the flag. It holds for the bindings of
every method, those of unary and server-streaming methods included. -/
theorem fieldMask_code_only_if (env : Env) (b : binding) (ps : List Piece)
    (hok : handlerTemplate env b = .ok ps) :
    (emitsText ps "FieldMask" →
      b.AllowPatchFeature = true ∧ b.Binding.HTTPMethod = "PATCH" ∧
        b.FieldMaskField env ≠ "") ∧
    (2 ≤ (b.Method.RequestType.Fields.filter
        (fun f => decide (f.TypeName = ".google.protobuf.FieldMask"))).length →
      ¬ emitsText ps "FieldMask") := by
  constructor
  · intro hemit
    have h := emits_fieldMask_cond env b ps hok hemit
    simpa using h
  · intro htwo hemit
    have h := emits_fieldMask_cond env b ps hok hemit
    have hempty : b.FieldMaskField env = "" := by
      rw [FieldMaskField_eq]
      cases hl : b.Method.RequestType.Fields.filter
          (fun f => decide (f.TypeName = ".google.protobuf.FieldMask")) with
      | nil => rfl
      | cons a as =>
        cases as with
        | nil => rw [hl] at htwo; simp at htwo
        | cons a2 as2 => rfl
    simp [hempty] at h

/-- C3 at the binding `PATCH /v1/items/{id}` with `body: "*"`: field-mask code is
emitted, and the three conditions hold. -/
theorem fieldMask_code_only_if_witness :
    emitsText (handlerPieces sampleEnv sampleWildcard) "FieldMask" ∧
    sampleWildcard.AllowPatchFeature = true ∧ sampleWildcard.Binding.HTTPMethod = "PATCH" ∧
      sampleWildcard.FieldMaskField sampleEnv ≠ "" :=
  ⟨by decide!,
   (fieldMask_code_only_if sampleEnv sampleWildcard (handlerPieces sampleEnv sampleWildcard)
      (handlerPieces_ok sampleEnv sampleWildcard (by decide!))).1 (by decide!)⟩

/-! ## C8 -/

/-- No text node of the handler templates outside the `else` branch of the
field-mask block calls `runtime.FieldMaskFromRequestBody`. -/
theorem handlerTexts_no_fromRequestBody :
    (∀ cs ss body mask : Bool, ∀ t ∈ handlerTexts cs ss body mask false,
      ¬ occursIn "runtime.FieldMaskFromRequestBody" t) ∧
    (∀ cs ss mask notWildcard : Bool, ∀ t ∈ handlerTexts cs ss false mask notWildcard,
      ¬ occursIn "runtime.FieldMaskFromRequestBody" t) := by
  decide!

/-- C8 (as stated) fails: the binding `PATCH /v1/items/{id}` with `body: "*"` of a
unary method has the patch-feature flag enabled and the resolved field-mask
field `UpdateMask`, its body path is the wildcard, the handler execution
succeeds, and no emitted text calls `runtime.FieldMaskFromRequestBody`; the same
binding with no body at all (wildcard default) emits no such call either. -/
theorem fromRequestBody_wildcard_counterexample :
    sampleWildcard.AllowPatchFeature = true ∧
    sampleWildcard.Binding.HTTPMethod = "PATCH" ∧
    sampleWildcard.FieldMaskField sampleEnv = "UpdateMask" ∧
    sampleWildcard.GetBodyFieldPath = "*" ∧
    (handlerTemplate sampleEnv sampleWildcard).toBool = true ∧
    ¬ emitsText (handlerPieces sampleEnv sampleWildcard) "runtime.FieldMaskFromRequestBody" ∧
    sampleNoBody.GetBodyFieldPath = "*" ∧
    (handlerTemplate sampleEnv sampleNoBody).toBool = true ∧
    ¬ emitsText (handlerPieces sampleEnv sampleNoBody) "runtime.FieldMaskFromRequestBody" := by
  decide!

/-- C8 (amended): for every PATCH binding of a unary or server-streaming method,
with the patch-feature flag enabled and a resolved field-mask field, the
generated handler calls `runtime.FieldMaskFromRequestBody` exactly when the body
path of the binding is not the wildcard "*" (a body is set and its field path
is not empty); in that case the pieces hold the `else` branch that reads the
mask from the raw request body and assigns it to the field-mask field, and the
invocation of the RPC comes after it. -/
theorem fromRequestBody_iff_not_wildcard (env : Env) (b : binding) (ps : List Piece)
    (hcs : b.Method.ClientStreaming = false)
    (hok : handlerTemplate env b = .ok ps)
    (hflag : b.AllowPatchFeature = true)
    (hpatch : b.Binding.HTTPMethod = "PATCH")
    (hmask : b.FieldMaskField env ≠ "") :
    (emitsText ps "runtime.FieldMaskFromRequestBody" ↔ b.GetBodyFieldPath ≠ "*") ∧
    (b.GetBodyFieldPath ≠ "*" →
      ∃ pre post, ps = pre ++
        [ Piece.text " else \x7b\n\t\t\tif fieldMask, err := runtime.FieldMaskFromRequestBody(newReader()); err != nil \x7b\n\t\t\t\treturn nil, metadata, status.Errorf(codes.InvalidArgument, \"%v\", err)\n\t\t\t\x7d else \x7b\n\t\t\t\tprotoReq.",
          Piece.value (b.FieldMaskField env),
          Piece.text " = fieldMask\n\t\t\t\x7d\n\t\x7d " ] ++ post ∧
        emitsText post "err := client.") := by
  have hshape : b.GetBodyFieldPath ≠ "*" →
      ∃ pre post, ps = pre ++
        [ Piece.text " else \x7b\n\t\t\tif fieldMask, err := runtime.FieldMaskFromRequestBody(newReader()); err != nil \x7b\n\t\t\t\treturn nil, metadata, status.Errorf(codes.InvalidArgument, \"%v\", err)\n\t\t\t\x7d else \x7b\n\t\t\t\tprotoReq.",
          Piece.value (b.FieldMaskField env),
          Piece.text " = fieldMask\n\t\t\t\x7d\n\t\x7d " ] ++ post ∧
        emitsText post "err := client." := by
    intro hnw
    obtain ⟨rpc, hr, rfl⟩ := handlerTemplate_ok_rpc env b ps hcs hok
    obtain ⟨filterVar, pathParams, -, -, rfl⟩ := clientRpcRequestFunc_ok env b rpc hr
    cases hb : b.Binding.Body with
    | none =>
      exfalso
      apply hnw
      simp [binding.GetBodyFieldPath, hb]
    | some body =>
      have hnw2 : ("*" == b.GetBodyFieldPath) = false := by
        rw [beq_eq_false_iff_ne]
        exact fun h => hnw h.symm
      have hcond : (b.AllowPatchFeature &&
          (b.Binding.HTTPMethod == "PATCH" && b.FieldMaskField env != "")) = true := by
        simp [hflag, hpatch, hmask]
      refine ⟨[ Piece.text "\n", Piece.text "\n" ] ++ ([ Piece.text "\n", Piece.text "\n" ] ++
          filterVar ++ [ Piece.text "\n" ] ++ requestFuncSignature env b ++
          [ Piece.text " \x7b\n\tvar protoReq ",
            Piece.value (env.MessageGoType b.Method.RequestType b.Method.Service.GoPkgPath),
            Piece.text "\n\tvar metadata runtime.ServerMetadata\n" ] ++
          [ Piece.text "\n\tnewReader, berr := utilities.IOReaderFactory(req.Body)\n\tif berr != nil \x7b\n\t\treturn nil, metadata, status.Errorf(codes.InvalidArgument, \"%v\", berr)\n\t\x7d\n\tif err := marshaler.NewDecoder(newReader()).Decode(&",
            Piece.value (env.BodyAssignableExpr body "protoReq"),
            Piece.text "); err != nil && err != io.EOF  \x7b\n\t\treturn nil, metadata, status.Errorf(codes.InvalidArgument, \"%v\", err)\n\t\x7d" ] ++
          [ Piece.text "\n\tif protoReq.", Piece.value (b.FieldMaskField env),
            Piece.text " != nil && len(protoReq.", Piece.value (b.FieldMaskField env),
            Piece.text ".GetPaths()) > 0 \x7b\n\t\truntime.CamelCaseFieldMask(protoReq.",
            Piece.value (b.FieldMaskField env),
            Piece.text ")\n\t\x7d " ]),
        [ Piece.text "\n\t" ] ++ [ Piece.text "\n" ] ++ [ Piece.text "\n" ] ++ pathParams ++ [ Piece.text "\n" ] ++
          clientRpcQueryParams b ++ [ Piece.text "\n" ] ++ clientRpcInvoke b ++ [ Piece.text "\n\x7d" ] ++
          [ Piece.text "\n", Piece.text "\n" ], ?_, ?_⟩
      · simp only [clientRpcBody, hb, clientRpcFieldMask, hcond, hnw2, if_true, Bool.not_false,
          List.append_assoc, List.cons_append, List.nil_append]
      · unfold emitsText
        simp only [texts_append, List.mem_append]
        cases hss : b.Method.ServerStreaming with
        | true =>
          refine ⟨"\n\tstream, err := client.", ?_, by decide!⟩
          simp [clientRpcInvoke, hss, texts]
        | false =>
          refine ⟨"\n\tmsg, err := client.", ?_, by decide!⟩
          simp [clientRpcInvoke, hss, texts]
  refine ⟨⟨?_, ?_⟩, hshape⟩
  · rintro ⟨t, ht, hocc⟩ hw
    have hin := texts_handlerTemplate env b ps hok ht
    have hw2 : (!("*" == b.GetBodyFieldPath)) = false := by
      rw [hw]
      rfl
    rw [hw2] at hin
    exact handlerTexts_no_fromRequestBody.1 _ _ _ _ t hin hocc
  · intro hnw
    obtain ⟨pre, post, rfl, -⟩ := hshape hnw
    refine ⟨" else \x7b\n\t\t\tif fieldMask, err := runtime.FieldMaskFromRequestBody(newReader()); err != nil \x7b\n\t\t\t\treturn nil, metadata, status.Errorf(codes.InvalidArgument, \"%v\", err)\n\t\t\t\x7d else \x7b\n\t\t\t\tprotoReq.", ?_, by decide!⟩
    simp [texts_append, texts]

/-- C8 (amended) at the binding `PATCH /v1/items/{id}` with `body: "name"`: the call
of `runtime.FieldMaskFromRequestBody` is emitted. -/
theorem fromRequestBody_iff_not_wildcard_witness :
    sampleNamedBody.GetBodyFieldPath ≠ "*" ∧
    emitsText (handlerPieces sampleEnv sampleNamedBody) "runtime.FieldMaskFromRequestBody" :=
  ⟨by decide,
   (fromRequestBody_iff_not_wildcard sampleEnv sampleNamedBody
      (handlerPieces sampleEnv sampleNamedBody) rfl
      (handlerPieces_ok sampleEnv sampleNamedBody (by decide!)) rfl rfl (by decide!)).1.mpr
      (by decide)⟩

/-! ## C6 -/

/-- The text nodes of the handler templates by the server-streaming flag: with
the flag set none declares or returns a single message, without it none declares
or returns a stream handle. -/
theorem handlerTexts_return_contract :
    (∀ cs body mask notWildcard : Bool, ∀ t ∈ handlerTexts cs true body mask notWildcard,
      ¬ occursIn "(proto.Message, runtime.ServerMetadata, error)" t ∧
      ¬ occursIn "return msg, metadata, err" t) ∧
    (∀ cs body mask notWildcard : Bool, ∀ t ∈ handlerTexts cs false body mask notWildcard,
      ¬ occursIn "Client, runtime.ServerMetadata, error)" t ∧
      ¬ occursIn "return stream, metadata, nil" t) := by
  decide!

/-- The signature of the request function is part of every successful handler
execution, and so is the final invocation block of template
"client-rpc-request-func" when that template is selected. -/
theorem handlerTemplate_parts (env : Env) (b : binding) (ps : List Piece)
    (hok : handlerTemplate env b = .ok ps) :
    (b.Method.ClientStreaming = true ∧ b.Method.ServerStreaming = true →
      ps = [ Piece.text "\n", Piece.text "\n" ] ++ bidiStreamingRequestFunc env b ++
        [ Piece.text "\n", Piece.text "\n" ]) ∧
    (b.Method.ClientStreaming = true ∧ b.Method.ServerStreaming = false →
      ps = [ Piece.text "\n", Piece.text "\n" ] ++ clientStreamingRequestFunc env b ++
        [ Piece.text "\n", Piece.text "\n" ]) ∧
    (b.Method.ClientStreaming = false →
      ∃ rpc, clientRpcRequestFunc env b = .ok rpc ∧
        ps = [ Piece.text "\n", Piece.text "\n" ] ++ rpc ++
          [ Piece.text "\n", Piece.text "\n" ]) := by
  refine ⟨?_, ?_, ?_⟩
  · rintro ⟨hcs, hss⟩
    unfold handlerTemplate at hok
    simp only [hcs, hss, Bool.and_self, if_true] at hok
    cases hok
    rfl
  · rintro ⟨hcs, hss⟩
    unfold handlerTemplate at hok
    simp only [hcs, hss, Bool.and_false, Bool.false_eq_true, if_false, if_true] at hok
    cases hok
    rfl
  · intro hcs
    exact handlerTemplate_ok_rpc env b ps hcs hok

theorem emitsText_of_mem (ps : List Piece) (needle t : String) (ht : t ∈ texts ps)
    (hocc : occursIn needle t) : emitsText ps needle :=
  ⟨t, ht, hocc⟩

/-- C6: the handler template selects exactly one request-function body from the
two streaming flags (the bidi body when both are set, the client-streaming body
when only client streaming is set, the unary/server body otherwise); and the
emitted function declares the stream client as its first return type and
returns the stream exactly when the server-streaming flag is set, and declares
and returns a single `proto.Message` otherwise. -/
theorem handler_shape (env : Env) (b : binding) (ps : List Piece)
    (hok : handlerTemplate env b = .ok ps) :
    ((b.Method.ClientStreaming = true ∧ b.Method.ServerStreaming = true →
        ps = [ Piece.text "\n", Piece.text "\n" ] ++ bidiStreamingRequestFunc env b ++
          [ Piece.text "\n", Piece.text "\n" ]) ∧
     (b.Method.ClientStreaming = true ∧ b.Method.ServerStreaming = false →
        ps = [ Piece.text "\n", Piece.text "\n" ] ++ clientStreamingRequestFunc env b ++
          [ Piece.text "\n", Piece.text "\n" ]) ∧
     (b.Method.ClientStreaming = false →
        ∃ rpc, clientRpcRequestFunc env b = .ok rpc ∧
          ps = [ Piece.text "\n", Piece.text "\n" ] ++ rpc ++
            [ Piece.text "\n", Piece.text "\n" ])) ∧
    (if b.Method.ServerStreaming then
      emitsText ps "Client, runtime.ServerMetadata, error)" ∧
      emitsText ps "return stream, metadata, nil" ∧
      ¬ emitsText ps "(proto.Message, runtime.ServerMetadata, error)" ∧
      ¬ emitsText ps "return msg, metadata, err"
    else
      emitsText ps "(proto.Message, runtime.ServerMetadata, error)" ∧
      emitsText ps "return msg, metadata, err" ∧
      ¬ emitsText ps "Client, runtime.ServerMetadata, error)" ∧
      ¬ emitsText ps "return stream, metadata, nil") := by
  have hparts := handlerTemplate_parts env b ps hok
  have hprov := texts_handlerTemplate env b ps hok
  refine ⟨hparts, ?_⟩
  obtain ⟨hbidi, hcstream, hrpc⟩ := hparts
  cases hss : b.Method.ServerStreaming with
  | true =>
    simp only [if_true]
    rw [hss] at hprov
    refine ⟨?_, ?_, ?_, ?_⟩
    · apply emitsText_of_mem ps _ "Client, runtime.ServerMetadata, error)" _ (by decide!)
      cases hcs : b.Method.ClientStreaming with
      | true =>
        rw [hbidi ⟨hcs, hss⟩]
        simp [texts_append, texts, bidiStreamingRequestFunc, requestFuncSignature, hss]
      | false =>
        obtain ⟨rpc, hr, rfl⟩ := hrpc hcs
        obtain ⟨filterVar, pathParams, -, -, rfl⟩ := clientRpcRequestFunc_ok env b rpc hr
        simp [texts_append, texts, requestFuncSignature, hss]
    · cases hcs : b.Method.ClientStreaming with
      | true =>
        apply emitsText_of_mem ps _ "\n\t\terr := dec.Decode(&protoReq)\n\t\tif err == io.EOF \x7b\n\t\t\treturn err\n\t\t\x7d\n\t\tif err != nil \x7b\n\t\t\tgrpclog.Infof(\"Failed to decode request: %v\", err)\n\t\t\treturn err\n\t\t\x7d\n\t\tif err := stream.Send(&protoReq); err != nil \x7b\n\t\t\tgrpclog.Infof(\"Failed to send request: %v\", err)\n\t\t\treturn err\n\t\t\x7d\n\t\treturn nil\n\t\x7d\n\tif err := handleSend(); err != nil \x7b\n\t\tif cerr := stream.CloseSend(); cerr != nil \x7b\n\t\t\tgrpclog.Infof(\"Failed to terminate client stream: %v\", cerr)\n\t\t\x7d\n\t\tif err == io.EOF \x7b\n\t\t\treturn stream, metadata, nil\n\t\t\x7d\n\t\treturn nil, metadata, err\n\t\x7d\n\tgo func() \x7b\n\t\tfor \x7b\n\t\t\tif err := handleSend(); err != nil \x7b\n\t\t\t\tbreak\n\t\t\t\x7d\n\t\t\x7d\n\t\tif err := stream.CloseSend(); err != nil \x7b\n\t\t\tgrpclog.Infof(\"Failed to terminate client stream: %v\", err)\n\t\t\x7d\n\t\x7d()\n\theader, err := stream.Header()\n\tif err != nil \x7b\n\t\tgrpclog.Infof(\"Failed to get header from client: %v\", err)\n\t\treturn nil, metadata, err\n\t\x7d\n\tmetadata.HeaderMD = header\n\treturn stream, metadata, nil\n\x7d\n" _ (by decide!)
        rw [hbidi ⟨hcs, hss⟩]
        simp [texts_append, texts, bidiStreamingRequestFunc]
      | false =>
        apply emitsText_of_mem ps _ "(ctx, &protoReq)\n\tif err != nil \x7b\n\t\treturn nil, metadata, err\n\t\x7d\n\theader, err := stream.Header()\n\tif err != nil \x7b\n\t\treturn nil, metadata, err\n\t\x7d\n\tmetadata.HeaderMD = header\n\treturn stream, metadata, nil\n" _ (by decide!)
        obtain ⟨rpc, hr, rfl⟩ := hrpc hcs
        obtain ⟨filterVar, pathParams, -, -, rfl⟩ := clientRpcRequestFunc_ok env b rpc hr
        simp [texts_append, texts, clientRpcInvoke, hss]
    · rintro ⟨t, ht, hocc⟩
      exact (handlerTexts_return_contract.1 _ _ _ _ t (hprov ht)).1 hocc
    · rintro ⟨t, ht, hocc⟩
      exact (handlerTexts_return_contract.1 _ _ _ _ t (hprov ht)).2 hocc
  | false =>
    simp only [Bool.false_eq_true, if_false]
    rw [hss] at hprov
    refine ⟨?_, ?_, ?_, ?_⟩
    · apply emitsText_of_mem ps _ "Client, req *http.Request, pathParams map[string]string) (proto.Message, runtime.ServerMetadata, error)" _ (by decide!)
      cases hcs : b.Method.ClientStreaming with
      | true =>
        rw [hcstream ⟨hcs, hss⟩]
        simp [texts_append, texts, clientStreamingRequestFunc, requestFuncSignature, hss]
      | false =>
        obtain ⟨rpc, hr, rfl⟩ := hrpc hcs
        obtain ⟨filterVar, pathParams, -, -, rfl⟩ := clientRpcRequestFunc_ok env b rpc hr
        simp [texts_append, texts, requestFuncSignature, hss]
    · cases hcs : b.Method.ClientStreaming with
      | true =>
        apply emitsText_of_mem ps _ "\n\tmsg, err := stream.CloseAndRecv()\n\tmetadata.TrailerMD = stream.Trailer()\n\treturn msg, metadata, err\n" _ (by decide!)
        rw [hcstream ⟨hcs, hss⟩]
        simp [texts_append, texts, clientStreamingRequestFunc, hss]
      | false =>
        apply emitsText_of_mem ps _ "(ctx, &protoReq, grpc.Header(&metadata.HeaderMD), grpc.Trailer(&metadata.TrailerMD))\n\treturn msg, metadata, err\n" _ (by decide!)
        obtain ⟨rpc, hr, rfl⟩ := hrpc hcs
        obtain ⟨filterVar, pathParams, -, -, rfl⟩ := clientRpcRequestFunc_ok env b rpc hr
        simp [texts_append, texts, clientRpcInvoke, hss]
    · rintro ⟨t, ht, hocc⟩
      exact (handlerTexts_return_contract.2 _ _ _ _ t (hprov ht)).1 hocc
    · rintro ⟨t, ht, hocc⟩
      exact (handlerTexts_return_contract.2 _ _ _ _ t (hprov ht)).2 hocc

/-- C6 at the binding `PATCH /v1/items/{id}` with `body: "*"` of the unary method
`UpdateItem`: the unary/server body is selected, and the function declares and
returns a single message. -/
theorem handler_shape_witness :
    (∃ rpc, clientRpcRequestFunc sampleEnv sampleWildcard = .ok rpc ∧
      handlerPieces sampleEnv sampleWildcard =
        [ Piece.text "\n", Piece.text "\n" ] ++ rpc ++ [ Piece.text "\n", Piece.text "\n" ]) ∧
    emitsText (handlerPieces sampleEnv sampleWildcard) "return msg, metadata, err" :=
  ⟨(handler_shape sampleEnv sampleWildcard (handlerPieces sampleEnv sampleWildcard)
      (handlerPieces_ok sampleEnv sampleWildcard (by decide!))).1.2.2 rfl,
   (handler_shape sampleEnv sampleWildcard (handlerPieces sampleEnv sampleWildcard)
      (handlerPieces_ok sampleEnv sampleWildcard (by decide!))).2.2.1⟩

/-! ## C4 -/

theorem applyTemplate.messages_log (env : Env) (msgs : List Message) :
    ∀ (i : Nat) (run : Run),
      (applyTemplate.messages env i msgs run).2.err = run.err ∧
      (applyTemplate.messages env i msgs run).2.w = run.w ∧
      ∀ tp, Event.trailer tp ∈ (applyTemplate.messages env i msgs run).2.log →
        Event.trailer tp ∈ run.log := by
  induction msgs with
  | nil =>
    intro i run
    simp [applyTemplate.messages]
  | cons msg rest ih =>
    intro i run
    simp only [applyTemplate.messages]
    obtain ⟨h1, h2, h3⟩ := ih (i + 1) { run with log := run.log ++ [Event.renameMessage i] }
    refine ⟨h1, h2, ?_⟩
    intro tp htp
    have := h3 tp htp
    simpa using this

theorem applyTemplate.bindings_spec (env : Env) (p : param) (reg : Option Registry)
    (msgs : List Message) (svcName : String) (meth : Method) (bs : List Binding) :
    ∀ (run : Run) (seen : Bool),
      ((applyTemplate.bindings env p reg msgs svcName meth bs run seen).1.err = none →
        run.err = none ∧
        (applyTemplate.bindings env p reg msgs svcName meth bs run seen).2 =
          (seen || (bs.length != 0))) ∧
      (∀ tp, Event.trailer tp ∈
          (applyTemplate.bindings env p reg msgs svcName meth bs run seen).1.log →
        Event.trailer tp ∈ run.log) := by
  induction bs with
  | nil =>
    intro run seen
    simp [applyTemplate.bindings]
  | cons b rest ih =>
    intro run seen
    simp only [applyTemplate.bindings]
    split
    · simp
    · rename_i req hreq
      split
      · simp
      · rename_i ps hps
        obtain ⟨h1, h2⟩ := ih
          { w := run.w ++ render ps,
            log := run.log ++ [Event.handler (applyTemplate.arg p reg svcName meth req b)],
            err := run.err } true
        refine ⟨?_, ?_⟩
        · intro herr
          obtain ⟨ha, hb⟩ := h1 herr
          exact ⟨ha, by simpa using hb⟩
        · intro tp htp
          have := h2 tp htp
          simpa using this

theorem applyTemplate.methods_spec (env : Env) (p : param) (reg : Option Registry)
    (msgs : List Message) (svcName : String) (si : Nat) (ms : List Method) :
    ∀ (mi : Nat) (run : Run) (seen : Bool),
      ((applyTemplate.methods env p reg msgs svcName si mi ms run seen).2.1.err = none →
        run.err = none ∧
        (applyTemplate.methods env p reg msgs svcName si mi ms run seen).1 =
          ms.map (Method.renamed env) ∧
        (applyTemplate.methods env p reg msgs svcName si mi ms run seen).2.2 =
          (seen || ms.any (fun meth => meth.Bindings.length != 0))) ∧
      (∀ tp, Event.trailer tp ∈
          (applyTemplate.methods env p reg msgs svcName si mi ms run seen).2.1.log →
        Event.trailer tp ∈ run.log) := by
  induction ms with
  | nil =>
    intro mi run seen
    simp [applyTemplate.methods]
  | cons meth rest ih =>
    intro mi run seen
    simp only [applyTemplate.methods]
    obtain ⟨hb1, hb2⟩ := applyTemplate.bindings_spec env p reg msgs svcName
      { meth with Name := env.CamelCase meth.Name } meth.Bindings
      { run with log := run.log ++ [Event.renameMethod si mi] } seen
    generalize hres : applyTemplate.bindings env p reg msgs svcName
      { meth with Name := env.CamelCase meth.Name } meth.Bindings
      { run with log := run.log ++ [Event.renameMethod si mi] } seen = res at hb1 hb2
    obtain ⟨run1, seen1⟩ := res
    simp only at hb1 hb2 ⊢
    cases herr : run1.err with
    | some e =>
      simp only [herr]
      refine ⟨by simp, ?_⟩
      intro tp htp
      have := hb2 tp htp
      simpa using this
    | none =>
      simp only [herr]
      obtain ⟨h1, h2⟩ := ih (mi + 1) run1 seen1
      obtain ⟨hrun, hseen⟩ := hb1 herr
      refine ⟨?_, ?_⟩
      · intro hnone
        obtain ⟨-, hmap, hs⟩ := h1 hnone
        refine ⟨hrun, ?_, ?_⟩
        · simp only [List.map_cons, hmap]
          rfl
        · rw [hs, hseen]
          simp [Bool.or_assoc]
      · intro tp htp
        have := hb2 tp (h2 tp htp)
        simpa using this

theorem renamed_hasBoundMethod (env : Env) (svc : Service) :
    (Service.renamed env svc).hasBoundMethod = svc.hasBoundMethod := by
  unfold Service.hasBoundMethod Service.renamed
  simp only [List.any_map]
  rfl

theorem applyTemplate.services_spec (env : Env) (p : param) (reg : Option Registry)
    (msgs : List Message) (svcs : List Service) :
    ∀ (si : Nat) (run : Run) (targets : List Service),
      ((applyTemplate.services env p reg msgs si svcs run targets).2.1.err = none →
        run.err = none ∧
        (applyTemplate.services env p reg msgs si svcs run targets).1 =
          svcs.map (Service.renamed env) ∧
        (applyTemplate.services env p reg msgs si svcs run targets).2.2 =
          targets ++ (svcs.filter Service.hasBoundMethod).map (Service.renamed env)) ∧
      (∀ tp, Event.trailer tp ∈
          (applyTemplate.services env p reg msgs si svcs run targets).2.1.log →
        Event.trailer tp ∈ run.log) := by
  induction svcs with
  | nil =>
    intro si run targets
    simp [applyTemplate.services]
  | cons svc rest ih =>
    intro si run targets
    simp only [applyTemplate.services]
    obtain ⟨hm1, hm2⟩ := applyTemplate.methods_spec env p reg msgs (env.CamelCase svc.Name) si
      svc.Methods 0 { run with log := run.log ++ [Event.renameService si] } false
    generalize hres : applyTemplate.methods env p reg msgs (env.CamelCase svc.Name) si 0
      svc.Methods { run with log := run.log ++ [Event.renameService si] } false = res
      at hm1 hm2
    obtain ⟨meths, run1, seen1⟩ := res
    simp only at hm1 hm2 ⊢
    cases herr : run1.err with
    | some e =>
      simp only [herr]
      refine ⟨by simp, ?_⟩
      intro tp htp
      have := hm2 tp htp
      simpa using this
    | none =>
      simp only [herr]
      obtain ⟨hrun, hmeths, hseen⟩ := hm1 herr
      obtain ⟨h1, h2⟩ := ih (si + 1) run1
        (if seen1 = true then
          targets ++ [{ Name := env.CamelCase svc.Name, Methods := meths }]
        else targets)
      refine ⟨?_, ?_⟩
      · intro hnone
        obtain ⟨-, hmap, ht⟩ := h1 hnone
        have hsvc : ({ Name := env.CamelCase svc.Name, Methods := meths } : Service) =
            Service.renamed env svc := by
          rw [hmeths]
          rfl
        have hbound : seen1 = svc.hasBoundMethod := by
          rw [hseen]
          simp [Service.hasBoundMethod]
        simp only [hsvc] at hmap ht ⊢
        refine ⟨hrun, ?_, ?_⟩
        · simp only [List.map_cons, hmap]
        · rw [ht, hbound]
          cases hb : svc.hasBoundMethod with
          | true => simp [List.filter_cons, hb]
          | false => simp [List.filter_cons, hb]
      · intro tp htp
        have := hm2 tp (h2 tp htp)
        simpa using this

theorem applyTemplate.methods_unbound (env : Env) (p : param) (reg : Option Registry)
    (msgs : List Message) (svcName : String) (si : Nat) (ms : List Method)
    (hms : ∀ meth ∈ ms, meth.Bindings = []) :
    ∀ (mi : Nat) (run : Run) (seen : Bool), run.err = none →
      (applyTemplate.methods env p reg msgs svcName si mi ms run seen).2.1.err = none := by
  induction ms with
  | nil =>
    intro mi run seen h
    simpa [applyTemplate.methods] using h
  | cons meth rest ih =>
    intro mi run seen h
    have hb : meth.Bindings = [] := hms meth (List.mem_cons_self _ _)
    simp only [applyTemplate.methods, hb, applyTemplate.bindings, h]
    exact ih (fun m hm => hms m (List.mem_cons_of_mem _ hm)) (mi + 1) _ seen rfl

theorem applyTemplate.services_unbound (env : Env) (p : param) (reg : Option Registry)
    (msgs : List Message) (svcs : List Service)
    (hsvcs : ∀ svc ∈ svcs, svc.hasBoundMethod = false) :
    ∀ (si : Nat) (run : Run) (targets : List Service), run.err = none →
      (applyTemplate.services env p reg msgs si svcs run targets).2.1.err = none := by
  induction svcs with
  | nil =>
    intro si run targets h
    simpa [applyTemplate.services] using h
  | cons svc rest ih =>
    intro si run targets h
    have hsvc := hsvcs svc (List.mem_cons_self _ _)
    have hms : ∀ meth ∈ svc.Methods, meth.Bindings = [] := by
      intro meth hmeth
      unfold Service.hasBoundMethod at hsvc
      have := (List.any_eq_false.mp hsvc) meth hmeth
      simpa using this
    have hm := applyTemplate.methods_unbound env p reg msgs (env.CamelCase svc.Name) si
      svc.Methods hms 0 { run with log := run.log ++ [Event.renameService si] } false h
    simp only [applyTemplate.services]
    generalize applyTemplate.methods env p reg msgs (env.CamelCase svc.Name) si 0
      svc.Methods { run with log := run.log ++ [Event.renameService si] } false = res at hm
    obtain ⟨meths, run1, seen1⟩ := res
    simp only at hm ⊢
    simp only [hm]
    exact ih (fun s hs => hsvcs s (List.mem_cons_of_mem _ hs)) (si + 1) run1 _ hm

theorem handlerPieces_of_ok (env : Env) (b : binding) (ps : List Piece)
    (h : handlerTemplate env b = .ok ps) : handlerPieces env b = ps := by
  unfold handlerPieces
  rw [h]

theorem applyTemplate.messages_full (env : Env) (msgs : List Message) :
    ∀ (i : Nat) (run : Run),
      applyTemplate.messages env i msgs run =
        (msgs.map (Message.renamed env),
          { run with
            log := run.log ++ (List.range' i msgs.length).map Event.renameMessage }) := by
  induction msgs with
  | nil =>
    intro i run
    simp [applyTemplate.messages]
  | cons msg rest ih =>
    intro i run
    simp only [applyTemplate.messages]
    rw [ih (i + 1) { run with log := run.log ++ [Event.renameMessage i] }]
    simp [List.range'_succ, Message.renamed]

/-- The loop over the bindings of a method, on bindings `bs` of `meth`: when it
leaves no error, it has logged the handler of each binding with its argument and
appended the text of each handler to the buffer, in order. -/
theorem applyTemplate.bindings_full (env : Env) (p : param) (reg : Option Registry)
    (msgs : List Message) (svcName : String) (meth : Method) (bs : List Binding) :
    ∀ (run : Run) (seen : Bool),
      (applyTemplate.bindings env p reg msgs svcName meth bs run seen).1.err = none →
      (applyTemplate.bindings env p reg msgs svcName meth bs run seen).1.log =
        run.log ++ (bs.filterMap (fun b => (meth.RequestType.deref msgs).map
          (fun req => applyTemplate.arg p reg svcName meth req b))).map Event.handler ∧
      (applyTemplate.bindings env p reg msgs svcName meth bs run seen).1.w =
        (bs.filterMap (fun b => (meth.RequestType.deref msgs).map
          (fun req => applyTemplate.arg p reg svcName meth req b))).foldl
          (fun w arg => w ++ render (handlerPieces env arg)) run.w := by
  induction bs with
  | nil =>
    intro run seen _
    simp [applyTemplate.bindings]
  | cons b rest ih =>
    intro run seen
    simp only [applyTemplate.bindings]
    split
    · simp
    · rename_i req hreq
      split
      · simp
      · rename_i ps hps
        intro herr
        obtain ⟨h1, h2⟩ := ih _ true herr
        rw [h1, h2]
        simp [List.filterMap_cons, hreq, handlerPieces_of_ok env _ ps hps]

theorem applyTemplate.bindings_succeed (env : Env) (p : param) (reg : Option Registry)
    (msgs : List Message) (svcName : String) (meth : Method) (bs : List Binding) :
    ∀ (run : Run) (seen : Bool), run.err = none →
      (bs.all (fun b =>
        match meth.RequestType.deref msgs with
        | some req => (handlerTemplate env (applyTemplate.arg p reg svcName meth req b)).toBool
        | none => false)) = true →
      (applyTemplate.bindings env p reg msgs svcName meth bs run seen).1.err = none := by
  induction bs with
  | nil =>
    intro run seen h _
    simpa [applyTemplate.bindings] using h
  | cons b rest ih =>
    intro run seen h hall
    rw [List.all_cons, Bool.and_eq_true] at hall
    obtain ⟨hb, hrest⟩ := hall
    simp only [applyTemplate.bindings]
    split
    · rename_i hreq
      rw [hreq] at hb
      cases hb
    · rename_i req hreq
      rw [hreq] at hb
      simp only at hb
      split
      · rename_i e he
        rw [he] at hb
        cases hb
      · exact ih _ true h hrest

theorem applyTemplate.methods_full (env : Env) (p : param) (reg : Option Registry)
    (msgs : List Message) (svcName : String) (si : Nat) (ms : List Method) :
    ∀ (mi : Nat) (run : Run) (seen : Bool),
      (applyTemplate.methods env p reg msgs svcName si mi ms run seen).2.1.err = none →
      (applyTemplate.methods env p reg msgs svcName si mi ms run seen).2.1.log =
        run.log ++ (ms.enumFrom mi).flatMap (fun jm =>
          Event.renameMethod si jm.1 ::
            (applyTemplate.argsOf p reg msgs svcName (Method.renamed env jm.2)).map
              Event.handler) ∧
      (applyTemplate.methods env p reg msgs svcName si mi ms run seen).2.1.w =
        (ms.flatMap (fun meth =>
          applyTemplate.argsOf p reg msgs svcName (Method.renamed env meth))).foldl
          (fun w arg => w ++ render (handlerPieces env arg)) run.w := by
  induction ms with
  | nil =>
    intro mi run seen _
    simp [applyTemplate.methods]
  | cons meth rest ih =>
    intro mi run seen
    simp only [applyTemplate.methods]
    have hb := applyTemplate.bindings_full env p reg msgs svcName
      { meth with Name := env.CamelCase meth.Name } meth.Bindings
      { run with log := run.log ++ [Event.renameMethod si mi] } seen
    generalize applyTemplate.bindings env p reg msgs svcName
      { meth with Name := env.CamelCase meth.Name } meth.Bindings
      { run with log := run.log ++ [Event.renameMethod si mi] } seen = res at hb
    obtain ⟨run1, seen1⟩ := res
    simp only at hb ⊢
    cases herr : run1.err with
    | some e =>
      simp only [herr]
      intro h
      cases h
    | none =>
      simp only [herr]
      intro hnone
      obtain ⟨h1, h2⟩ := ih (mi + 1) run1 seen1 hnone
      obtain ⟨hb1, hb2⟩ := hb herr
      rw [h1, h2, hb1, hb2]
      constructor
      · simp [List.enumFrom_cons, applyTemplate.argsOf, Method.renamed]
      · simp [List.flatMap_cons, List.foldl_append, applyTemplate.argsOf, Method.renamed]

theorem applyTemplate.methods_succeed (env : Env) (p : param) (reg : Option Registry)
    (msgs : List Message) (svcName : String) (si : Nat) (ms : List Method) :
    ∀ (mi : Nat) (run : Run) (seen : Bool), run.err = none →
      (ms.all (fun meth =>
        applyTemplate.argsSucceed env p reg msgs svcName (Method.renamed env meth))) = true →
      (applyTemplate.methods env p reg msgs svcName si mi ms run seen).2.1.err = none := by
  induction ms with
  | nil =>
    intro mi run seen h _
    simpa [applyTemplate.methods] using h
  | cons meth rest ih =>
    intro mi run seen h hall
    rw [List.all_cons, Bool.and_eq_true] at hall
    obtain ⟨hm, hrest⟩ := hall
    simp only [applyTemplate.methods]
    have hb := applyTemplate.bindings_succeed env p reg msgs svcName
      { meth with Name := env.CamelCase meth.Name } meth.Bindings
      { run with log := run.log ++ [Event.renameMethod si mi] } seen h hm
    generalize applyTemplate.bindings env p reg msgs svcName
      { meth with Name := env.CamelCase meth.Name } meth.Bindings
      { run with log := run.log ++ [Event.renameMethod si mi] } seen = res at hb
    obtain ⟨run1, seen1⟩ := res
    simp only at hb ⊢
    simp only [hb]
    exact ih (mi + 1) run1 seen1 hb hrest

theorem applyTemplate.services_full (env : Env) (p : param) (reg : Option Registry)
    (msgs : List Message) (svcs : List Service) :
    ∀ (si : Nat) (run : Run) (targets : List Service),
      (applyTemplate.services env p reg msgs si svcs run targets).2.1.err = none →
      (applyTemplate.services env p reg msgs si svcs run targets).2.1.log =
        run.log ++ (svcs.enumFrom si).flatMap (fun isvc =>
          Event.renameService isvc.1 ::
            isvc.2.Methods.enum.flatMap (fun jm =>
              Event.renameMethod isvc.1 jm.1 ::
                (applyTemplate.argsOf p reg msgs (env.CamelCase isvc.2.Name)
                  (Method.renamed env jm.2)).map Event.handler)) ∧
      (applyTemplate.services env p reg msgs si svcs run targets).2.1.w =
        (svcs.flatMap (fun svc => svc.Methods.flatMap (fun meth =>
          applyTemplate.argsOf p reg msgs (env.CamelCase svc.Name)
            (Method.renamed env meth)))).foldl
          (fun w arg => w ++ render (handlerPieces env arg)) run.w := by
  induction svcs with
  | nil =>
    intro si run targets _
    simp [applyTemplate.services]
  | cons svc rest ih =>
    intro si run targets
    simp only [applyTemplate.services]
    have hm := applyTemplate.methods_full env p reg msgs (env.CamelCase svc.Name) si
      svc.Methods 0 { run with log := run.log ++ [Event.renameService si] } false
    generalize applyTemplate.methods env p reg msgs (env.CamelCase svc.Name) si 0
      svc.Methods { run with log := run.log ++ [Event.renameService si] } false = res at hm
    obtain ⟨meths, run1, seen1⟩ := res
    simp only at hm ⊢
    cases herr : run1.err with
    | some e =>
      simp only [herr]
      intro h
      cases h
    | none =>
      simp only [herr]
      intro hnone
      obtain ⟨h1, h2⟩ := ih (si + 1) run1 _ hnone
      obtain ⟨hm1, hm2⟩ := hm herr
      rw [h1, h2, hm1, hm2]
      constructor
      · simp [List.enumFrom_cons, List.enum]
      · simp [List.flatMap_cons, List.foldl_append]

theorem applyTemplate.services_succeed (env : Env) (p : param) (reg : Option Registry)
    (msgs : List Message) (svcs : List Service) :
    ∀ (si : Nat) (run : Run) (targets : List Service), run.err = none →
      (svcs.all (fun svc => svc.Methods.all (fun meth =>
        applyTemplate.argsSucceed env p reg msgs (env.CamelCase svc.Name)
          (Method.renamed env meth)))) = true →
      (applyTemplate.services env p reg msgs si svcs run targets).2.1.err = none := by
  induction svcs with
  | nil =>
    intro si run targets h _
    simpa [applyTemplate.services] using h
  | cons svc rest ih =>
    intro si run targets h hall
    rw [List.all_cons, Bool.and_eq_true] at hall
    obtain ⟨hs, hrest⟩ := hall
    simp only [applyTemplate.services]
    have hm := applyTemplate.methods_succeed env p reg msgs (env.CamelCase svc.Name) si
      svc.Methods 0 { run with log := run.log ++ [Event.renameService si] } false h hs
    generalize applyTemplate.methods env p reg msgs (env.CamelCase svc.Name) si 0
      svc.Methods { run with log := run.log ++ [Event.renameService si] } false = res at hm
    obtain ⟨meths, run1, seen1⟩ := res
    simp only at hm ⊢
    simp only [hm]
    exact ih (si + 1) run1 _ hm hrest

/-- In every run of `applyTemplate`, the services handed to the trailer
template are the services of the file that have at least one method with at
least one binding, in the order of the file, each whole (all its methods, names
rewritten in place): they are the bound services among the services the run
leaves in the file. A run that returns no error has executed the trailer
template. When no service of the file has a bound method, `applyTemplate` returns
the empty string and the error `errNoTargetService`. -/
theorem applyTemplate_targets (env : Env) (p : param) (reg : Option Registry) :
    (∀ tp, Event.trailer tp ∈ (applyTemplate env p reg).log →
      tp.Services =
        (p.File.Services.filter Service.hasBoundMethod).map (Service.renamed env) ∧
      (applyTemplate env p reg).file.Services = p.File.Services.map (Service.renamed env) ∧
      tp.Services = (applyTemplate env p reg).file.Services.filter Service.hasBoundMethod) ∧
    ((applyTemplate env p reg).err = none →
      ∃ tp, Event.trailer tp ∈ (applyTemplate env p reg).log) ∧
    ((∀ svc ∈ p.File.Services, svc.hasBoundMethod = false) →
      (applyTemplate env p reg).out = "" ∧
      (applyTemplate env p reg).err = some Error.errNoTargetService) := by
  unfold applyTemplate
  simp only
  set P : param :=
    { p with AdditionImports := applyTemplate.additionImports env p.File.Services [] } with hP
  set R0 : Run :=
    { w := "" ++ render (headerTemplate env P), log := [Event.header P], err := none } with hR0
  have hmsg := applyTemplate.messages_log env p.File.Messages 0 R0
  generalize applyTemplate.messages env 0 p.File.Messages R0 = M at hmsg ⊢
  obtain ⟨msgs, run1⟩ := M
  simp only at hmsg ⊢
  obtain ⟨hm1, -, hm3⟩ := hmsg
  have hsvc := applyTemplate.services_spec env P reg msgs p.File.Services 0 run1 []
  have hunb := fun h => applyTemplate.services_unbound env P reg msgs p.File.Services h 0 run1 []
    hm1
  generalize applyTemplate.services env P reg msgs 0 p.File.Services run1 [] = S at hsvc hunb ⊢
  obtain ⟨svcs, run2, targets⟩ := S
  simp only at hsvc hunb ⊢
  obtain ⟨hs1, hs2⟩ := hsvc
  have hnotr : ∀ tp, Event.trailer tp ∉ run2.log := by
    intro tp htp
    have := hm3 tp (hs2 tp htp)
    simp [hR0] at this
  have hfilter : ∀ l : List Service,
      (l.map (Service.renamed env)).filter Service.hasBoundMethod =
        (l.filter Service.hasBoundMethod).map (Service.renamed env) := by
    intro l
    induction l with
    | nil => rfl
    | cons s l ih =>
      simp only [List.map_cons, List.filter_cons, renamed_hasBoundMethod, ih]
      cases s.hasBoundMethod <;> simp
  cases herr : run2.err with
  | some e =>
    simp only
    refine ⟨fun tp htp => absurd htp (hnotr tp), (fun h => nomatch h), ?_⟩
    intro hall
    rw [hunb hall] at herr
    cases herr
  | none =>
    obtain ⟨-, hsvcs, htargets⟩ := hs1 herr
    simp only [List.nil_append] at htargets
    simp only
    cases hlen : (targets.length == 0) with
    | true =>
      simp only [if_true]
      exact ⟨fun tp htp => absurd htp (hnotr tp), (fun h => nomatch h), fun _ => ⟨trivial, trivial⟩⟩
    | false =>
      simp only [Bool.false_eq_true, if_false]
      have hne : targets ≠ [] := by
        intro h
        rw [h] at hlen
        simp at hlen
      have hthird : (∀ svc ∈ p.File.Services, svc.hasBoundMethod = false) → False := by
        intro hall
        apply hne
        rw [htargets]
        have : p.File.Services.filter Service.hasBoundMethod = [] := by
          rw [List.filter_eq_nil_iff]
          intro s hs
          simp [hall s hs]
        rw [this]
        rfl
      split
      · simp only
        refine ⟨?_, (fun h => nomatch h), fun hall => (hthird hall).elim⟩
        intro tp htp
        rcases List.mem_append.mp htp with h | h
        · exact absurd h (hnotr tp)
        · simp only [List.mem_singleton, Event.trailer.injEq] at h
          subst h
          simp only
          exact ⟨htargets, hsvcs, by rw [hsvcs, hfilter, htargets]⟩
      · simp only
        refine ⟨?_, fun _ => ⟨_, List.mem_append_right _ (List.mem_singleton_self _)⟩,
          fun hall => (hthird hall).elim⟩
        intro tp htp
        rcases List.mem_append.mp htp with h | h
        · exact absurd h (hnotr tp)
        · simp only [List.mem_singleton, Event.trailer.injEq] at h
          subst h
          simp only
          exact ⟨htargets, hsvcs, by rw [hsvcs, hfilter, htargets]⟩

/-- Renaming the services does not change which of them have a bound method. -/
theorem filter_renamed (env : Env) (l : List Service) :
    (l.map (Service.renamed env)).filter Service.hasBoundMethod =
      (l.filter Service.hasBoundMethod).map (Service.renamed env) := by
  induction l with
  | nil => rfl
  | cons s l ih =>
    simp only [List.map_cons, List.filter_cons, renamed_hasBoundMethod, ih]
    cases s.hasBoundMethod <;> simp

/-- The events the loops of `applyTemplate` log on the file are `fileLog`. -/
theorem fileLog_eq (env : Env) (p : param) (reg : Option Registry) :
    [Event.header (headerArg env p)] ++
      (List.range' 0 p.File.Messages.length).map Event.renameMessage ++
      (p.File.Services.enumFrom 0).flatMap (fun isvc =>
        Event.renameService isvc.1 ::
          isvc.2.Methods.enum.flatMap (fun jm =>
            Event.renameMethod isvc.1 jm.1 ::
              (applyTemplate.argsOf (headerArg env p) reg
                (p.File.Messages.map (Message.renamed env)) (env.CamelCase isvc.2.Name)
                (Method.renamed env jm.2)).map Event.handler)) =
    fileLog env p reg := by
  unfold fileLog serviceLog methodLog
  rw [List.range_eq_range']
  rfl

/-- The text the loops of `applyTemplate` write on the file is `bodyText`. -/
theorem bodyText_eq (env : Env) (p : param) (reg : Option Registry) :
    (p.File.Services.flatMap (fun svc => svc.Methods.flatMap (fun meth =>
      applyTemplate.argsOf (headerArg env p) reg (p.File.Messages.map (Message.renamed env))
        (env.CamelCase svc.Name) (Method.renamed env meth)))).foldl
      (fun w arg => w ++ render (handlerPieces env arg))
      ("" ++ render (headerTemplate env (headerArg env p))) =
    bodyText env p reg := by
  unfold bodyText allHandlerArgs
  rw [String.empty_append]
  rfl

/-- The handler executions of the loops of `applyTemplate` on the file succeed
exactly when `handlersSucceed` holds. -/
theorem handlersSucceed_eq (env : Env) (p : param) (reg : Option Registry) :
    (p.File.Services.all (fun svc => svc.Methods.all (fun meth =>
      applyTemplate.argsSucceed env (headerArg env p) reg
        (p.File.Messages.map (Message.renamed env)) (env.CamelCase svc.Name)
        (Method.renamed env meth)))) = handlersSucceed env p reg := rfl

/-- The argument `applyTemplate` builds for the trailer template, from the target
services it has collected. -/
theorem expectedTrailerParams_eq (env : Env) (p : param) (reg : Option Registry)
    (l : List Service)
    (hl : l = (p.File.Services.filter Service.hasBoundMethod).map (Service.renamed env)) :
    ({ Services := l,
       UseRequestContext := p.UseRequestContext,
       RegisterFuncSuffix := p.RegisterFuncSuffix,
       AssumeColonVerb :=
         match reg with
         | some reg => !reg.AllowColonFinalSegments
         | none => true } : trailerParams) = expectedTrailerParams env p reg := by
  rw [hl]
  rfl

/-- A run of `applyTemplate`, characterised: the messages of the file are renamed
whatever happens; a run without error leaves every service renamed, has logged
exactly the events of the file with their arguments followed by the trailer
execution on the expected argument, and returns the header text, the handler
texts and the trailer text; and when every handler execution succeeds and a
service has a bound method, the trailer template is executed on the expected
argument and its outcome decides the outcome of the run. -/
theorem applyTemplate_run (env : Env) (p : param) (reg : Option Registry) :
    (applyTemplate env p reg).file.Messages = p.File.Messages.map (Message.renamed env) ∧
    ((applyTemplate env p reg).err = none →
      (applyTemplate env p reg).file.Services = p.File.Services.map (Service.renamed env) ∧
      (applyTemplate env p reg).log =
        fileLog env p reg ++ [Event.trailer (expectedTrailerParams env p reg)] ∧
      ∃ text, env.trailerTemplate (expectedTrailerParams env p reg) = .ok text ∧
        (applyTemplate env p reg).out = bodyText env p reg ++ text) ∧
    (handlersSucceed env p reg = true →
      (∃ svc ∈ p.File.Services, svc.hasBoundMethod = true) →
      (applyTemplate env p reg).log =
        fileLog env p reg ++ [Event.trailer (expectedTrailerParams env p reg)] ∧
      (∀ text, env.trailerTemplate (expectedTrailerParams env p reg) = .ok text →
        (applyTemplate env p reg).err = none ∧
        (applyTemplate env p reg).out = bodyText env p reg ++ text) ∧
      (∀ e, env.trailerTemplate (expectedTrailerParams env p reg) = .error e →
        (applyTemplate env p reg).err = some (Error.exec e) ∧
        (applyTemplate env p reg).out = "")) := by
  have hlogeq := fileLog_eq env p reg
  have hweq := bodyText_eq env p reg
  have hsucceq := handlersSucceed_eq env p reg
  have hP : ({ p with AdditionImports := applyTemplate.additionImports env p.File.Services [] } :
      param) = headerArg env p := rfl
  unfold applyTemplate
  simp only
  rw [applyTemplate.messages_full]
  simp only
  rw [hP]
  have hspec := applyTemplate.services_spec env (headerArg env p) reg
    (p.File.Messages.map (Message.renamed env)) p.File.Services 0
    { w := "" ++ render (headerTemplate env (headerArg env p)),
      log := [Event.header (headerArg env p)] ++
        (List.range' 0 p.File.Messages.length).map Event.renameMessage,
      err := none } []
  have hfull := applyTemplate.services_full env (headerArg env p) reg
    (p.File.Messages.map (Message.renamed env)) p.File.Services 0
    { w := "" ++ render (headerTemplate env (headerArg env p)),
      log := [Event.header (headerArg env p)] ++
        (List.range' 0 p.File.Messages.length).map Event.renameMessage,
      err := none } []
  have hsucc := applyTemplate.services_succeed env (headerArg env p) reg
    (p.File.Messages.map (Message.renamed env)) p.File.Services 0
    { w := "" ++ render (headerTemplate env (headerArg env p)),
      log := [Event.header (headerArg env p)] ++
        (List.range' 0 p.File.Messages.length).map Event.renameMessage,
      err := none } [] rfl
  rw [hlogeq, hweq] at hfull
  rw [hsucceq] at hsucc
  generalize applyTemplate.services env (headerArg env p) reg
    (p.File.Messages.map (Message.renamed env)) 0 p.File.Services
    { w := "" ++ render (headerTemplate env (headerArg env p)),
      log := [Event.header (headerArg env p)] ++
        (List.range' 0 p.File.Messages.length).map Event.renameMessage,
      err := none } [] = S at hspec hfull hsucc ⊢
  obtain ⟨svcs, run2, targets⟩ := S
  simp only at hspec hfull hsucc ⊢
  obtain ⟨hs1, -⟩ := hspec
  cases herr : run2.err with
  | some e =>
    simp only
    refine ⟨trivial, (fun h => nomatch h), ?_⟩
    intro hall _
    rw [hsucc hall] at herr
    cases herr
  | none =>
    obtain ⟨-, hsvcs, htargets⟩ := hs1 herr
    obtain ⟨hlog, hw⟩ := hfull herr
    simp only [List.nil_append] at htargets
    simp only
    cases hlen : (targets.length == 0) with
    | true =>
      simp only [if_true]
      refine ⟨trivial, (fun h => nomatch h), ?_⟩
      rintro - ⟨svc, hsvc, hbound⟩
      exfalso
      have hmem : Service.renamed env svc ∈ targets := by
        rw [htargets]
        exact List.mem_map_of_mem _ (List.mem_filter.mpr ⟨hsvc, hbound⟩)
      cases targets with
      | nil => cases hmem
      | cons a l => simp at hlen
    | false =>
      simp only [Bool.false_eq_true, if_false]
      erw [expectedTrailerParams_eq env p reg targets htargets]
      rw [hlog, hw]
      cases htr : env.trailerTemplate (expectedTrailerParams env p reg) with
      | error e =>
        simp only
        refine ⟨trivial, (fun h => nomatch h), fun _ _ => ⟨trivial, ?_, ?_⟩⟩
        · intro text h
          cases h
        · intro e2 h
          cases h
          exact ⟨rfl, trivial⟩
      | ok text =>
        simp only
        refine ⟨trivial, fun _ => ⟨hsvcs, trivial, text, rfl, rfl⟩,
          fun _ _ => ⟨trivial, ?_, ?_⟩⟩
        · intro text2 h
          cases h
          exact ⟨trivial, rfl⟩
        · intro e2 h
          cases h

/-- An element of an enumerated list is an element of the list. -/
theorem snd_mem_of_mem_enumFrom {α : Type} (l : List α) :
    ∀ (n : Nat) (x : Nat × α), x ∈ l.enumFrom n → x.2 ∈ l := by
  induction l with
  | nil =>
    intro n x h
    cases h
  | cons a l ih =>
    intro n x h
    rw [List.enumFrom_cons] at h
    rcases List.mem_cons.mp h with heq | hrest
    · subst heq
      exact List.mem_cons_self _ _
    · exact List.mem_cons_of_mem _ (ih (n + 1) x hrest)

/-- Every handler execution the events of the file list is the handler of a
binding of a method of a service of the file, on the expected argument: the
names of the method and of its service in CamelCase, the request type looked up
among the renamed messages. -/
theorem fileLog_handler (env : Env) (p : param) (reg : Option Registry) (b : binding)
    (h : Event.handler b ∈ fileLog env p reg) :
    ∃ svc ∈ p.File.Services, ∃ meth ∈ svc.Methods, ∃ bd ∈ meth.Bindings, ∃ req,
      meth.RequestType.deref (p.File.Messages.map (Message.renamed env)) = some req ∧
      b = expectedArg env p reg svc meth req bd := by
  unfold fileLog at h
  rcases List.mem_append.mp h with h1 | h3
  · rcases List.mem_append.mp h1 with h1 | h2
    · simp at h1
    · simp at h2
  · obtain ⟨isvc, hisvc, hs⟩ := List.mem_flatMap.mp h3
    have hsvc : isvc.2 ∈ p.File.Services := snd_mem_of_mem_enumFrom _ 0 isvc hisvc
    unfold serviceLog at hs
    rcases List.mem_cons.mp hs with hs | hs
    · cases hs
    · obtain ⟨jm, hjm, hm⟩ := List.mem_flatMap.mp hs
      have hmeth : jm.2 ∈ isvc.2.Methods := snd_mem_of_mem_enumFrom _ 0 jm hjm
      unfold methodLog at hm
      rcases List.mem_cons.mp hm with hm | hm
      · cases hm
      · obtain ⟨arg, harg, heq⟩ := List.mem_map.mp hm
        cases heq
        unfold handlerArgs at harg
        obtain ⟨bd, hbd, hsome⟩ := List.mem_filterMap.mp harg
        cases hreq : jm.2.RequestType.deref (p.File.Messages.map (Message.renamed env)) with
        | none =>
          rw [hreq] at hsome
          cases hsome
        | some req =>
          rw [hreq] at hsome
          simp only [Option.map_some', Option.some.injEq] at hsome
          exact ⟨isvc.2, hsvc, jm.2, hmeth, bd, hbd, req, hreq, hsome.symm⟩

/-- C4: take any file given to `applyTemplate`. When every handler execution
succeeds and some service has a method with a binding, the run executes the
trailer template exactly on `expectedTrailerParams`, whose services are the
services of the file that have at least one method with at least one binding,
in the order of the file, each whole (all its methods, names rewritten); when
that execution succeeds the run returns no error and the header text, the
handler texts and the trailer text, and when it fails the run returns its error
and the empty string. Conversely a run that returns no error has executed the
trailer template on that argument and returns that text. In every run the
services of a trailer execution are those bound services, which are the bound
services among the services the run leaves in the file. When no service of the
file has a bound method, `applyTemplate` returns the empty string and the error
`errNoTargetService`. -/
theorem applyTemplate_target_services (env : Env) (p : param) (reg : Option Registry) :
    (handlersSucceed env p reg = true →
      (∃ svc ∈ p.File.Services, svc.hasBoundMethod = true) →
      (applyTemplate env p reg).log =
        fileLog env p reg ++ [Event.trailer (expectedTrailerParams env p reg)] ∧
      (∀ text, env.trailerTemplate (expectedTrailerParams env p reg) = .ok text →
        (applyTemplate env p reg).err = none ∧
        (applyTemplate env p reg).out = bodyText env p reg ++ text) ∧
      (∀ e, env.trailerTemplate (expectedTrailerParams env p reg) = .error e →
        (applyTemplate env p reg).err = some (Error.exec e) ∧
        (applyTemplate env p reg).out = "")) ∧
    ((applyTemplate env p reg).err = none →
      Event.trailer (expectedTrailerParams env p reg) ∈ (applyTemplate env p reg).log ∧
      ∃ text, env.trailerTemplate (expectedTrailerParams env p reg) = .ok text ∧
        (applyTemplate env p reg).out = bodyText env p reg ++ text) ∧
    (expectedTrailerParams env p reg).Services =
      (p.File.Services.filter Service.hasBoundMethod).map
        (fun svc =>
          { Name := env.CamelCase svc.Name,
            Methods := svc.Methods.map (fun meth =>
              { meth with Name := env.CamelCase meth.Name }) }) ∧
    (∀ tp, Event.trailer tp ∈ (applyTemplate env p reg).log →
      tp.Services =
        (p.File.Services.filter Service.hasBoundMethod).map (Service.renamed env) ∧
      (applyTemplate env p reg).file.Services = p.File.Services.map (Service.renamed env) ∧
      tp.Services = (applyTemplate env p reg).file.Services.filter Service.hasBoundMethod) ∧
    ((∀ svc ∈ p.File.Services, svc.hasBoundMethod = false) →
      (applyTemplate env p reg).out = "" ∧
      (applyTemplate env p reg).err = some Error.errNoTargetService) := by
  have hrun := applyTemplate_run env p reg
  have hold := applyTemplate_targets env p reg
  refine ⟨hrun.2.2, ?_, rfl, hold.1, hold.2.2⟩
  intro herr
  obtain ⟨-, hlog, htext⟩ := hrun.2.1 herr
  refine ⟨?_, htext⟩
  rw [hlog]
  exact List.mem_append_right _ (List.mem_singleton_self _)

/-- C4 at a file whose services have no bound method: `applyTemplate` returns the
empty string and `errNoTargetService`; and at a file with the services `admin`
(no method), `items` (one bound and one unbound method) and `audit` (one unbound
method): every handler execution succeeds, the trailer template receives the
service `Items` alone, with both its methods, and the run returns the header
and handler text followed by the trailer text for `Items`. -/
theorem applyTemplate_target_services_witness :
    ((∀ svc ∈ sampleUnboundParam.File.Services, svc.hasBoundMethod = false) ∧
      (applyTemplate sampleEnv sampleUnboundParam none).out = "" ∧
      (applyTemplate sampleEnv sampleUnboundParam none).err = some Error.errNoTargetService) ∧
    (handlersSucceed sampleEnv sampleParam (some sampleRegistry) = true ∧
      (expectedTrailerParams sampleEnv sampleParam (some sampleRegistry)).Services.map
          (fun svc => (svc.Name, svc.Methods.map (fun meth => meth.Name))) =
        [("Items", ["UpdateItem", "Ping"])] ∧
      Event.trailer (expectedTrailerParams sampleEnv sampleParam (some sampleRegistry)) ∈
        (applyTemplate sampleEnv sampleParam (some sampleRegistry)).log ∧
      (applyTemplate sampleEnv sampleParam (some sampleRegistry)).err = none ∧
      (applyTemplate sampleEnv sampleParam (some sampleRegistry)).out =
        bodyText sampleEnv sampleParam (some sampleRegistry) ++
          "\n\n// RegisterItemsHandlerClient registers the http handlers for service Items\n") :=
  ⟨⟨by decide,
    (applyTemplate_target_services sampleEnv sampleUnboundParam none).2.2.2.2 (by decide)⟩,
   by decide!,
   by decide,
   ((applyTemplate_target_services sampleEnv sampleParam (some sampleRegistry)).2.1
      (by decide!)).1,
   ((applyTemplate_target_services sampleEnv sampleParam (some sampleRegistry)).1
      (by decide!) (by decide)).2.1 _ rfl⟩


/-! ## C14 -/

/-- No text node of the client-streaming and bidi-streaming templates binds a
path parameter, binds query parameters, declares a query filter or handles a
field mask. -/
theorem handlerTexts_streaming_plain :
    ∀ ss body mask notWildcard : Bool, ∀ t ∈ handlerTexts true ss body mask notWildcard,
      ¬ occursIn "pathParams[" t ∧ ¬ occursIn "PopulateFieldFromPath" t ∧
      ¬ occursIn "PopulateQueryParameters" t ∧ ¬ occursIn "filter_" t ∧
      ¬ occursIn "FieldMask" t := by
  decide!

/-- C14: for a client-streaming or bidirectional-streaming method, two bindings of
the same method with the same index produce the same handler pieces, hence the
same handler text, whatever their body, path parameters, HTTP verb, registry and
patch-feature flag are; the execution succeeds, and none of its text binds a
path parameter, binds query parameters or handles a field mask. -/
theorem streaming_handler_independent (env : Env) (b1 b2 : binding)
    (hmeth : b1.Method = b2.Method) (hidx : b1.Binding.Index = b2.Binding.Index)
    (hcs : b1.Method.ClientStreaming = true) :
    ∃ ps, handlerTemplate env b1 = .ok ps ∧ handlerTemplate env b2 = .ok ps ∧
      ¬ emitsText ps "pathParams[" ∧ ¬ emitsText ps "PopulateFieldFromPath" ∧
      ¬ emitsText ps "PopulateQueryParameters" ∧ ¬ emitsText ps "filter_" ∧
      ¬ emitsText ps "FieldMask" := by
  have hcs2 : b2.Method.ClientStreaming = true := by rw [← hmeth]; exact hcs
  have hsig : requestFuncSignature env b1 = requestFuncSignature env b2 := by
    unfold requestFuncSignature
    rw [hmeth, hidx]
  have hbidi : bidiStreamingRequestFunc env b1 = bidiStreamingRequestFunc env b2 := by
    unfold bidiStreamingRequestFunc
    rw [hsig, hmeth]
  have hcstream : clientStreamingRequestFunc env b1 = clientStreamingRequestFunc env b2 := by
    unfold clientStreamingRequestFunc
    rw [hsig, hmeth]
  have hsame : handlerTemplate env b1 = handlerTemplate env b2 := by
    unfold handlerTemplate
    rw [← hmeth, hbidi, hcstream]
    simp only [hcs, Bool.true_and, if_true]
  have hok : ∃ ps, handlerTemplate env b1 = .ok ps := by
    unfold handlerTemplate
    simp only [hcs, Bool.true_and, if_true]
    split <;> exact ⟨_, rfl⟩
  obtain ⟨ps, hps⟩ := hok
  have hprov := texts_handlerTemplate env b1 ps hps
  rw [hcs] at hprov
  refine ⟨ps, hps, hsame ▸ hps, ?_, ?_, ?_, ?_, ?_⟩
  · rintro ⟨t, ht, hocc⟩
    exact (handlerTexts_streaming_plain _ _ _ _ t (hprov ht)).1 hocc
  · rintro ⟨t, ht, hocc⟩
    exact (handlerTexts_streaming_plain _ _ _ _ t (hprov ht)).2.1 hocc
  · rintro ⟨t, ht, hocc⟩
    exact (handlerTexts_streaming_plain _ _ _ _ t (hprov ht)).2.2.1 hocc
  · rintro ⟨t, ht, hocc⟩
    exact (handlerTexts_streaming_plain _ _ _ _ t (hprov ht)).2.2.2.1 hocc
  · rintro ⟨t, ht, hocc⟩
    exact (handlerTexts_streaming_plain _ _ _ _ t (hprov ht)).2.2.2.2 hocc

/-- C14 at two bindings of the client-streaming method `Upload`: one `POST` with
`body: "*"` and no path parameter, one `PATCH` with `body: "name"`, the path
parameter `id`, the patch feature enabled and no registry. Their handler text is
the same. -/
theorem streaming_handler_independent_witness :
    sampleUploadPost.Binding ≠ sampleUploadPatch.Binding ∧
    render (handlerPieces sampleEnv sampleUploadPost) =
      render (handlerPieces sampleEnv sampleUploadPatch) :=
  ⟨by decide,
   (streaming_handler_independent sampleEnv sampleUploadPost sampleUploadPatch rfl rfl rfl).elim
     (fun ps h => by
       unfold handlerPieces
       rw [h.1, h.2.1])⟩

/-! ## C12 -/

/-- The loop over the path parameters writes the body of every parameter of the
list: a successful execution has executed the body of each parameter
successfully and its output contains that body. -/
theorem clientRpcPathParamLoop_mem (env : Env) (b : binding) :
    ∀ (l : List Parameter) (loop : List Piece), clientRpcPathParamLoop env b l = .ok loop →
      ∀ param ∈ l, ∃ block pre post,
        clientRpcPathParam env b param = .ok block ∧ loop = pre ++ block ++ post := by
  intro l
  induction l with
  | nil =>
    intro loop _ param hmem
    cases hmem
  | cons a rest ih =>
    intro loop h param hmem
    unfold clientRpcPathParamLoop at h
    split at h
    · cases h
    · rename_i ps hps
      split at h
      · cases h
      · rename_i qs hqs
        cases h
        rcases List.mem_cons.mp hmem with heq | hrest
        · subst heq
          exact ⟨ps, [], qs, hps, by simp⟩
        · obtain ⟨block, pre, post, hblock, hloop⟩ := ih qs hqs param hrest
          exact ⟨block, ps ++ pre, post, hblock, by rw [hloop]; simp⟩

/-- The path parameter block of a handler contains the body of every path
parameter of the binding, after the variable block; the variable block declares
`es []int32` when `HasRepeatedEnumPathParam` holds. -/
theorem clientRpcPathParams_mem (env : Env) (b : binding) (param : Parameter)
    (ps : List Piece) (h : clientRpcPathParams env b = .ok ps)
    (hmem : param ∈ b.Binding.PathParams) :
    ∃ block pre post, clientRpcPathParam env b param = .ok block ∧
      ps = pre ++ block ++ post ∧
      (b.HasRepeatedEnumPathParam env = true → Piece.text "\n\t\tes []int32" ∈ pre) := by
  have hne : (b.Binding.PathParams.length != 0) = true := by
    cases hpp : b.Binding.PathParams with
    | nil => rw [hpp] at hmem; cases hmem
    | cons a l => simp
  unfold clientRpcPathParams at h
  rw [if_pos hne] at h
  split at h
  · cases h
  · rename_i loop hloop
    cases h
    obtain ⟨block, pre, post, hblock, hl⟩ :=
      clientRpcPathParamLoop_mem env b b.Binding.PathParams loop hloop param hmem
    refine ⟨block,
      [ Piece.text "\n\tvar (\n\t\tval string" ] ++
        (if b.HasEnumPathParam env then [ Piece.text "\n\t\te int32" ] else []) ++
        (if b.HasRepeatedEnumPathParam env then [ Piece.text "\n\t\tes []int32" ] else []) ++
        [ Piece.text "\n\t\tok bool\n\t\terr error\n\t\t_ = err\n\t)\n\t", Piece.text "\n\t" ] ++
        pre,
      post ++ [ Piece.text "\n" ], hblock, ?_, ?_⟩
    · rw [hl]
      simp only [List.append_assoc]
    · intro hrep
      simp [hrep]

/-- The handler of a binding of a method without client streaming contains the
body of every path parameter of the binding, after the variable block. -/
theorem handlerTemplate_path_param (env : Env) (b : binding) (param : Parameter)
    (ps : List Piece) (hcs : b.Method.ClientStreaming = false)
    (h : handlerTemplate env b = .ok ps) (hmem : param ∈ b.Binding.PathParams) :
    ∃ block pre post, clientRpcPathParam env b param = .ok block ∧
      ps = pre ++ block ++ post ∧
      (b.HasRepeatedEnumPathParam env = true → Piece.text "\n\t\tes []int32" ∈ pre) := by
  obtain ⟨rpc, hrpc, hps⟩ := handlerTemplate_ok_rpc env b ps hcs h
  obtain ⟨filterVar, pathParams, -, hpp, hrpceq⟩ := clientRpcRequestFunc_ok env b rpc hrpc
  obtain ⟨block, pre, post, hblock, hppeq, hes⟩ :=
    clientRpcPathParams_mem env b param pathParams hpp hmem
  refine ⟨block,
    [ Piece.text "\n", Piece.text "\n" ] ++
      ([ Piece.text "\n", Piece.text "\n" ] ++ filterVar ++ [ Piece.text "\n" ] ++
        requestFuncSignature env b ++
        [ Piece.text " \x7b\n\tvar protoReq ",
          Piece.value (env.MessageGoType b.Method.RequestType b.Method.Service.GoPkgPath),
          Piece.text "\n\tvar metadata runtime.ServerMetadata\n" ] ++
        clientRpcBody env b ++ [ Piece.text "\n" ] ++ pre),
    post ++ [ Piece.text "\n" ] ++ clientRpcQueryParams b ++ [ Piece.text "\n" ] ++
      clientRpcInvoke b ++ [ Piece.text "\n\x7d" ] ++ [ Piece.text "\n", Piece.text "\n" ],
    hblock, ?_, ?_⟩
  · rw [hps, hrpceq, hppeq]
    simp only [List.append_assoc]
  · intro hrep
    exact List.mem_append_right _ (List.mem_append_right _ (hes hrep))

/-- C12: take a binding of a method without client streaming and one of its path
parameters that is not nested, whose target type resolves to the enum `en`
(`LookupEnum` returns it and the descriptor tags the field as an enum) and whose
field is repeated, with the conversion function `conv`. The body of that
parameter is written successfully and is, in this order: the lookup of the raw
value `val`; the conversion call `es, err = conv(val, sep, <enum>_value)` with
the separator of the registry and the name-to-value table of the enum; the check
`if err != nil` that returns an `InvalidArgument` status with the parameter name
and the error; then the element-wise conversion of `es` to the enum type and the
assignment to the request field. Every successful execution of the handler
template on the binding writes exactly this body, after a variable block that
declares `es []int32`. -/
theorem repeated_enum_param_code (env : Env) (b : binding) (param : Parameter)
    (en : Enum) (conv : String)
    (hmem : param ∈ b.Binding.PathParams)
    (hcs : b.Method.ClientStreaming = false)
    (henum : b.LookupEnum env param = .ok (some en))
    (hisenum : env.ParameterIsEnum param = true)
    (hnested : env.ParameterIsNestedProto3 param = false)
    (hrep : env.ParameterIsRepeated param = true)
    (hconv : env.ParameterConvertFuncExpr param = .ok conv) :
    ∃ reg, b.Registry = some reg ∧
      clientRpcPathParam env b param = .ok
        [ Piece.text "\n\t", Piece.text "\n\tval, ok = pathParams[",
          Piece.value (env.quote (env.ParameterString param)),
          Piece.text "]\n\tif !ok \x7b\n\t\treturn nil, metadata, status.Errorf(codes.InvalidArgument, \"missing parameter %s\", ",
          Piece.value (env.quote (env.ParameterString param)),
          Piece.text ")\n\t\x7d\n",
          Piece.text "\n\te", Piece.text "s", Piece.text ", err = ", Piece.value conv, Piece.text "(val", Piece.text ", ",
          Piece.value (env.quote (String.singleton reg.RepeatedPathParamSeparator)),
          Piece.text ", ", Piece.value (env.EnumGoType en param.TargetGoPkgPath), Piece.text "_value)\n",
          Piece.text "\n\tif err != nil \x7b\n\t\treturn nil, metadata, status.Errorf(codes.InvalidArgument, \"type mismatch, parameter: %s, error: %v\", ",
          Piece.value (env.quote (env.ParameterString param)),
          Piece.text ", err)\n\t\x7d\n",
          Piece.text "\n\ts := make([]", Piece.value (env.EnumGoType en param.TargetGoPkgPath),
          Piece.text ", len(es))\n\tfor i, v := range es \x7b\n\t\ts[i] = ",
          Piece.value (env.EnumGoType en param.TargetGoPkgPath),
          Piece.text "(v)\n\t\x7d\n\t", Piece.value (env.ParameterAssignableExpr param "protoReq"),
          Piece.text " = s\n",
          Piece.text "\n\t" ] ∧
      ∀ ps, handlerTemplate env b = .ok ps → ∃ pre post,
        Piece.text "\n\t\tes []int32" ∈ pre ∧
        ps = pre ++
          [ Piece.text "\n\t", Piece.text "\n\tval, ok = pathParams[",
            Piece.value (env.quote (env.ParameterString param)),
            Piece.text "]\n\tif !ok \x7b\n\t\treturn nil, metadata, status.Errorf(codes.InvalidArgument, \"missing parameter %s\", ",
            Piece.value (env.quote (env.ParameterString param)),
            Piece.text ")\n\t\x7d\n",
            Piece.text "\n\te", Piece.text "s", Piece.text ", err = ", Piece.value conv, Piece.text "(val", Piece.text ", ",
            Piece.value (env.quote (String.singleton reg.RepeatedPathParamSeparator)),
            Piece.text ", ", Piece.value (env.EnumGoType en param.TargetGoPkgPath), Piece.text "_value)\n",
            Piece.text "\n\tif err != nil \x7b\n\t\treturn nil, metadata, status.Errorf(codes.InvalidArgument, \"type mismatch, parameter: %s, error: %v\", ",
            Piece.value (env.quote (env.ParameterString param)),
            Piece.text ", err)\n\t\x7d\n",
            Piece.text "\n\ts := make([]", Piece.value (env.EnumGoType en param.TargetGoPkgPath),
            Piece.text ", len(es))\n\tfor i, v := range es \x7b\n\t\ts[i] = ",
            Piece.value (env.EnumGoType en param.TargetGoPkgPath),
            Piece.text "(v)\n\t\x7d\n\t", Piece.value (env.ParameterAssignableExpr param "protoReq"),
            Piece.text " = s\n",
            Piece.text "\n\t" ] ++ post := by
  have hregex : ∃ reg, b.Registry = some reg := by
    cases hr : b.Registry with
    | none => simp [binding.LookupEnum, hr] at henum
    | some reg => exact ⟨reg, rfl⟩
  obtain ⟨reg, hreg⟩ := hregex
  have hlook : env.RegistryLookupEnum reg "" param.Target.TypeName = some en := by
    simpa [binding.LookupEnum, hreg] using henum
  have hblock : clientRpcPathParam env b param = .ok
      [ Piece.text "\n\t", Piece.text "\n\tval, ok = pathParams[",
        Piece.value (env.quote (env.ParameterString param)),
        Piece.text "]\n\tif !ok \x7b\n\t\treturn nil, metadata, status.Errorf(codes.InvalidArgument, \"missing parameter %s\", ",
        Piece.value (env.quote (env.ParameterString param)),
        Piece.text ")\n\t\x7d\n",
        Piece.text "\n\te", Piece.text "s", Piece.text ", err = ", Piece.value conv, Piece.text "(val", Piece.text ", ",
        Piece.value (env.quote (String.singleton reg.RepeatedPathParamSeparator)),
        Piece.text ", ", Piece.value (env.EnumGoType en param.TargetGoPkgPath), Piece.text "_value)\n",
        Piece.text "\n\tif err != nil \x7b\n\t\treturn nil, metadata, status.Errorf(codes.InvalidArgument, \"type mismatch, parameter: %s, error: %v\", ",
        Piece.value (env.quote (env.ParameterString param)),
        Piece.text ", err)\n\t\x7d\n",
        Piece.text "\n\ts := make([]", Piece.value (env.EnumGoType en param.TargetGoPkgPath),
        Piece.text ", len(es))\n\tfor i, v := range es \x7b\n\t\ts[i] = ",
        Piece.value (env.EnumGoType en param.TargetGoPkgPath),
        Piece.text "(v)\n\t\x7d\n\t", Piece.value (env.ParameterAssignableExpr param "protoReq"),
        Piece.text " = s\n",
        Piece.text "\n\t" ] := by
    simp [clientRpcPathParam, binding.LookupEnum, hreg, hlook, clientRpcConvert, hnested, hconv,
      clientRpcSeparatorArg, repeatedPathParamSeparator, hrep, clientRpcEnumAssign]
  have hrepeated : b.HasRepeatedEnumPathParam env = true := by
    unfold binding.HasRepeatedEnumPathParam binding.hasEnumPathParam
    rw [List.any_eq_true]
    exact ⟨param, hmem, by simp [hisenum, hrep]⟩
  refine ⟨reg, hreg, hblock, ?_⟩
  intro ps hps
  obtain ⟨block, pre, post, hb, hpseq, hes⟩ :=
    handlerTemplate_path_param env b param ps hcs hps hmem
  rw [hblock] at hb
  cases hb
  exact ⟨pre, post, hes hrepeated, hpseq⟩

/-- Concatenating a list of strings onto `a` prepends `a` to their concatenation. -/
theorem foldl_append_string (l : List String) :
    ∀ a : String, l.foldl (fun r s => r ++ s) a = a ++ l.foldl (fun r s => r ++ s) "" := by
  induction l with
  | nil =>
    intro a
    simp
  | cons s l ih =>
    intro a
    rw [List.foldl_cons, List.foldl_cons, ih (a ++ s), ih ("" ++ s), String.empty_append,
      String.append_assoc]

/-- The text of two lists of pieces in a row is the text of the first followed by
the text of the second. -/
theorem render_append (ps qs : List Piece) : render (ps ++ qs) = render ps ++ render qs := by
  unfold render String.join
  rw [List.map_append, List.foldl_append, foldl_append_string]

/-- C12 at the repeated enum parameter `kinds` of `GET /v1/items/{item.kind}/{kinds}`:
the body of the parameter, and the handler text that contains it after the
declaration of `es`. -/
theorem repeated_enum_param_code_witness :
    (sampleParamKinds ∈ sampleEnumBinding.Binding.PathParams ∧
      sampleEnumBinding.LookupEnum sampleEnumEnv sampleParamKinds = .ok (some sampleKind)) ∧
    render (pathParamPieces sampleEnumEnv sampleEnumBinding sampleParamKinds) =
      "\n\t\n\tval, ok = pathParams[\"kinds\"]\n\tif !ok \x7b\n\t\treturn nil, metadata, status.Errorf(codes.InvalidArgument, \"missing parameter %s\", \"kinds\")\n\t\x7d\n\n\tes, err = runtime.EnumSlice(val, \",\", Kind_value)\n\n\tif err != nil \x7b\n\t\treturn nil, metadata, status.Errorf(codes.InvalidArgument, \"type mismatch, parameter: %s, error: %v\", \"kinds\", err)\n\t\x7d\n\n\ts := make([]Kind, len(es))\n\tfor i, v := range es \x7b\n\t\ts[i] = Kind(v)\n\t\x7d\n\tprotoReq.Kinds = s\n\n\t" ∧
    ∃ pre post, Piece.text "\n\t\tes []int32" ∈ pre ∧
      render (handlerPieces sampleEnumEnv sampleEnumBinding) =
        render pre ++
        "\n\t\n\tval, ok = pathParams[\"kinds\"]\n\tif !ok \x7b\n\t\treturn nil, metadata, status.Errorf(codes.InvalidArgument, \"missing parameter %s\", \"kinds\")\n\t\x7d\n\n\tes, err = runtime.EnumSlice(val, \",\", Kind_value)\n\n\tif err != nil \x7b\n\t\treturn nil, metadata, status.Errorf(codes.InvalidArgument, \"type mismatch, parameter: %s, error: %v\", \"kinds\", err)\n\t\x7d\n\n\ts := make([]Kind, len(es))\n\tfor i, v := range es \x7b\n\t\ts[i] = Kind(v)\n\t\x7d\n\tprotoReq.Kinds = s\n\n\t" ++
        render post := by
  obtain ⟨reg, hreg, hblock, hps⟩ :=
    repeated_enum_param_code sampleEnumEnv sampleEnumBinding sampleParamKinds sampleKind
      "runtime.EnumSlice" (by decide) rfl rfl rfl rfl rfl rfl
  injection hreg with hreg
  subst hreg
  refine ⟨⟨by decide, rfl⟩, ?_, ?_⟩
  · unfold pathParamPieces
    rw [hblock]
    decide!
  · obtain ⟨pre, post, hes, heq⟩ := hps (handlerPieces sampleEnumEnv sampleEnumBinding)
      (handlerPieces_ok sampleEnumEnv sampleEnumBinding (by decide!))
    refine ⟨pre, post, hes, ?_⟩
    rw [heq, render_append, render_append]
    refine congrArg (fun s => s ++ render post) (congrArg (fun s => render pre ++ s) ?_)
    decide!

/-! ## C11 -/

/-- The code written for a nested proto3 path parameter whose enum lookup finds
nothing: the generic `runtime.PopulateFieldFromPath` call and the error check,
with no assignment to the request field. -/
theorem nested_param_without_enum (env : Env) (b : binding) (param : Parameter)
    (reg : Registry)
    (hreg : b.Registry = some reg)
    (henum : env.RegistryLookupEnum reg "" param.Target.TypeName = none)
    (hnested : env.ParameterIsNestedProto3 param = true) :
    clientRpcPathParam env b param = .ok
      [ Piece.text "\n\t", Piece.text "\n\tval, ok = pathParams[",
        Piece.value (env.quote (env.ParameterString param)),
        Piece.text "]\n\tif !ok \x7b\n\t\treturn nil, metadata, status.Errorf(codes.InvalidArgument, \"missing parameter %s\", ",
        Piece.value (env.quote (env.ParameterString param)),
        Piece.text ")\n\t\x7d\n",
        Piece.text "\n\terr = runtime.PopulateFieldFromPath(&protoReq, ",
        Piece.value (env.quote (env.ParameterString param)),
        Piece.text ", val)\n",
        Piece.text "\n\tif err != nil \x7b\n\t\treturn nil, metadata, status.Errorf(codes.InvalidArgument, \"type mismatch, parameter: %s, error: %v\", ",
        Piece.value (env.quote (env.ParameterString param)),
        Piece.text ", err)\n\t\x7d\n",
        Piece.text "\n\t" ] := by
  simp [clientRpcPathParam, binding.LookupEnum, hreg, henum, clientRpcConvert, hnested,
    clientRpcEnumAssign]

/-- The code written for a nested proto3 path parameter whose enum lookup finds
the enum `en`, the field not being repeated: the generic
`runtime.PopulateFieldFromPath` call and the error check, followed by the direct
assignment `<field> = <enum>(e)` of the second `if` of the loop body, which does
not test `IsNestedProto3`. -/
theorem nested_param_with_enum (env : Env) (b : binding) (param : Parameter)
    (reg : Registry) (en : Enum)
    (hreg : b.Registry = some reg)
    (henum : env.RegistryLookupEnum reg "" param.Target.TypeName = some en)
    (hnested : env.ParameterIsNestedProto3 param = true)
    (hrep : env.ParameterIsRepeated param = false) :
    clientRpcPathParam env b param = .ok
      [ Piece.text "\n\t", Piece.text "\n\tval, ok = pathParams[",
        Piece.value (env.quote (env.ParameterString param)),
        Piece.text "]\n\tif !ok \x7b\n\t\treturn nil, metadata, status.Errorf(codes.InvalidArgument, \"missing parameter %s\", ",
        Piece.value (env.quote (env.ParameterString param)),
        Piece.text ")\n\t\x7d\n",
        Piece.text "\n\terr = runtime.PopulateFieldFromPath(&protoReq, ",
        Piece.value (env.quote (env.ParameterString param)),
        Piece.text ", val)\n",
        Piece.text "\n\tif err != nil \x7b\n\t\treturn nil, metadata, status.Errorf(codes.InvalidArgument, \"type mismatch, parameter: %s, error: %v\", ",
        Piece.value (env.quote (env.ParameterString param)),
        Piece.text ", err)\n\t\x7d\n",
        Piece.text "\n\t", Piece.value (env.ParameterAssignableExpr param "protoReq"),
        Piece.text " = ", Piece.value (env.EnumGoType en param.TargetGoPkgPath),
        Piece.text "(e)\n",
        Piece.text "\n\t" ] := by
  simp [clientRpcPathParam, binding.LookupEnum, hreg, henum, clientRpcConvert, hnested,
    clientRpcEnumAssign, hrep]

/-- The conversion of a path parameter takes exactly one of its three forms, in
the order nested path, enum, scalar: a successful execution writes the
`PopulateFieldFromPath` call when the parameter is nested; otherwise the enum
conversion `e, err = ...` or `es, err = ...` when the enum lookup found an enum;
otherwise the scalar conversion into the request field. -/
theorem clientRpcConvert_form (env : Env) (b : binding) (param : Parameter)
    (enum : Option Enum) (ps : List Piece) (h : clientRpcConvert env b param enum = .ok ps) :
    (env.ParameterIsNestedProto3 param = true ∧
      ps = [ Piece.text "\n\terr = runtime.PopulateFieldFromPath(&protoReq, ",
             Piece.value (env.quote (env.ParameterString param)),
             Piece.text ", val)\n" ]) ∨
    (env.ParameterIsNestedProto3 param = false ∧ (∃ en, enum = some en) ∧
      ps.head? = some (Piece.text "\n\te")) ∨
    (env.ParameterIsNestedProto3 param = false ∧ enum = none ∧
      ps.take 2 = [ Piece.text "\n\t",
                    Piece.value (env.ParameterAssignableExpr param "protoReq") ]) := by
  unfold clientRpcConvert at h
  split at h
  · rename_i hn
    cases h
    exact Or.inl ⟨hn, rfl⟩
  · rename_i hn
    have hn2 : env.ParameterIsNestedProto3 param = false := by simpa using hn
    split at h
    · rename_i en
      split at h
      · cases h
      · split at h
        · cases h
        · cases h
          exact Or.inr (Or.inl ⟨hn2, ⟨en, rfl⟩, rfl⟩)
    · split at h
      · cases h
      · split at h
        · cases h
        · cases h
          exact Or.inr (Or.inr ⟨hn2, rfl, rfl⟩)

/-- C11 fails on the code: the path parameter `item.kind` of
`GET /v1/items/{item.kind}/{kinds}` is a nested proto3 field path and its enum
lookup returns the enum `Kind`; the code emitted for it calls
`runtime.PopulateFieldFromPath` and, after the error check, assigns
`Kind(e)` directly to the request field `protoReq.Item.Kind`. -/
theorem nested_enum_param_assigns :
    sampleEnumEnv.ParameterIsNestedProto3 sampleParamItemKind = true ∧
    (sampleEnumBinding.LookupEnum sampleEnumEnv sampleParamItemKind).toOption =
      some (some sampleKind) ∧
    (clientRpcPathParam sampleEnumEnv sampleEnumBinding sampleParamItemKind).toBool = true ∧
    render (pathParamPieces sampleEnumEnv sampleEnumBinding sampleParamItemKind) =
      "\n\t\n\tval, ok = pathParams[\"item.kind\"]\n\tif !ok \x7b\n\t\treturn nil, metadata, status.Errorf(codes.InvalidArgument, \"missing parameter %s\", \"item.kind\")\n\t\x7d\n\n\terr = runtime.PopulateFieldFromPath(&protoReq, \"item.kind\", val)\n\n\tif err != nil \x7b\n\t\treturn nil, metadata, status.Errorf(codes.InvalidArgument, \"type mismatch, parameter: %s, error: %v\", \"item.kind\", err)\n\t\x7d\n\n\tprotoReq.Item.Kind = Kind(e)\n\n\t" := by
  decide!

/-! ## C13 -/

/-- C13 (as stated) fails: in the run on the file with the services `admin`,
`items` and `audit`, which returns no error, the header is written before any
name is rewritten, and the handler of `update_item` is written before the method
`ping` and the service `audit` are renamed. -/
theorem rename_order_counterexample :
    (applyTemplate sampleEnv sampleParam (some sampleRegistry)).err = none ∧
    (applyTemplate sampleEnv sampleParam (some sampleRegistry)).log.map Event.kind =
      [ EventKind.header, EventKind.renameMessage 0, EventKind.renameService 0,
        EventKind.renameService 1, EventKind.renameMethod 1 0, EventKind.handler,
        EventKind.renameMethod 1 1, EventKind.renameService 2, EventKind.renameMethod 2 0,
        EventKind.trailer ] ∧
    renamesPrecedeEmission
      ((applyTemplate sampleEnv sampleParam (some sampleRegistry)).log.map Event.kind) = false := by
  decide!

theorem applyTemplate.messages_kinds (env : Env) (msgs : List Message) :
    ∀ (i : Nat) (run : Run),
      (applyTemplate.messages env i msgs run).2.log.map Event.kind =
        run.log.map Event.kind ++
          (List.range' i msgs.length).map EventKind.renameMessage := by
  induction msgs with
  | nil =>
    intro i run
    simp [applyTemplate.messages]
  | cons msg rest ih =>
    intro i run
    simp only [applyTemplate.messages]
    rw [ih (i + 1) { run with log := run.log ++ [Event.renameMessage i] }]
    simp [List.range'_succ, Event.kind]

theorem applyTemplate.bindings_kinds (env : Env) (p : param) (reg : Option Registry)
    (msgs : List Message) (svcName : String) (meth : Method) (bs : List Binding) :
    ∀ (run : Run) (seen : Bool),
      (applyTemplate.bindings env p reg msgs svcName meth bs run seen).1.err = none →
      (applyTemplate.bindings env p reg msgs svcName meth bs run seen).1.log.map Event.kind =
        run.log.map Event.kind ++ bs.map (fun _ => EventKind.handler) := by
  induction bs with
  | nil =>
    intro run seen _
    simp [applyTemplate.bindings]
  | cons b rest ih =>
    intro run seen
    simp only [applyTemplate.bindings]
    split
    · simp
    · rename_i req hreq
      split
      · simp
      · rename_i ps hps
        intro herr
        rw [ih _ true herr]
        simp [Event.kind]

theorem applyTemplate.methods_kinds (env : Env) (p : param) (reg : Option Registry)
    (msgs : List Message) (svcName : String) (si : Nat) (ms : List Method) :
    ∀ (mi : Nat) (run : Run) (seen : Bool),
      (applyTemplate.methods env p reg msgs svcName si mi ms run seen).2.1.err = none →
      (applyTemplate.methods env p reg msgs svcName si mi ms run seen).2.1.log.map Event.kind =
        run.log.map Event.kind ++
          (ms.enumFrom mi).flatMap (fun jm => methodEvents si jm.1 jm.2) := by
  induction ms with
  | nil =>
    intro mi run seen _
    simp [applyTemplate.methods]
  | cons meth rest ih =>
    intro mi run seen
    simp only [applyTemplate.methods]
    have hb := applyTemplate.bindings_kinds env p reg msgs svcName
      { meth with Name := env.CamelCase meth.Name } meth.Bindings
      { run with log := run.log ++ [Event.renameMethod si mi] } seen
    generalize applyTemplate.bindings env p reg msgs svcName
      { meth with Name := env.CamelCase meth.Name } meth.Bindings
      { run with log := run.log ++ [Event.renameMethod si mi] } seen = res at hb
    obtain ⟨run1, seen1⟩ := res
    simp only at hb ⊢
    cases herr : run1.err with
    | some e =>
      simp only [herr]
      intro h
      cases h
    | none =>
      simp only [herr]
      intro hnone
      rw [ih (mi + 1) run1 seen1 hnone, hb herr]
      simp [List.enumFrom_cons, methodEvents, Event.kind]

theorem applyTemplate.services_kinds (env : Env) (p : param) (reg : Option Registry)
    (msgs : List Message) (svcs : List Service) :
    ∀ (si : Nat) (run : Run) (targets : List Service),
      (applyTemplate.services env p reg msgs si svcs run targets).2.1.err = none →
      (applyTemplate.services env p reg msgs si svcs run targets).2.1.log.map Event.kind =
        run.log.map Event.kind ++
          (svcs.enumFrom si).flatMap (fun isvc => serviceEvents isvc.1 isvc.2) := by
  induction svcs with
  | nil =>
    intro si run targets _
    simp [applyTemplate.services]
  | cons svc rest ih =>
    intro si run targets
    simp only [applyTemplate.services]
    have hm := applyTemplate.methods_kinds env p reg msgs (env.CamelCase svc.Name) si
      svc.Methods 0 { run with log := run.log ++ [Event.renameService si] } false
    generalize applyTemplate.methods env p reg msgs (env.CamelCase svc.Name) si 0
      svc.Methods { run with log := run.log ++ [Event.renameService si] } false = res at hm
    obtain ⟨meths, run1, seen1⟩ := res
    simp only at hm ⊢
    cases herr : run1.err with
    | some e =>
      simp only [herr]
      intro h
      cases h
    | none =>
      simp only [herr]
      intro hnone
      rw [ih (si + 1) run1 _ hnone, hm herr]
      simp [List.enumFrom_cons, serviceEvents, Event.kind, List.enum]

theorem count_handlers (bs : List Binding) (e : EventKind) (he : e ≠ EventKind.handler) :
    (bs.map (fun _ => EventKind.handler)).count e = 0 := by
  apply List.count_eq_zero_of_not_mem
  intro h
  obtain ⟨_, _, hb⟩ := List.mem_map.mp h
  exact he hb.symm

theorem count_methodEvents_method (i j i2 j2 : Nat) (meth : Method) :
    (methodEvents i j meth).count (EventKind.renameMethod i2 j2) =
      if i = i2 ∧ j = j2 then 1 else 0 := by
  unfold methodEvents
  rw [List.count_cons, count_handlers _ _ (by simp)]
  by_cases h : i = i2 ∧ j = j2
  · obtain ⟨rfl, rfl⟩ := h
    simp
  · rw [if_neg h]
    have : (EventKind.renameMethod i j == EventKind.renameMethod i2 j2) = false := by
      rw [beq_eq_false_iff_ne]
      intro heq
      cases heq
      exact h ⟨rfl, rfl⟩
    simp [this]

theorem count_methodEvents_other (i j : Nat) (meth : Method) (e : EventKind)
    (he : ∀ i2 j2, e ≠ EventKind.renameMethod i2 j2) (hh : e ≠ EventKind.handler) :
    (methodEvents i j meth).count e = 0 := by
  unfold methodEvents
  rw [List.count_cons, count_handlers _ _ hh]
  have : (EventKind.renameMethod i j == e) = false := by
    rw [beq_eq_false_iff_ne]
    exact fun h => he i j h.symm
  simp [this]

theorem count_methods_method (i i2 j2 : Nat) (ms : List Method) :
    ∀ k : Nat,
      ((ms.enumFrom k).flatMap (fun jm => methodEvents i jm.1 jm.2)).count
          (EventKind.renameMethod i2 j2) =
        if i = i2 ∧ k ≤ j2 ∧ j2 < k + ms.length then 1 else 0 := by
  induction ms with
  | nil =>
    intro k
    simp only [List.enumFrom_nil, List.flatMap_nil, List.count_nil, List.length_nil,
      Nat.add_zero]
    rw [if_neg]
    omega
  | cons meth rest ih =>
    intro k
    rw [List.enumFrom_cons, List.flatMap_cons, List.count_append, ih (k + 1),
      count_methodEvents_method]
    simp only [List.length_cons]
    by_cases h1 : i = i2
    · by_cases h2 : k = j2
      · subst h1 h2
        simp
      · by_cases h3 : k + 1 ≤ j2 ∧ j2 < k + 1 + rest.length
        · have h4 : k ≤ j2 ∧ j2 < k + (rest.length + 1) := by omega
          simp [h1, h2, h3, h4]
        · have h4 : ¬ (k ≤ j2 ∧ j2 < k + (rest.length + 1)) := by omega
          simp [h1, h2, h3, h4]
    · simp [h1]

theorem count_methods_other (i : Nat) (ms : List Method) (e : EventKind)
    (he : ∀ i2 j2, e ≠ EventKind.renameMethod i2 j2) (hh : e ≠ EventKind.handler) :
    ∀ k : Nat, ((ms.enumFrom k).flatMap (fun jm => methodEvents i jm.1 jm.2)).count e = 0 := by
  induction ms with
  | nil =>
    intro k
    simp
  | cons meth rest ih =>
    intro k
    rw [List.enumFrom_cons, List.flatMap_cons, List.count_append, ih (k + 1),
      count_methodEvents_other _ _ _ _ he hh]

theorem count_serviceEvents_service (i i2 : Nat) (svc : Service) :
    (serviceEvents i svc).count (EventKind.renameService i2) = if i = i2 then 1 else 0 := by
  unfold serviceEvents List.enum
  rw [List.count_cons, count_methods_other _ _ _ (by simp) (by simp)]
  by_cases h : i = i2
  · subst h
    simp
  · have : (EventKind.renameService i == EventKind.renameService i2) = false := by
      rw [beq_eq_false_iff_ne]
      intro heq
      cases heq
      exact h rfl
    simp [this, h]

theorem count_serviceEvents_method (i i2 j2 : Nat) (svc : Service) :
    (serviceEvents i svc).count (EventKind.renameMethod i2 j2) =
      if i = i2 ∧ j2 < svc.Methods.length then 1 else 0 := by
  unfold serviceEvents List.enum
  rw [List.count_cons, count_methods_method]
  have : (EventKind.renameService i == EventKind.renameMethod i2 j2) = false := by
    rw [beq_eq_false_iff_ne]
    intro heq
    cases heq
  simp [this]

theorem count_serviceEvents_message (i i2 : Nat) (svc : Service) :
    (serviceEvents i svc).count (EventKind.renameMessage i2) = 0 := by
  unfold serviceEvents List.enum
  rw [List.count_cons, count_methods_other _ _ _ (by simp) (by simp)]
  have : (EventKind.renameService i == EventKind.renameMessage i2) = false := by
    rw [beq_eq_false_iff_ne]
    intro heq
    cases heq
  simp [this]

theorem count_services_service (i2 : Nat) (svcs : List Service) :
    ∀ k : Nat,
      ((svcs.enumFrom k).flatMap (fun isvc => serviceEvents isvc.1 isvc.2)).count
          (EventKind.renameService i2) =
        if k ≤ i2 ∧ i2 < k + svcs.length then 1 else 0 := by
  induction svcs with
  | nil =>
    intro k
    simp only [List.enumFrom_nil, List.flatMap_nil, List.count_nil, List.length_nil,
      Nat.add_zero]
    rw [if_neg]
    omega
  | cons svc rest ih =>
    intro k
    rw [List.enumFrom_cons, List.flatMap_cons, List.count_append, ih (k + 1),
      count_serviceEvents_service]
    simp only [List.length_cons]
    by_cases h2 : k = i2
    · subst h2
      simp
    · by_cases h3 : k + 1 ≤ i2 ∧ i2 < k + 1 + rest.length
      · have h4 : k ≤ i2 ∧ i2 < k + (rest.length + 1) := by omega
        simp [h2, h3, h4]
      · have h4 : ¬ (k ≤ i2 ∧ i2 < k + (rest.length + 1)) := by omega
        simp [h2, h3, h4]

theorem count_services_message (i2 : Nat) (svcs : List Service) :
    ∀ k : Nat,
      ((svcs.enumFrom k).flatMap (fun isvc => serviceEvents isvc.1 isvc.2)).count
          (EventKind.renameMessage i2) = 0 := by
  induction svcs with
  | nil =>
    intro k
    simp
  | cons svc rest ih =>
    intro k
    rw [List.enumFrom_cons, List.flatMap_cons, List.count_append, ih (k + 1),
      count_serviceEvents_message]

theorem count_services_method (j2 : Nat) (svcs : List Service) :
    ∀ (k n : Nat) (svc : Service), svcs[n]? = some svc → j2 < svc.Methods.length →
      ((svcs.enumFrom k).flatMap (fun isvc => serviceEvents isvc.1 isvc.2)).count
          (EventKind.renameMethod (k + n) j2) = 1 := by
  have hbelow : ∀ (l : List Service) (k i2 : Nat), i2 < k →
      ((l.enumFrom k).flatMap (fun isvc => serviceEvents isvc.1 isvc.2)).count
          (EventKind.renameMethod i2 j2) = 0 := by
    intro l
    induction l with
    | nil =>
      intro k i2 _
      simp
    | cons s l ih =>
      intro k i2 hlt
      rw [List.enumFrom_cons, List.flatMap_cons, List.count_append, ih (k + 1) i2 (by omega),
        count_serviceEvents_method]
      have : ¬ (k = i2 ∧ j2 < s.Methods.length) := by omega
      simp [this]
  induction svcs with
  | nil =>
    intro k n svc h
    simp at h
  | cons s rest ih =>
    intro k n svc h hj
    rw [List.enumFrom_cons, List.flatMap_cons, List.count_append, count_serviceEvents_method]
    cases n with
    | zero =>
      simp only [List.getElem?_cons_zero, Option.some.injEq] at h
      subst h
      rw [hbelow rest (k + 1) (k + 0) (by omega)]
      simp [hj]
    | succ m =>
      simp only [List.getElem?_cons_succ] at h
      have := ih (k + 1) m svc h hj
      rw [show k + (m + 1) = k + 1 + m by omega, this]
      have : ¬ (k = k + 1 + m ∧ j2 < s.Methods.length) := by omega
      simp [this]

/-- In the events of a run on a file, every message, every service and every
method of the file is renamed exactly once. -/
theorem fileEvents_renames_once (file : File) :
    (∀ i, i < file.Messages.length →
      (fileEvents file).count (EventKind.renameMessage i) = 1) ∧
    (∀ i, i < file.Services.length →
      (fileEvents file).count (EventKind.renameService i) = 1) ∧
    (∀ i j svc, file.Services[i]? = some svc → j < svc.Methods.length →
      (fileEvents file).count (EventKind.renameMethod i j) = 1) := by
  have hmsgs : ∀ (n : Nat) (e : EventKind), (∀ i, e ≠ EventKind.renameMessage i) →
      ((List.range n).map EventKind.renameMessage).count e = 0 := by
    intro n e he
    apply List.count_eq_zero_of_not_mem
    intro h
    obtain ⟨i, _, hi⟩ := List.mem_map.mp h
    exact he i hi.symm
  refine ⟨?_, ?_, ?_⟩
  · intro i hi
    unfold fileEvents List.enum
    rw [List.count_append, List.count_append, count_services_message]
    have hinj : Function.Injective EventKind.renameMessage := by
      intro a b h
      cases h
      rfl
    rw [List.count_map_of_injective _ _ hinj,
      List.count_eq_one_of_mem (List.nodup_range _) (List.mem_range.mpr hi)]
    simp
  · intro i hi
    unfold fileEvents List.enum
    rw [List.count_append, List.count_append, count_services_service, hmsgs _ _ (by simp)]
    simp [hi]
  · intro i j svc hsvc hj
    unfold fileEvents List.enum
    rw [List.count_append, List.count_append, hmsgs _ _ (by simp)]
    have := count_services_method j file.Services 0 i svc hsvc hj
    rw [Nat.zero_add] at this
    rw [this]
    simp

theorem applyTemplate.messages_grows (env : Env) (msgs : List Message) :
    ∀ (i : Nat) (run : Run),
      ∃ evs, (applyTemplate.messages env i msgs run).2.log = run.log ++ evs := by
  induction msgs with
  | nil =>
    intro i run
    exact ⟨[], by simp [applyTemplate.messages]⟩
  | cons msg rest ih =>
    intro i run
    obtain ⟨evs, h⟩ := ih (i + 1) { run with log := run.log ++ [Event.renameMessage i] }
    exact ⟨Event.renameMessage i :: evs, by simp [applyTemplate.messages, h]⟩

theorem applyTemplate.bindings_grows (env : Env) (p : param) (reg : Option Registry)
    (msgs : List Message) (svcName : String) (meth : Method) (bs : List Binding) :
    ∀ (run : Run) (seen : Bool),
      ∃ evs, (applyTemplate.bindings env p reg msgs svcName meth bs run seen).1.log =
        run.log ++ evs := by
  induction bs with
  | nil =>
    intro run seen
    exact ⟨[], by simp [applyTemplate.bindings]⟩
  | cons b rest ih =>
    intro run seen
    simp only [applyTemplate.bindings]
    split
    · exact ⟨[], by simp⟩
    · rename_i req hreq
      split
      · exact ⟨[Event.handler (applyTemplate.arg p reg svcName meth req b)], rfl⟩
      · rename_i ps hps
        obtain ⟨evs, h⟩ := ih
          { w := run.w ++ render ps,
            log := run.log ++ [Event.handler (applyTemplate.arg p reg svcName meth req b)],
            err := run.err } true
        exact ⟨Event.handler (applyTemplate.arg p reg svcName meth req b) :: evs, by
          rw [h]
          simp⟩

theorem applyTemplate.methods_grows (env : Env) (p : param) (reg : Option Registry)
    (msgs : List Message) (svcName : String) (si : Nat) (ms : List Method) :
    ∀ (mi : Nat) (run : Run) (seen : Bool),
      ∃ evs, (applyTemplate.methods env p reg msgs svcName si mi ms run seen).2.1.log =
        run.log ++ evs := by
  induction ms with
  | nil =>
    intro mi run seen
    exact ⟨[], by simp [applyTemplate.methods]⟩
  | cons meth rest ih =>
    intro mi run seen
    simp only [applyTemplate.methods]
    obtain ⟨evs1, h1⟩ := applyTemplate.bindings_grows env p reg msgs svcName
      { meth with Name := env.CamelCase meth.Name } meth.Bindings
      { run with log := run.log ++ [Event.renameMethod si mi] } seen
    generalize applyTemplate.bindings env p reg msgs svcName
      { meth with Name := env.CamelCase meth.Name } meth.Bindings
      { run with log := run.log ++ [Event.renameMethod si mi] } seen = res at h1
    obtain ⟨run1, seen1⟩ := res
    simp only at h1 ⊢
    cases herr : run1.err with
    | some e =>
      simp only [herr]
      exact ⟨Event.renameMethod si mi :: evs1, by rw [h1]; simp⟩
    | none =>
      simp only [herr]
      obtain ⟨evs2, h2⟩ := ih (mi + 1) run1 seen1
      exact ⟨Event.renameMethod si mi :: (evs1 ++ evs2), by rw [h2, h1]; simp⟩

theorem applyTemplate.services_grows (env : Env) (p : param) (reg : Option Registry)
    (msgs : List Message) (svcs : List Service) :
    ∀ (si : Nat) (run : Run) (targets : List Service),
      ∃ evs, (applyTemplate.services env p reg msgs si svcs run targets).2.1.log =
        run.log ++ evs := by
  induction svcs with
  | nil =>
    intro si run targets
    exact ⟨[], by simp [applyTemplate.services]⟩
  | cons svc rest ih =>
    intro si run targets
    simp only [applyTemplate.services]
    obtain ⟨evs1, h1⟩ := applyTemplate.methods_grows env p reg msgs (env.CamelCase svc.Name) si
      svc.Methods 0 { run with log := run.log ++ [Event.renameService si] } false
    generalize applyTemplate.methods env p reg msgs (env.CamelCase svc.Name) si 0
      svc.Methods { run with log := run.log ++ [Event.renameService si] } false = res at h1
    obtain ⟨meths, run1, seen1⟩ := res
    simp only at h1 ⊢
    cases herr : run1.err with
    | some e =>
      simp only [herr]
      exact ⟨Event.renameService si :: evs1, by rw [h1]; simp⟩
    | none =>
      simp only [herr]
      obtain ⟨evs2, h2⟩ := ih (si + 1) run1
        (if seen1 = true then
          targets ++ [{ Name := env.CamelCase svc.Name, Methods := meths }]
        else targets)
      exact ⟨Event.renameService si :: (evs1 ++ evs2), by rw [h2, h1]; simp⟩

/-- The order of the events of a run: every run of `applyTemplate` starts by executing the header
template, which writes text, before any name is rewritten. In a run that returns
no error the events are, in this order: the header; the renaming of every
message; then for each service in order the renaming of the service and, for
each of its methods in order, the renaming of the method followed by the
handlers of its bindings; the trailer last. So every message, service and
method name of the file is rewritten exactly once, the names a handler reads
are rewritten before that handler is written, and all rewriting is complete
before the trailer is written. -/
theorem applyTemplate_rename_kinds (env : Env) (p : param) (reg : Option Registry) :
    (∃ rest, (applyTemplate env p reg).log =
      Event.header
        { p with AdditionImports := applyTemplate.additionImports env p.File.Services [] } ::
        rest) ∧
    (headerTemplate env
        { p with AdditionImports := applyTemplate.additionImports env p.File.Services [] }).head? =
      some (Piece.text
        "\n// Code generated by protoc-gen-grpc-gateway. DO NOT EDIT.\n// source: ") ∧
    ((applyTemplate env p reg).err = none →
      (applyTemplate env p reg).log.map Event.kind =
        fileEvents p.File ++ [EventKind.trailer] ∧
      (∀ i, i < p.File.Messages.length →
        ((applyTemplate env p reg).log.map Event.kind).count (EventKind.renameMessage i) = 1) ∧
      (∀ i, i < p.File.Services.length →
        ((applyTemplate env p reg).log.map Event.kind).count (EventKind.renameService i) = 1) ∧
      (∀ i j svc, p.File.Services[i]? = some svc → j < svc.Methods.length →
        ((applyTemplate env p reg).log.map Event.kind).count
          (EventKind.renameMethod i j) = 1)) := by
  have hkinds : (applyTemplate env p reg).err = none →
      (applyTemplate env p reg).log.map Event.kind =
        fileEvents p.File ++ [EventKind.trailer] := by
    unfold applyTemplate
    simp only
    set P : param :=
      { p with AdditionImports := applyTemplate.additionImports env p.File.Services [] } with hP
    set R0 : Run :=
      { w := "" ++ render (headerTemplate env P), log := [Event.header P], err := none } with hR0
    have hmsg := applyTemplate.messages_kinds env p.File.Messages 0 R0
    have hmerr := (applyTemplate.messages_log env p.File.Messages 0 R0).1
    generalize applyTemplate.messages env 0 p.File.Messages R0 = M at hmsg hmerr ⊢
    obtain ⟨msgs, run1⟩ := M
    simp only at hmsg hmerr ⊢
    have hsvc := applyTemplate.services_kinds env P reg msgs p.File.Services 0 run1 []
    generalize applyTemplate.services env P reg msgs 0 p.File.Services run1 [] = S at hsvc ⊢
    obtain ⟨svcs, run2, targets⟩ := S
    simp only at hsvc ⊢
    cases herr : run2.err with
    | some e =>
      simp only
      intro h
      cases h
    | none =>
      have hlog := hsvc herr
      simp only
      cases hlen : (targets.length == 0) with
      | true =>
        simp only [if_true]
        intro h
        cases h
      | false =>
        simp only [Bool.false_eq_true, if_false]
        split
        · simp only
          intro h
          cases h
        · simp only
          intro _
          rw [List.map_append, hlog, hmsg]
          simp [fileEvents, List.enum, Event.kind, List.range_eq_range']
  have hcount : ∀ e : EventKind, e ≠ EventKind.trailer →
      (fileEvents p.File ++ [EventKind.trailer]).count e = (fileEvents p.File).count e := by
    intro e he
    rw [List.count_append]
    have : List.count e [EventKind.trailer] = 0 := by
      apply List.count_eq_zero_of_not_mem
      simpa using he
    rw [this, Nat.add_zero]
  have honce := fileEvents_renames_once p.File
  refine ⟨?_, ?_, ?_⟩
  · unfold applyTemplate
    simp only
    set P : param :=
      { p with AdditionImports := applyTemplate.additionImports env p.File.Services [] } with hP
    set R0 : Run :=
      { w := "" ++ render (headerTemplate env P), log := [Event.header P], err := none } with hR0
    obtain ⟨evs1, h1⟩ := applyTemplate.messages_grows env p.File.Messages 0 R0
    generalize applyTemplate.messages env 0 p.File.Messages R0 = M at h1 ⊢
    obtain ⟨msgs, run1⟩ := M
    simp only at h1 ⊢
    obtain ⟨evs2, h2⟩ := applyTemplate.services_grows env P reg msgs p.File.Services 0 run1 []
    generalize applyTemplate.services env P reg msgs 0 p.File.Services run1 [] = S at h2 ⊢
    obtain ⟨svcs, run2, targets⟩ := S
    simp only at h2 ⊢
    have hrun2 : run2.log = Event.header P :: (evs1 ++ evs2) := by
      rw [h2, h1]
      simp
    split
    · exact ⟨_, hrun2⟩
    · split
      · exact ⟨_, hrun2⟩
      · split
        · exact ⟨_, by rw [hrun2]; rfl⟩
        · exact ⟨_, by rw [hrun2]; rfl⟩
  · simp [headerTemplate]
  · intro herr
    have hk := hkinds herr
    refine ⟨hk, ?_, ?_, ?_⟩
    · intro i hi
      rw [hk, hcount _ (by simp)]
      exact honce.1 i hi
    · intro i hi
      rw [hk, hcount _ (by simp)]
      exact honce.2.1 i hi
    · intro i j svc hsvc hj
      rw [hk, hcount _ (by simp)]
      exact honce.2.2 i j svc hsvc hj

/-- C13 (amended): every run of `applyTemplate` starts by executing the header
template, which writes text, before any name is rewritten. Every run leaves each
message of the file with its name in CamelCase (`generator2.CamelCase` applied
once). In a run that returns no error the events are, in this order: the header;
the renaming of every message; then for each service in order the renaming of
the service and, for each of its methods in order, the renaming of the method
followed by the handlers of its bindings; the trailer last. Every message,
service and method name of the file is rewritten exactly once, the run leaves
every service and every method with its name in CamelCase, and the argument of
every handler execution carries the CamelCase name of its method and of its
service and the request type as found among the renamed messages: the names a
handler reads are rewritten before that handler is written, and all rewriting
is complete before the trailer is written. -/
theorem applyTemplate_rename_order (env : Env) (p : param) (reg : Option Registry) :
    (∃ rest, (applyTemplate env p reg).log =
      Event.header
        { p with AdditionImports := applyTemplate.additionImports env p.File.Services [] } ::
        rest) ∧
    (headerTemplate env
        { p with AdditionImports := applyTemplate.additionImports env p.File.Services [] }).head? =
      some (Piece.text
        "\n// Code generated by protoc-gen-grpc-gateway. DO NOT EDIT.\n// source: ") ∧
    ((applyTemplate env p reg).err = none →
      (applyTemplate env p reg).log.map Event.kind =
        fileEvents p.File ++ [EventKind.trailer] ∧
      (∀ i, i < p.File.Messages.length →
        ((applyTemplate env p reg).log.map Event.kind).count (EventKind.renameMessage i) = 1) ∧
      (∀ i, i < p.File.Services.length →
        ((applyTemplate env p reg).log.map Event.kind).count (EventKind.renameService i) = 1) ∧
      (∀ i j svc, p.File.Services[i]? = some svc → j < svc.Methods.length →
        ((applyTemplate env p reg).log.map Event.kind).count
          (EventKind.renameMethod i j) = 1) ∧
      (applyTemplate env p reg).file.Services =
        p.File.Services.map (fun svc =>
          { Name := env.CamelCase svc.Name,
            Methods := svc.Methods.map (fun meth =>
              { meth with Name := env.CamelCase meth.Name }) }) ∧
      (applyTemplate env p reg).log =
        fileLog env p reg ++ [Event.trailer (expectedTrailerParams env p reg)] ∧
      (∀ b, Event.handler b ∈ (applyTemplate env p reg).log →
        ∃ svc ∈ p.File.Services, ∃ meth ∈ svc.Methods,
          b.Binding ∈ meth.Bindings ∧
          b.Method.Name = env.CamelCase meth.Name ∧
          b.Method.Service.Name = env.CamelCase svc.Name ∧
          meth.RequestType.deref (applyTemplate env p reg).file.Messages =
            some b.Method.RequestType)) ∧
    (applyTemplate env p reg).file.Messages =
      p.File.Messages.map (fun msg => { msg with Name := env.CamelCase msg.Name }) := by
  have hrun := applyTemplate_run env p reg
  have hold := applyTemplate_rename_kinds env p reg
  refine ⟨hold.1, hold.2.1, ?_, hrun.1⟩
  intro herr
  obtain ⟨h1, h2, h3, h4⟩ := hold.2.2 herr
  obtain ⟨hsvcs, hlog, -⟩ := hrun.2.1 herr
  refine ⟨h1, h2, h3, h4, hsvcs, hlog, ?_⟩
  intro b hb
  rw [hlog] at hb
  rcases List.mem_append.mp hb with hb | hb
  · obtain ⟨svc, hsvc, meth, hmeth, bd, hbd, req, hreq, heq⟩ := fileLog_handler env p reg b hb
    refine ⟨svc, hsvc, meth, hmeth, ?_, ?_, ?_, ?_⟩
    · rw [heq]
      exact hbd
    · rw [heq]
      rfl
    · rw [heq]
      rfl
    · rw [hrun.1, hreq, heq]
      rfl
  · simp at hb

/-- C13 (amended) at the file with the services `admin`, `items` and `audit`: the
run returns no error, the method `update_item` (method 0 of service 1) is
renamed once, the run leaves the names `Admin`, `Items` (`UpdateItem`, `Ping`)
and `Audit` (`List`), and its one handler execution reads the names `Items`,
`UpdateItem` and `UpdateItemRequest`. -/
theorem applyTemplate_rename_order_witness :
    (applyTemplate sampleEnv sampleParam (some sampleRegistry)).err = none ∧
    (applyTemplate sampleEnv sampleParam (some sampleRegistry)).log.map Event.kind =
      fileEvents sampleParam.File ++ [EventKind.trailer] ∧
    ((applyTemplate sampleEnv sampleParam (some sampleRegistry)).log.map Event.kind).count
      (EventKind.renameMethod 1 0) = 1 ∧
    (applyTemplate sampleEnv sampleParam (some sampleRegistry)).file.Services.map
        (fun svc => (svc.Name, svc.Methods.map (fun meth => meth.Name))) =
      [("Admin", []), ("Items", ["UpdateItem", "Ping"]), ("Audit", ["List"])] ∧
    (applyTemplate sampleEnv sampleParam (some sampleRegistry)).file.Messages.map
        (fun msg => msg.Name) = ["UpdateItemRequest"] ∧
    (applyTemplate sampleEnv sampleParam (some sampleRegistry)).log.filterMap
        (fun e =>
          match e with
          | Event.handler b =>
            some (b.Method.Service.Name, b.Method.Name, b.Method.RequestType.Name)
          | _ => none) =
      [("Items", "UpdateItem", "UpdateItemRequest")] :=
  ⟨by decide!,
   ((applyTemplate_rename_order sampleEnv sampleParam (some sampleRegistry)).2.2.1
      (by decide!)).1,
   ((applyTemplate_rename_order sampleEnv sampleParam (some sampleRegistry)).2.2.1
      (by decide!)).2.2.2.1 1 0 _ rfl (by decide),
   by
     rw [((applyTemplate_rename_order sampleEnv sampleParam (some sampleRegistry)).2.2.1
       (by decide!)).2.2.2.2.1]
     decide,
   by
     rw [(applyTemplate_rename_order sampleEnv sampleParam (some sampleRegistry)).2.2.2]
     decide,
   by
     rw [((applyTemplate_rename_order sampleEnv sampleParam (some sampleRegistry)).2.2.1
       (by decide!)).2.2.2.2.2.1]
     decide!⟩

end Gengateway
